import Mathlib

/-!
Verification development for the Fix_BCD repository
(`fix_boot_bcd.py` and `registry_dict.py`).

Python strings are modelled as `List Char` (a Python `str` is a sequence of
code points; slicing is `take`/`drop`).  Python byte-array values obtained
from `int(x, 16)` are modelled as `Nat`.  Code that can raise an exception
(`IndexError`, `ValueError`, `AssertionError`, tuple-unpack errors) is
modelled with `Option`/`Except`; loops whose termination is not structural
are given explicit fuel.
-/

set_option maxRecDepth 10000

/-- Python strings as lists of code points. -/
abbrev Str := List Char

namespace FixBCD

/-! ### Hex decoding (`registry_dict.arr_from_hexstr`) -/

/-- Value of one hexadecimal digit (upper or lower case), `none` otherwise.
Comparisons are on code points, as in Python. -/
def hexDigitVal (c : Char) : Option Nat :=
  if 48 ≤ c.toNat ∧ c.toNat ≤ 57 then some (c.toNat - 48)
  else if 97 ≤ c.toNat ∧ c.toNat ≤ 102 then some (c.toNat - 97 + 10)
  else if 65 ≤ c.toNat ∧ c.toNat ≤ 70 then some (c.toNat - 65 + 10)
  else none

/-- Parse a non-empty string of hex digits, as Python `int(x, 16)` does on
the two-digit byte fields appearing in registry dumps. -/
def parseHex (s : Str) : Option Nat :=
  match s with
  | [] => none
  | _ :: _ =>
    s.foldlM (fun acc c => (hexDigitVal c).map (fun v => acc * 16 + v)) 0

/-- Split a list at every occurrence of a separator element
(Python `str.split(sep)`: `n` separators give `n+1` pieces). -/
def splitOnChar (sep : Char) (s : Str) : List Str :=
  match s with
  | [] => [[]]
  | c :: rest =>
    let r := splitOnChar sep rest
    if c = sep then [] :: r
    else match r with
      | [] => [[c]]
      | p :: ps => (c :: p) :: ps

/-- `arr_from_hexstr`: strip the `hex(7):` or `hex:` prefix and decode the
comma-separated hex byte fields.  `none` models the `ValueError` raised on a
missing prefix or an unparsable field. -/
def arr_from_hexstr (hexstr : Str) : Option (List Nat) :=
  let body : Option Str :=
    if hexstr.take 7 = "hex(7):".data then some (hexstr.drop 7)
    else if hexstr.take 4 = "hex:".data then some (hexstr.drop 4)
    else none
  match body with
  | none => none
  | some b => (splitOnChar ',' b).mapM parseHex

/-! ### The scanner (`fix_boot_bcd.counts`, `uuidstr`, `find_part_disk`) -/

/-- `counts`: number of zero bytes and of bytes in the range `32..122`
("ASCII chars") of a byte array. -/
def counts (arr : List Nat) : Nat × Nat :=
  arr.foldl
    (fun (p : Nat × Nat) val =>
      ((if val = 0 then p.1 + 1 else p.1), (if 32 ≤ val ∧ val ≤ 122 then p.2 + 1 else p.2)))
    (0, 0)

/-- Lower-case hex digits of `n`, at least `width` digits, zero padded
(Python `f"{n:02x}"` with `width = 2`). -/
def natToHexAux : Nat → Nat → Str → Str
  | 0, _, acc => acc
  | fuel + 1, n, acc =>
    let d := Nat.digitChar (n % 16)
    if n < 16 then d :: acc else natToHexAux fuel (n / 16) (d :: acc)

/-- Python `f"{n:02x}"`: lower-case hex, zero-padded to two digits. -/
def byteHex (n : Nat) : Str :=
  let s := natToHexAux (n + 1) n []
  if s.length < 2 then '0' :: s else s

/-- `uuidstr`: canonical mixed-endian UUID string of a 16-byte window
(first 4 bytes reversed, next 2 reversed, next 2 reversed, last 8 in order).
Callers always pass exactly 16 bytes; out-of-range reads default to 0. -/
def uuidstr (hex16 : List Nat) : Str :=
  byteHex (hex16.getD 3 0) ++ byteHex (hex16.getD 2 0) ++
  byteHex (hex16.getD 1 0) ++ byteHex (hex16.getD 0 0) ++ ['-'] ++
  byteHex (hex16.getD 5 0) ++ byteHex (hex16.getD 4 0) ++ ['-'] ++
  byteHex (hex16.getD 7 0) ++ byteHex (hex16.getD 6 0) ++ ['-'] ++
  byteHex (hex16.getD 8 0) ++ byteHex (hex16.getD 9 0) ++ ['-'] ++
  byteHex (hex16.getD 10 0) ++ byteHex (hex16.getD 11 0) ++
  byteHex (hex16.getD 12 0) ++ byteHex (hex16.getD 13 0) ++
  byteHex (hex16.getD 14 0) ++ byteHex (hex16.getD 15 0)

/-- Failure modes of the scanner: an out-of-bounds list access
(Python `IndexError`) versus exhausted fuel in the model. -/
inductive ScanErr where
  | index
  | fuel
deriving DecidableEq, Repr

/-- The inner `while hexarr[idx] == 0: idx += 4` loop of `find_part_disk`.
Python evaluates `hexarr[idx]` before any bound check, so an index at or
past the end raises `IndexError` (modelled `.error .index`). -/
def skipZeros (hexarr : List Nat) : Nat → Nat → Except ScanErr Nat
  | 0, _ => .error .fuel
  | fuel + 1, idx =>
    match hexarr[idx]? with
    | none => .error .index
    | some v => if v = 0 then skipZeros hexarr fuel (idx + 4) else .ok idx

/-- The candidate test on line 156 of `fix_boot_bcd.py`:
`cntz < 2 and cnta <= 10 and (ln == idx+16 or hexarr[idx+16] == 0)`.
In context `ln ≥ idx+16` always holds, so when `ln ≠ idx+16` the access
`hexarr[idx+16]` is in bounds; the default `255` is never consulted there. -/
def accept_cand (hexarr : List Nat) (ln idx : Nat) : Bool :=
  let c := counts ((hexarr.drop idx).take 16)
  decide (c.1 < 2) && decide (c.2 ≤ 10) &&
    (decide (ln = idx + 16) || decide (hexarr.getD (idx + 16) 255 = 0))

/-- The outer `while ln >= idx+16` loop of `find_part_disk`. -/
def scanLoop (hexarr : List Nat) (ln : Nat) :
    Nat → Nat → List Str → List Nat → Except ScanErr (List Str × List Nat)
  | 0, _, _, _ => .error .fuel
  | fuel + 1, idx, ids, offs =>
    if ln ≥ idx + 16 then
      match skipZeros hexarr (fuel + 1) idx with
      | .error e => .error e
      | .ok idx' =>
        if ln < idx' + 16 then .ok (ids, offs)
        else if accept_cand hexarr ln idx' then
          scanLoop hexarr ln fuel (idx' + 16 + 4)
            (ids ++ [uuidstr ((hexarr.drop idx').take 16)]) (offs ++ [idx'])
        else
          scanLoop hexarr ln fuel (idx' + 4) ids offs
    else .ok (ids, offs)

/-- `find_part_disk`: decode the hex string and scan from offset 32 for
UUID candidates.  A `ValueError` from decoding is `none`; an `IndexError`
inside the scan is `some (.error .index)`.  The fuel `ln + 2` dominates
both loops, whose index grows by at least 4 per step. -/
def find_part_disk (hexstr : Str) : Option (Except ScanErr (List Str × List Nat)) :=
  match arr_from_hexstr hexstr with
  | none => none
  | some hexarr => some (scanLoop hexarr hexarr.length (hexarr.length + 2) 32 [] [])

/-! ### Concrete scanner inputs for the end-to-end claims -/

/-- Render a byte list the way registry dumps store it:
two lower-case hex digits per byte, comma separated. -/
def encodeBytes (arr : List Nat) : Str :=
  List.intercalate [','] (arr.map byteHex)

/-- A `hex:`-tagged registry value holding the given bytes. -/
def hexValue (arr : List Nat) : Str :=
  "hex:".data ++ encodeBytes arr

/-- Byte encoding of the partition UUID `aaaaaaaa-bbbb-cccc-dddd-eeeeeeeeeeee`
(mixed-endian, as it appears inside a device-locator blob). -/
def partBytes : List Nat :=
  [0xaa, 0xaa, 0xaa, 0xaa, 0xbb, 0xbb, 0xcc, 0xcc,
   0xdd, 0xdd, 0xee, 0xee, 0xee, 0xee, 0xee, 0xee]

/-- Byte encoding of the disk UUID `11111111-2222-3333-4444-555555555555`. -/
def diskBytes : List Nat :=
  [0x11, 0x11, 0x11, 0x11, 0x22, 0x22, 0x33, 0x33,
   0x44, 0x44, 0x55, 0x55, 0x55, 0x55, 0x55, 0x55]

/-- The device-locator value of the claimed end-to-end scenario: 32 zero
bytes, the partition-UUID bytes, the disk-UUID bytes back to back, one
zero pad byte. -/
def scenarioBackToBack : Str :=
  hexValue (List.replicate 32 0 ++ partBytes ++ diskBytes ++ [0])

/-- Byte encoding of the disk UUID `11111111-1111-1111-8888-888888888888`,
whose bytes (`0x11`, `0x88`) all lie outside the printable range `32..122`
and therefore pass the scanner's candidate heuristic. -/
def diskBytesOk : List Nat :=
  [0x11, 0x11, 0x11, 0x11, 0x11, 0x11, 0x11, 0x11,
   0x88, 0x88, 0x88, 0x88, 0x88, 0x88, 0x88, 0x88]

/-- The scenario as the code actually handles it: 32 zero bytes, the
partition-UUID bytes, 8 zero bytes, heuristic-passing disk-UUID bytes,
one zero pad. -/
def scenarioGap : Str :=
  hexValue (List.replicate 32 0 ++ partBytes ++ List.replicate 8 0 ++ diskBytesOk ++ [0])

/-! ### The corrector (`fix_boot_bcd.is_uuidfmt`, `uuid_bytes`, `correct_uuid`) -/

/-- Python slice `s[a:b]` for nonnegative bounds. -/
def pySlice (s : Str) (a b : Nat) : Str :=
  (s.drop a).take (b - a)

/-- Hexadecimal digit test, as in the character class of the `is_uuidfmt`
regular expression (code-point ranges `0-9`, `a-f`, `A-F`). -/
def isHexDig (c : Char) : Bool :=
  (decide (48 ≤ c.toNat) && decide (c.toNat ≤ 57)) ||
  (decide (97 ≤ c.toNat) && decide (c.toNat ≤ 102)) ||
  (decide (65 ≤ c.toNat) && decide (c.toNat ≤ 70))

/-- `is_uuidfmt`: the string matches
`^[0-9a-fA-F]{8}-[0-9a-fA-F]{4}-[0-9a-fA-F]{4}-[0-9a-fA-F]{4}-[0-9a-fA-F]{12}$`. -/
def is_uuidfmt (s : Str) : Bool :=
  decide (s.length = 36) &&
  (List.range 36).all (fun i =>
    if i = 8 ∨ i = 13 ∨ i = 18 ∨ i = 23 then decide (s.getD i ' ' = '-')
    else isHexDig (s.getD i ' '))

/-- The sixteen two-character slices of a UUID string in the order
`uuid_bytes` emits them (mixed-endian byte order). -/
def uuidSlices (u : Str) : List Str :=
  [pySlice u 6 8, pySlice u 4 6, pySlice u 2 4, pySlice u 0 2,
   pySlice u 11 13, pySlice u 9 11,
   pySlice u 16 18, pySlice u 14 16, pySlice u 19 21, pySlice u 21 23,
   pySlice u 24 26, pySlice u 26 28, pySlice u 28 30, pySlice u 30 32,
   pySlice u 32 34, pySlice u 34 36]

/-- `uuid_bytes`: the comma-separated registry-dump text for the bytes of a
UUID string (the f-string of lines 203-205 joins the sixteen slices with
commas). -/
def uuid_bytes (u : Str) : Str :=
  List.intercalate [','] (uuidSlices u)

/-- Decoded byte values of `uuid_bytes u` (defined for well-formed `u`,
where every slice is two hex digits; the default is never used then). -/
def ubytesOf (u : Str) : List Nat :=
  (uuidSlices u).map (fun p => (parseHex p).getD 0)

/-- `correct_uuid`: find the first `:` of the element value, step to
character `ix + 3*offs + 1` and overwrite 47 characters with
`uuid_bytes uuid`.  `none` models the `assert ix >= 0` failure when the
value holds no colon. -/
def correct_uuid (uuid : Str) (offs : Nat) (dstr : Str) : Option Str :=
  match dstr.findIdx? (· = ':') with
  | none => none
  | some ix0 =>
    let ix := ix0 + 3 * offs + 1
    some (dstr.take ix ++ uuid_bytes uuid ++ dstr.drop (ix + 47))

/-- The sixteen lower-case hexadecimal digits. -/
def lowerHexDigits : Str := "0123456789abcdef".data

/-- Well-formed lower-case UUID string: 36 characters, dashes at positions
8, 13, 18, 23, lower-case hex digits elsewhere. -/
def lowerUuid (s : Str) : Bool :=
  decide (s.length = 36) &&
  (List.range 36).all (fun i =>
    if i = 8 ∨ i = 13 ∨ i = 18 ∨ i = 23 then decide (s.getD i ' ' = '-')
    else decide (s.getD i ' ' ∈ lowerHexDigits))

/-! ### Registry dump parser (`registry_dict.reg_to_dict`) -/

/-- Registry tree node: a Python dict value is either a nested dict
(branch) or a string (leaf). -/
inductive Node where
  | leaf (v : Str)
  | branch (es : List (Str × Node))
deriving Repr

/-- Membership of a key in an association list (Python `k in dict`). -/
def lookupE : List (Str × Node) → Str → Option Node
  | [], _ => none
  | (k2, n) :: rest, k => if k2 = k then some n else lookupE rest k

/-- Python dict assignment: overwrite in place, else append. -/
def setE : List (Str × Node) → Str → Node → List (Str × Node)
  | [], k, n => [(k, n)]
  | (k2, m) :: rest, k, n =>
    if k2 = k then (k2, n) :: rest else (k2, m) :: setE rest k n

/-- `add_to_dict`: walk the hierarchical key, entering existing entries and
creating empty dicts for missing ones.  Walking through or into a leaf
string raises `TypeError` in Python (`none` here) except when the final
segment lands on an existing leaf, where Python just returns the string
(flag `true`). -/
def addToDictAux : List Str → List (Str × Node) → Option (List (Str × Node) × Bool)
  | [], es => some (es, false)
  | k :: rest, es =>
    match lookupE es k with
    | some (.leaf _) => if rest = [] then some (es, true) else none
    | some (.branch es2) =>
      match addToDictAux rest es2 with
      | none => none
      | some (es2', b) => some (setE es k (.branch es2'), b)
    | none =>
      match addToDictAux rest [] with
      | none => none
      | some (es2', b) => some (es ++ [(k, .branch es2')], b)

/-- Python argument order for `addToDictAux`. -/
def add_to_dict (es : List (Str × Node)) (segs : List Str) :
    Option (List (Str × Node) × Bool) :=
  addToDictAux segs es

/-- Navigate a path of existing branches. -/
def getAtPath : List (Str × Node) → List Str → Option (List (Str × Node))
  | es, [] => some es
  | es, k :: rest =>
    match lookupE es k with
    | some (.branch es2) => getAtPath es2 rest
    | _ => none

/-- Apply an update inside the branch at a path of existing branches
(models mutation through the parser's `key` pointer). -/
def modifyAtPath : List (Str × Node) → List Str →
    (List (Str × Node) → Option (List (Str × Node))) → Option (List (Str × Node))
  | es, [], f => f es
  | es, k :: rest, f =>
    match lookupE es k with
    | some (.branch es2) =>
      match modifyAtPath es2 rest f with
      | none => none
      | some es2' => some (setE es k (.branch es2'))
    | _ => none

/-- Parser state of `reg_to_dict`: captured header, the dictionary built
so far, the current key (a path, with a flag recording whether Python's
`key` variable points at a string rather than a dict), and the current
leaf name. -/
structure PSt where
  header : Option Str
  regdict : List (Str × Node)
  key : Option (List Str × Bool)
  elem : Option Str
deriving Repr

/-- Initial parser state. -/
def initSt : PSt := ⟨none, [], none, none⟩

/-- Python truthiness of the `header` variable (`None` and `""` falsy). -/
def pyTruthyS : Option Str → Bool
  | none => false
  | some s => !s.isEmpty

/-- One iteration of the `reg_to_dict` line loop.  `none` models an
uncaught exception (`AssertionError`, `IndexError`, unpack `ValueError`,
`TypeError`/`KeyError` through the `key` pointer). -/
def parseLine (st : PSt) (ln : Str) : Option PSt :=
  if ln.head? ≠ some '[' ∧ st.key = none then
    some { st with header := if pyTruthyS st.header then st.header else some ln }
  else if ln = [] then
    some { st with key := none, elem := none }
  else if ln.head? = some '[' then
    if ln.getLast? ≠ some ']' then none
    else
      let core := (ln.drop 1).dropLast
      if core = ['\\'] then some st
      else
        let stripped := core.dropWhile (· = '\\')
        if stripped = [] then none
        else
          match add_to_dict st.regdict (splitOnChar '\\' stripped) with
          | none => none
          | some (tree', isLf) =>
            some { st with regdict := tree',
                           key := some (splitOnChar '\\' stripped, isLf) }
  else if ln.head? = some '"' then
    match st.key with
    | none => none
    | some (segs, isLf) =>
      match splitOnChar '=' ln with
      | [k0, v0] =>
        if v0 = [] then none
        else
          let val := if v0.getLast? = some '\\' then v0.dropLast else v0
          let k := k0.filter (· ≠ '"')
          if isLf then none
          else
            match modifyAtPath st.regdict segs (fun es => some (setE es k (.leaf val))) with
            | none => none
            | some tree' => some { st with regdict := tree', elem := some k }
      | _ => none
  else if ln.take 2 = [' ', ' '] then
    match st.elem with
    | none => none
    | some e =>
      if e = [] then none
      else
        let ln2 := ln.drop 2
        if ln2 = [] then none
        else
          let ln3 := if ln2.getLast? = some '\\' then ln2.dropLast else ln2
          match st.key with
          | none => none
          | some (segs, isLf) =>
            if isLf then none
            else
              match modifyAtPath st.regdict segs (fun es =>
                match lookupE es e with
                | some (.leaf v) => some (setE es e (.leaf (v ++ ln3)))
                | _ => none) with
              | none => none
              | some tree' => some { st with regdict := tree' }
  else some st

/-- Python universal-newline translation on reading a text file. -/
def universal_nl : Str → Str
  | [] => []
  | '\r' :: '\n' :: rest => '\n' :: universal_nl rest
  | '\r' :: rest => '\n' :: universal_nl rest
  | c :: rest => c :: universal_nl rest

/-- The lines of a text, without their trailing newline, as Python file
iteration yields them. -/
def toLines (t : Str) : List Str :=
  let ps := splitOnChar '\n' t
  if ps.getLast? = some [] then ps.dropLast else ps

/-- `reg_to_dict` over the contents of the dump file. -/
def reg_to_dict (text : Str) : Option (List (Str × Node) × Option Str) :=
  match (toLines (universal_nl text)).foldlM parseLine initSt with
  | none => none
  | some st => some (st.regdict, st.header)

/-! ### Registry dump serializer (`registry_dict.output_reg`) -/

/-- Python `val.find(",", start)`, as an absolute index option. -/
def findFrom (val : Str) (start : Nat) : Option Nat :=
  ((val.drop start).findIdx? (· = ',')).map (· + start)

/-- `output_elem`: write one leaf value with the wrap-at-comma policy
(wrap column 66 for the first segment, 76 afterwards).  When no comma is
found the Python loop re-runs on the unchanged value, so the model takes
fuel; `none` means the fuel ran out, and if that happens for every fuel
the source loops forever. -/
def output_elem : Nat → Nat → Str → Option Str
  | 0, _, _ => none
  | fuel + 1, wrap, val =>
    if val = [] then some []
    else if val.length ≤ wrap then some (val ++ ['\n'])
    else
      match findFrom val (wrap - 2) with
      | none =>
        match output_elem fuel 76 val with
        | none => none
        | some s => some ('\\' :: '\n' :: ' ' :: ' ' :: s)
      | some i =>
        match output_elem fuel 76 (val.drop (i + 1)) with
        | none => none
        | some s => some (val.take (i + 1) ++ '\\' :: '\n' :: ' ' :: ' ' :: s)

/-- `output_regsub`: emit the leaves and sub-branches of one dict.  The
first fuel bounds the tree recursion in the model (the Python recursion
terminates on every finite dict, and every use supplies enough); the
second is `output_elem`'s wrap-loop fuel. -/
def output_regsub : Nat → Nat → Str → List (Str × Node) → Option Str
  | _, _, _, [] => some []
  | dfuel + 1, efuel, pre, (k, .leaf v) :: rest =>
    match output_elem efuel 66 v with
    | none => none
    | some e =>
      match output_regsub dfuel efuel pre rest with
      | none => none
      | some r => some ('"' :: k ++ ('"' :: '=' :: (e ++ r)))
  | dfuel + 1, efuel, pre, (k, .branch es) :: rest =>
    match output_regsub dfuel efuel (pre ++ '\\' :: k) es with
    | none => none
    | some sub =>
      match output_regsub dfuel efuel pre rest with
      | none => none
      | some r =>
        some ('\n' :: '[' :: (pre ++ '\\' :: k ++ (']' :: '\n' :: (sub ++ r))))
  | 0, _, _, _ :: _ => none

/-- Newline translation of `open(..., newline = "\r\n")`. -/
def crlf : Str → Str
  | [] => []
  | '\n' :: rest => '\r' :: '\n' :: crlf rest
  | c :: rest => c :: crlf rest

/-- `output_reg`: header (when truthy) and blank line, root marker,
recursive body, final blank line, with CRLF line endings. -/
def output_reg (regd : List (Str × Node)) (header : Option Str) (fuel : Nat) : Option Str :=
  match output_regsub fuel fuel ['\\'] regd with
  | none => none
  | some body =>
    let txt :=
      (if pyTruthyS header then header.getD [] ++ ['\n', '\n'] else []) ++
      ('[' :: '\\' :: ']' :: '\n' :: (body ++ ['\n']))
    some (crlf txt)

/-! ### The entry walker (`fix_boot_bcd.list_and_correct_entries`, `select_uuid`, `main`)

The walker works on the parsed registry tree.  Python exceptions
(`KeyError`, `TypeError`, `AttributeError`, `IndexError`, failing
`assert`) abort the program; all are modelled as `none`.  Standard input
is modelled as the list of lines `input()` would return, threaded through
the computation; `print` output is dropped, but an expression inside a
printed f-string that can raise still contributes its failure case. -/

/-- Association-list lookup (`dct[k]` / `k in dct`) for plain values. -/
def lookupS {α : Type} : List (Str × α) → Str → Option α
  | [], _ => none
  | (k2, v) :: rest, k => if k2 = k then some v else lookupS rest k

/-- `a` is a prefix of `b` (character-wise). -/
def startsWithB : Str → Str → Bool
  | [], _ => true
  | _ :: _, [] => false
  | a :: as2, b :: bs => a == b && startsWithB as2 bs

/-- Python substring test `x in s` on strings. -/
def strContains : Str → Str → Bool
  | [], needle => needle.isEmpty
  | c :: rest, needle => startsWithB needle (c :: rest) || strContains rest needle

/-- Python `x in node`: key membership on a dict, substring test on a
string value. -/
def pyIn (x : Str) : Node → Bool
  | .branch es => (lookupE es x).isSome
  | .leaf v => strContains v x

/-- Python `s.replace("\\\\", "\\")`: collapse doubled backslashes,
scanning left to right. -/
def replacePairBS : Str → Str
  | '\\' :: '\\' :: rest => '\\' :: replacePairBS rest
  | c :: rest => c :: replacePairBS rest
  | [] => []

/-- Python truthiness of `resp` (`None` and `""` falsy). -/
def pyFalsyOS : Option Str → Bool
  | none => true
  | some s => s.isEmpty

/-- `elms[key]['Element']` as a string: `none` models the `TypeError`
when `elms[key]` is a string, the `KeyError` when `'Element'` is absent,
and (conflated into the same failure) the `TypeError` raised downstream
when the `'Element'` entry is itself a dict handed to string code. -/
def getLeafElement (elmsE : List (Str × Node)) (key : Str) : Option Str :=
  match lookupE elmsE key with
  | some (.branch ges) =>
    match lookupE ges "Element".data with
    | some (.leaf v) => some v
    | _ => none
  | _ => none

/-- In-place update `elms[key]['Element'] = v` (callers only reach it
after `getLeafElement` succeeded, so the fallthrough is never taken). -/
def setLeafElement (elmsE : List (Str × Node)) (key : Str) (v : Str) :
    List (Str × Node) :=
  match lookupE elmsE key with
  | some (.branch ges) => setE elmsE key (.branch (setE ges "Element".data (.leaf v)))
  | _ => elmsE

/-- The `while True` answer loop of `select_uuid`.  An empty answer
returns `None`; an answer that is a partition UUID (a key of `PartUUIDs`)
is returned; an answer containing a comma reaches `ans.split[","]`, which
subscripts the bound method itself and raises `TypeError` (`none`); an
answer equal to some device name returns that partition's UUID; anything
else asks again.  Exhausted input models `EOFError` from `input()`. -/
def selectLoop (PartUUIDs : List (Str × Str)) : List Str → Option (Option Str × List Str)
  | [] => none
  | ans :: rest =>
    if ans.isEmpty then some (none, rest)
    else if (lookupS PartUUIDs ans).isSome then some (some ans, rest)
    else if ans.contains ',' then none
    else
      match PartUUIDs.find? (fun p => p.2 == ans) with
      | some p => some (some p.1, rest)
      | none => selectLoop PartUUIDs rest

/-- `select_uuid`: before the answer loop the partition listing is
printed, which evaluates `partkey(PartUUIDs[part])` for every partition
(`st[-2]` raises `IndexError` on a name shorter than 2 characters) and
`PartDescr[part]` (`KeyError` when missing); both abort before any input
is read. -/
def select_uuid (PartUUIDs PartDescr : List (Str × Str)) (inputs : List Str) :
    Option (Option Str × List Str) :=
  if PartUUIDs.any (fun p => decide (p.2.length < 2)) then none
  else if PartUUIDs.any (fun p => (lookupS PartDescr p.1).isNone) then none
  else selectLoop PartUUIDs inputs

/-- One `desc += " (" + elms[fkey]['Element'].replace("\\\\", "\\") + ")"`
block, guarded by `fkey in elms and 'Element' in elms[fkey]`.  The
description is a tree node because `elms[desc_key]["Element"]` may be a
dict: appending to it then raises `TypeError` (`none`), as does
`elms[fkey]` being a string or its `'Element'` entry being a dict. -/
def descExtend (elmsE : List (Str × Node)) (fkey : Str) (desc : Node) : Option Node :=
  match lookupE elmsE fkey with
  | none => some desc
  | some f =>
    if pyIn "Element".data f then
      match f with
      | .leaf _ => none
      | .branch fes =>
        match lookupE fes "Element".data with
        | some (.leaf v) =>
          match desc with
          | .leaf d => some (.leaf (d ++ " (".data ++ replacePairBS v ++ [')']))
          | .branch _ => none
        | some (.branch _) => none
        | none => none
    else some desc

/-- The body of `if key in elms:` for one of the two keys
`(disk_key, osdk_key)`: scan the element, then either count the entry as
unfixed, patch an unknown partition after asking the user, fix a wrong
disk UUID, or accept it.  Returns the updated `Elements` dict, the `resp`
variable, the remaining input lines, and the `fixes`/`unfixed`
increments; `none` is an uncaught exception. -/
def processKey (PartUUIDs : List (Str × Str)) (PartDisks : List (Str × Option Str))
    (PartDskNm PartDescr : List (Str × Str)) (nochange : Bool) (ovwr_list : List Str)
    (elmsE : List (Str × Node)) (key : Str) (resp : Option Str) (inputs : List Str) :
    Option (List (Str × Node) × Option Str × List Str × Nat × Nat) :=
  if (lookupE elmsE key).isNone then some (elmsE, resp, inputs, 0, 0)
  else
    match getLeafElement elmsE key with
    | none => none
    | some v =>
      match find_part_disk v with
      | none => none
      | some (.error _) => none
      | some (.ok (ids, offs)) =>
        if ids.length ≠ 2 then some (elmsE, resp, inputs, 0, 1)
        else
          match ids with
          | id0 :: id1 :: _ =>
            if (lookupS PartUUIDs id0).isNone ∨ id0 ∈ ovwr_list then
              match (if pyFalsyOS resp ∧ ¬nochange
                     then select_uuid PartUUIDs PartDescr inputs
                     else some (resp, inputs)) with
              | none => none
              | some (resp2, inputs2) =>
                if pyFalsyOS resp2 ∨ nochange then some (elmsE, resp2, inputs2, 0, 1)
                else
                  match resp2 with
                  | none => none
                  | some r =>
                    match offs[0]?, offs[1]? with
                    | some o0, some o1 =>
                      match correct_uuid r o0 v with
                      | none => none
                      | some v1 =>
                        match lookupS PartDisks r with
                        | none => none
                        | some none => none
                        | some (some d) =>
                          match correct_uuid d o1 v1 with
                          | none => none
                          | some v2 =>
                            match find_part_disk v2 with
                            | some (.ok (ids2, _)) =>
                              if ids2[0]? = some r ∧ ids2[1]? = some d then
                                some (setLeafElement elmsE key v2, some r, inputs2, 2, 0)
                              else none
                            | _ => none
                    | _, _ => none
            else
              match lookupS PartDisks id0 with
              | none => some (elmsE, resp, inputs, 0, 1)
              | some dOpt =>
                if pyFalsyOS dOpt then some (elmsE, resp, inputs, 0, 1)
                else
                  match dOpt with
                  | some d =>
                    if id1 ≠ d then
                      match lookupS PartUUIDs id0 with
                      | none => none
                      | some _ =>
                        if ¬nochange then
                          match offs[1]? with
                          | none => none
                          | some o1 =>
                            match correct_uuid d o1 v with
                            | none => none
                            | some v2 => some (setLeafElement elmsE key v2, resp, inputs, 1, 0)
                        else some (elmsE, resp, inputs, 0, 1)
                    else
                      match lookupS PartUUIDs id0, lookupS PartDskNm id0 with
                      | some _, some _ => some (elmsE, resp, inputs, 0, 0)
                      | _, _ => none
                  | none => none
          | _ => none

/-- One iteration of the `for obk, ob in objs.items():` loop: fetch
`ob["Elements"]`, skip entries without a described element, build the
description, then run the two keys `11000001` and `21000001` with the
`resp` variable starting at `None`. -/
def processObject (PartUUIDs : List (Str × Str)) (PartDisks : List (Str × Option Str))
    (PartDskNm PartDescr : List (Str × Str)) (nochange : Bool) (ovwr_list : List Str)
    (ob : Node) (inputs : List Str) : Option (Node × List Str × Nat × Nat) :=
  match ob with
  | .leaf _ => none
  | .branch obE =>
    match lookupE obE "Elements".data with
    | none => none
    | some elmsNode =>
      if ¬ pyIn "12000004".data elmsNode then some (ob, inputs, 0, 0)
      else
        match elmsNode with
        | .leaf _ => none
        | .branch elmsE =>
          match lookupE elmsE "12000004".data with
          | none => none
          | some d =>
            if ¬ pyIn "Element".data d then some (ob, inputs, 0, 0)
            else
              match d with
              | .leaf _ => none
              | .branch des =>
                match lookupE des "Element".data with
                | none => none
                | some desc0 =>
                  match descExtend elmsE "12000002".data desc0 with
                  | none => none
                  | some desc1 =>
                    match descExtend elmsE "22000002".data desc1 with
                    | none => none
                    | some _ =>
                      match processKey PartUUIDs PartDisks PartDskNm PartDescr
                          nochange ovwr_list elmsE "11000001".data none inputs with
                      | none => none
                      | some (e1, r1, i1, f1, u1) =>
                        match processKey PartUUIDs PartDisks PartDskNm PartDescr
                            nochange ovwr_list e1 "21000001".data r1 i1 with
                        | none => none
                        | some (e2, _, i2, f2, u2) =>
                          some (.branch (setE obE "Elements".data (.branch e2)),
                                i2, f1 + f2, u1 + u2)

/-- The whole `objs.items()` loop, accumulating fixes and unfixed counts
and rebuilding the mutated object dict. -/
def processObjects (PartUUIDs : List (Str × Str)) (PartDisks : List (Str × Option Str))
    (PartDskNm PartDescr : List (Str × Str)) (nochange : Bool) (ovwr_list : List Str) :
    List (Str × Node) → List Str → Option (List (Str × Node) × List Str × Nat × Nat)
  | [], inputs => some ([], inputs, 0, 0)
  | (obk, ob) :: rest, inputs =>
    match processObject PartUUIDs PartDisks PartDskNm PartDescr
        nochange ovwr_list ob inputs with
    | none => none
    | some (ob2, i1, f1, u1) =>
      match processObjects PartUUIDs PartDisks PartDskNm PartDescr
          nochange ovwr_list rest i1 with
      | none => none
      | some (rest2, i2, f2, u2) => some ((obk, ob2) :: rest2, i2, f1 + f2, u1 + u2)

/-- `list_and_correct_entries`: walk `regd["Objects"]` and return
`(fixes, unfixed)` together with the mutated tree and the remaining input
lines.  A missing `Objects` key is a `KeyError` and a string value there
makes `objs.items()` raise `AttributeError` (both `none`). -/
def list_and_correct_entries (regd : List (Str × Node)) (nochange : Bool)
    (ovwr_list : List Str) (PartUUIDs : List (Str × Str))
    (PartDisks : List (Str × Option Str)) (PartDskNm PartDescr : List (Str × Str))
    (inputs : List Str) : Option (Nat × Nat × List (Str × Node) × List Str) :=
  match lookupE regd "Objects".data with
  | some (.branch objsE) =>
    match processObjects PartUUIDs PartDisks PartDskNm PartDescr
        nochange ovwr_list objsE inputs with
    | none => none
    | some (objs2, ins2, fixes, unfixed) =>
      some (fixes, unfixed, setE regd "Objects".data (.branch objs2), ins2)
  | _ => none

/-- One iteration of `main`'s file loop: parse the dump text
(`RegDict(arg)` runs `reg_to_dict` on the exported file), walk and fix the
entries, and when `fixes` is truthy serialize the tree back
(`bcd.write(True)`; a serializer that never terminates is fuel exhaustion,
`none`).  Returns this file's `unfixed` count and the remaining input
lines. -/
def processFile (nochange : Bool) (ovwr_list : List Str) (PartUUIDs : List (Str × Str))
    (PartDisks : List (Str × Option Str)) (PartDskNm PartDescr : List (Str × Str))
    (wfuel : Nat) (dump : Str) (inputs : List Str) : Option (Nat × List Str) :=
  match reg_to_dict dump with
  | none => none
  | some (dct, hdr) =>
    match list_and_correct_entries dct nochange ovwr_list PartUUIDs PartDisks
        PartDskNm PartDescr inputs with
    | none => none
    | some (fixes, unfixed, dct2, ins2) =>
      if fixes = 0 then some (unfixed, ins2)
      else
        match output_reg dct2 hdr wfuel with
        | none => none
        | some _ => some (unfixed, ins2)

/-- `main`'s `for arg in args:` loop.  The second argument is the current
value of the `unfixed` variable, which each iteration REBINDS to its own
file's count; after the loop `main` returns that variable. -/
def main_loop (nochange : Bool) (ovwr_list : List Str) (PartUUIDs : List (Str × Str))
    (PartDisks : List (Str × Option Str)) (PartDskNm PartDescr : List (Str × Str))
    (wfuel : Nat) : List Str → Nat → List Str → Option Nat
  | [], last, _ => some last
  | d :: rest, _, inputs =>
    match processFile nochange ovwr_list PartUUIDs PartDisks PartDskNm PartDescr
        wfuel d inputs with
    | none => none
    | some (u, ins2) =>
      main_loop nochange ovwr_list PartUUIDs PartDisks PartDskNm PartDescr
        wfuel rest u ins2

/-- `main` for a non-empty argument list (with no arguments `usage()`
calls `sys.exit(1)` before the loop, modelled `none`): the returned value
is passed to `sys.exit`, so it is the process exit code. -/
def main_over (nochange : Bool) (ovwr_list : List Str) (PartUUIDs : List (Str × Str))
    (PartDisks : List (Str × Option Str)) (PartDskNm PartDescr : List (Str × Str))
    (wfuel : Nat) (args : List Str) (inputs : List Str) : Option Nat :=
  match args with
  | [] => none
  | _ :: _ =>
    main_loop nochange ovwr_list PartUUIDs PartDisks PartDskNm PartDescr
      wfuel args 0 inputs

/-- Input threading of a prefix of the file loop: the input lines left
after processing these files in order (all of them succeeding). -/
def mainThread (nochange : Bool) (ovwr_list : List Str) (PartUUIDs : List (Str × Str))
    (PartDisks : List (Str × Option Str)) (PartDskNm PartDescr : List (Str × Str))
    (wfuel : Nat) : List Str → List Str → Option (List Str)
  | [], inputs => some inputs
  | d :: rest, inputs =>
    match processFile nochange ovwr_list PartUUIDs PartDisks PartDskNm PartDescr
        wfuel d inputs with
    | none => none
    | some (_, ins2) =>
      mainThread nochange ovwr_list PartUUIDs PartDisks PartDskNm PartDescr
        wfuel rest ins2

/-! ### Concrete files for the exit-code claim -/

/-- Join dump lines with newlines (trailing newline included). -/
def dumpLines (ls : List Str) : Str :=
  (ls.map (· ++ ['\n'])).flatten

/-- A device-locator value whose scan yields a single UUID: 32 zero
bytes, the partition-UUID bytes, one zero pad. -/
def oneUuidVal : Str :=
  hexValue (List.replicate 32 0 ++ partBytes ++ [0])

/-- A hive dump with one boot entry whose device element scans to a
single UUID, leaving that entry unfixed. -/
def c9dump1 : Str :=
  dumpLines
    ["HDR".data, [],
     "[\\Objects]".data,
     "[\\Objects\\o1]".data,
     "[\\Objects\\o1\\Elements]".data,
     "[\\Objects\\o1\\Elements\\12000004]".data,
     "\"Element\"=desc".data,
     "[\\Objects\\o1\\Elements\\11000001]".data,
     "\"Element\"".data ++ '=' :: oneUuidVal]

/-- A hive dump with an empty `Objects` key: nothing to fix. -/
def c9dump2 : Str :=
  dumpLines ["HDR".data, [], "[\\Objects]".data]
/-! ### Round-trip infrastructure (claim C1)

`parseLines` is the parser's line loop; `segString`, `leafLinesOf` and
`contLinesOf` describe the line structure that `output_elem` emits for a
wrapped value; `preOf` is the bracket-path prefix that `output_regsub`
threads; `setAtPath` is the pure form of the mutation the parser performs
through its `key` pointer.  The `Wf*` predicates delimit the trees and
headers on which the serializer emits a dump the parser maps back to the
same tree. -/

/-- The parser's `for ln in open(...)` loop as a fold over lines. -/
def parseLines (st : PSt) (ls : List Str) : Option PSt :=
  ls.foldlM parseLine st

/-- The string `output_elem` prints for value segments `segs`: each
segment but the last is followed by `\`, newline and two-space
indentation;  the last by a newline. -/
def segString : List Str → Str
  | [] => []
  | [sg] => sg ++ ['\n']
  | sg :: rest => sg ++ '\\' :: '\n' :: ' ' :: ' ' :: segString rest

/-- The continuation lines of a wrapped value, one per segment after the
first. -/
def contLinesOf : List Str → List Str
  | [] => []
  | [sg] => [' ' :: ' ' :: sg]
  | sg :: rest => (' ' :: ' ' :: (sg ++ ['\\'])) :: contLinesOf rest

/-- All lines of one serialized leaf `"k"=` with value segments `segs`. -/
def leafLinesOf (k : Str) : List Str → List Str
  | [] => []
  | [sg] => ['"' :: (k ++ '"' :: '=' :: sg)]
  | sg :: rest => ('"' :: (k ++ '"' :: '=' :: (sg ++ ['\\']))) :: contLinesOf rest

/-- The `pre` argument `output_regsub` receives for the branch at path
`Q`: `"\\"` at the root, then `pre + "\\" + key` per level. -/
def preOf (Q : List Str) : Str :=
  '\\' :: Q.flatMap (fun s => '\\' :: s)

/-- Replace the entry list of the branch at path `Q` (pure form of the
parser's in-place mutation; identity when the path is missing). -/
def setAtPath : List (Str × Node) → List Str → List (Str × Node) → List (Str × Node)
  | _, [], new => new
  | t, k :: rest, new =>
    match lookupE t k with
    | some (.branch e2) => setE t k (.branch (setAtPath e2 rest new))
    | _ => t

/-- Free of both newline characters. -/
def noNl (s : Str) : Bool :=
  decide ('\n' ∉ s) && decide ('\r' ∉ s)

/-- A leaf entry the serializer can emit reversibly: nonempty key
without quotes, `=` or newlines; nonempty value without `=` or newlines
that ends in neither a backslash (would be eaten as a continuation
marker) nor a comma (would wrap into an empty continuation line). -/
def wfLeafKV (k v : Str) : Bool :=
  !k.isEmpty && noNl k && decide ('"' ∉ k) && decide ('=' ∉ k) &&
  !v.isEmpty && noNl v && decide ('=' ∉ v) &&
  decide (v.getLast? ≠ some '\\') && decide (v.getLast? ≠ some ',')

/-- A branch key the bracket line reproduces: nonempty, no newlines, no
backslash (the path separator). -/
def wfKey (k : Str) : Bool :=
  !k.isEmpty && noNl k && decide ('\\' ∉ k)

/-- All keys on a path are well-formed. -/
def wfPath (Q : List Str) : Bool :=
  Q.all wfKey

/-- Discriminate leaf entries. -/
def isLeafE : Str × Node → Bool
  | (_, .leaf _) => true
  | (_, .branch _) => false

/-- Entry lists whose serialization parses back: keys are distinct, every
leaf precedes every branch (the serializer emits entries in list order,
and a leaf line printed after a sub-block would be attributed to that
sub-block's key by the parser), and all keys and values are well formed. -/
inductive WfEntries : List (Str × Node) → Prop where
  | nil : WfEntries []
  | leaf {k v rest} : wfLeafKV k v = true → (∀ e ∈ rest, e.1 ≠ k) →
      WfEntries rest → WfEntries ((k, .leaf v) :: rest)
  | branch {k es2 rest} : wfKey k = true →
      (∀ e ∈ rest, isLeafE e = false ∧ e.1 ≠ k) →
      WfEntries es2 → WfEntries rest → WfEntries ((k, .branch es2) :: rest)

/-- A whole tree the serializer round-trips: well-formed entries and no
top-level leaves (a leaf line before the first bracket line would be
swallowed as header material). -/
def WfRoot (regd : List (Str × Node)) : Prop :=
  (∀ e ∈ regd, isLeafE e = false) ∧ WfEntries regd

/-- A header line the parser recovers: nonempty (falsy headers are not
re-emitted), no newlines, not starting with `[`. -/
def wfHeader (s : Str) : Bool :=
  !s.isEmpty && noNl s && decide (s.head? ≠ some '[')

/-! #### The dump grammar of the specification

`specGrammar` transcribes the grammar the specification states for dump
files (an optional header line, a blank line, then blocks of one
bracketed key line followed by leaf lines whose values may continue on
two-space-indented lines after a trailing backslash, with blank lines
ending blocks).  It is written from the specification's wording, not from
the code, and serves to exhibit grammar-respecting inputs. -/

/-- A bracketed key line. -/
def gBracket (l : Str) : Bool :=
  l.head? == some '[' && l.getLast? == some ']' && decide (2 ≤ l.length)

/-- A leaf line `"name"=value`. -/
def gLeaf (l : Str) : Bool :=
  l.head? == some '"' && l.contains '='

/-- A continuation line: two spaces of indentation, nonempty payload. -/
def gCont (l : Str) : Bool :=
  l.take 2 == [' ', ' '] && !(l.drop 2).isEmpty

/-- Line ends in the `more follows` backslash marker. -/
def gMore (l : Str) : Bool :=
  l.getLast? == some '\\'

/-- A header line: nonempty and none of the other line forms. -/
def gHeader (l : Str) : Bool :=
  !l.isEmpty && !(l.head? == some '[') && !(l.head? == some '"') &&
  !(l.head? == some ' ')

/-- Block structure: first flag records whether a bracketed key line is
active, second whether the previous value line announced a continuation. -/
def grammarBlocks : Bool → Bool → List Str → Bool
  | _, true, [] => false
  | _, false, [] => true
  | inB, true, l :: rest => gCont l && grammarBlocks inB (gMore l) rest
  | inB, false, l :: rest =>
    if l.isEmpty then grammarBlocks false false rest
    else if gBracket l then grammarBlocks true false rest
    else if gLeaf l then inB && grammarBlocks inB (gMore l) rest
    else false

/-- The dump grammar of the specification, over the text's lines. -/
def specGrammar (d : Str) : Bool :=
  match toLines (universal_nl d) with
  | [] => true
  | l :: rest =>
    if gBracket l then grammarBlocks false false (l :: rest)
    else
      gHeader l &&
      match rest with
      | [] => false
      | b :: rest2 => b.isEmpty && grammarBlocks false false rest2

/-! #### Concrete dumps for the round-trip claim -/

/-- Header of the concrete round-trip examples. -/
def c1hdr : Str := "HDR".data

/-- A one-entry tree: branch `A` holding leaf `"k"=aa,bb`. -/
def c1tree : List (Str × Node) :=
  [("A".data, .branch [("k".data, .leaf "aa,bb".data)])]

/-- A grammar-valid dump of `c1tree` whose short value is wrapped after
the comma — a wrap point the serializer would not choose. -/
def c1noncanon : Str :=
  crlf ("HDR\n\n[\\]\n\n[\\A]\n\"k\"=aa,\\\n  bb\n".data)

/-- The canonical serialization of `c1tree`. -/
def c1canon : Str :=
  (output_reg c1tree (some c1hdr) 10).getD []
end FixBCD

namespace FixBCD

/-! ### Shared lemmas on hex encoding and comma-joined pieces -/

/-- Facts about the two-digit hex rendering of a byte. -/
theorem byteHex_spec : ∀ n < 256,
    (byteHex n).length = 2 ∧ ',' ∉ byteHex n ∧ parseHex (byteHex n) = some n := by
  decide

/-- Rendering the parsed value of two lower-case hex digits gives the
digits back. -/
theorem hexPair_roundtrip : ∀ c1 ∈ lowerHexDigits, ∀ c2 ∈ lowerHexDigits,
    byteHex ((parseHex [c1, c2]).getD 0) = [c1, c2] := by
  decide

theorem intercalate_cons_ne_nil (x : Str) (xs : List Str) (h : xs ≠ []) :
    List.intercalate [','] (x :: xs) = x ++ ',' :: List.intercalate [','] xs := by
  cases xs with
  | nil => simp at h
  | cons y ys => simp [List.intercalate, List.intersperse]

theorem intercalate_singleton (x : Str) : List.intercalate [','] [x] = x := by
  simp [List.intercalate]

theorem splitOnChar_ne_nil (sep : Char) (s : Str) : splitOnChar sep s ≠ [] := by
  cases s with
  | nil => simp [splitOnChar]
  | cons c rest =>
    rw [splitOnChar]
    split
    · simp
    · split <;> simp

theorem splitOnChar_no_sep (a : Str) (h : ',' ∉ a) : splitOnChar ',' a = [a] := by
  induction a with
  | nil => rfl
  | cons c rest ih =>
    simp only [List.mem_cons, not_or] at h
    rw [splitOnChar]
    simp only [if_neg (show ¬(c = ',') from fun hh => h.1 hh.symm)]
    rw [ih h.2]

theorem splitOnChar_append (a b : Str) (h : ',' ∉ a) :
    splitOnChar ',' (a ++ ',' :: b) = a :: splitOnChar ',' b := by
  induction a with
  | nil => simp [splitOnChar]
  | cons c rest ih =>
    simp only [List.mem_cons, not_or] at h
    rw [List.cons_append, splitOnChar]
    simp only [if_neg (show ¬(c = ',') from fun hh => h.1 hh.symm)]
    rw [ih h.2]

/-- Splitting a comma-join of comma-free pieces recovers the pieces. -/
theorem splitOnChar_intercalate (ps : List Str) (h : ps ≠ []) (hp : ∀ p ∈ ps, ',' ∉ p) :
    splitOnChar ',' (List.intercalate [','] ps) = ps := by
  induction ps with
  | nil => simp at h
  | cons p ps ih =>
    cases ps with
    | nil =>
      rw [intercalate_singleton]
      exact splitOnChar_no_sep p (hp p (by simp))
    | cons q qs =>
      rw [intercalate_cons_ne_nil p (q :: qs) (by simp)]
      rw [splitOnChar_append _ _ (hp p (by simp))]
      rw [ih (by simp) (fun r hr => hp r (by simp [hr]))]

/-- Length of a comma-join of two-character pieces. -/
theorem intercalate_length_two (ps : List Str) (h : ps ≠ []) (hp : ∀ p ∈ ps, p.length = 2) :
    (List.intercalate [','] ps).length = 3 * ps.length - 1 := by
  induction ps with
  | nil => simp at h
  | cons p ps ih =>
    cases ps with
    | nil => rw [intercalate_singleton]; simp [hp p (by simp)]
    | cons q qs =>
      rw [intercalate_cons_ne_nil p (q :: qs) (by simp)]
      have h2 := ih (by simp) (fun r hr => hp r (by simp [hr]))
      have h3 := hp p (by simp)
      simp only [List.length_append, List.length_cons, h2, h3]
      omega

theorem mapM_parseHex_byteHex (b : List Nat) (hb : ∀ n ∈ b, n < 256) :
    (b.map byteHex).mapM parseHex = some b := by
  induction b with
  | nil => rfl
  | cons n rest ih =>
    rw [List.map_cons, List.mapM_cons, (byteHex_spec n (hb n (by simp))).2.2,
      ih (fun m hm => hb m (by simp [hm]))]
    rfl

theorem intercalate_append_ne (ps qs : List Str) (h1 : ps ≠ []) (h2 : qs ≠ []) :
    List.intercalate [','] (ps ++ qs) =
      List.intercalate [','] ps ++ ',' :: List.intercalate [','] qs := by
  induction ps with
  | nil => simp at h1
  | cons p ps ih =>
    cases ps with
    | nil =>
      rw [List.singleton_append, intercalate_cons_ne_nil p qs h2, intercalate_singleton]
    | cons q qs2 =>
      rw [List.cons_append, intercalate_cons_ne_nil p _ (by simp),
        intercalate_cons_ne_nil p _ (by simp), ih (by simp)]
      simp

theorem pySlice_two (s : Str) (a : Nat) (h : a + 2 ≤ s.length) :
    pySlice s a (a + 2) = [s.getD a ' ', s.getD (a + 1) ' '] := by
  unfold pySlice
  have h1 : a < s.length := by omega
  have h2 : a + 1 < s.length := by omega
  rw [List.drop_eq_getElem_cons h1, List.drop_eq_getElem_cons h2,
    List.getD_eq_getElem s ' ' h1, List.getD_eq_getElem s ' ' h2]
  have h3 : a + 2 - a = 2 := by omega
  rw [h3]
  rfl

/-- A well-formed UUID string has 36 characters and all sixteen
`uuid_bytes` slices are two hex digits. -/
theorem is_uuidfmt_parts (u : Str) (hu : is_uuidfmt u = true) :
    u.length = 36 ∧ ∀ p ∈ uuidSlices u, p.length = 2 ∧ ∀ c ∈ p, isHexDig c = true := by
  unfold is_uuidfmt at hu
  rw [Bool.and_eq_true] at hu
  obtain ⟨hlen, hall⟩ := hu
  rw [decide_eq_true_eq] at hlen
  rw [List.all_eq_true] at hall
  have hdig : ∀ i, i < 36 → ¬(i = 8 ∨ i = 13 ∨ i = 18 ∨ i = 23) →
      isHexDig (u.getD i ' ') = true := by
    intro i hi hni
    have := hall i (by simp [List.mem_range]; omega)
    rw [if_neg hni] at this
    exact this
  refine ⟨hlen, ?_⟩
  intro p hp
  fin_cases hp <;>
    · rw [pySlice_two u _ (by omega)]
      refine ⟨rfl, ?_⟩
      intro c hc
      rcases List.mem_pair.mp hc with rfl | rfl
      · exact hdig _ (by omega) (by omega)
      · exact hdig _ (by omega) (by omega)

/-- Claim C2, counterexample.  On the claimed back-to-back layout
(32 zero bytes, partition-UUID bytes, disk-UUID bytes immediately
following, one zero pad) the scanner returns no UUIDs at all, not the
claimed pair at offsets [32, 48]: the partition candidate at offset 32 is
rejected because the byte following it (the first disk-UUID byte, 0x11) is
nonzero, and the disk window itself has 12 bytes in the printable range
32..122, failing the `cnta <= 10` test. -/
theorem claim_C2_counterexample :
    find_part_disk scenarioBackToBack = some (.ok ([], [])) ∧
    find_part_disk scenarioBackToBack ≠
      some (.ok (["aaaaaaaa-bbbb-cccc-dddd-eeeeeeeeeeee".data,
                  "11111111-2222-3333-4444-555555555555".data], [32, 48])) := by
  constructor
  · rfl
  · intro h
    rw [show find_part_disk scenarioBackToBack = some (.ok ([], [])) from rfl] at h
    simp at h

/-- Claim C2, amended.  For a device-locator value whose decoded bytes are
32 zero-padding bytes, 16 partition-UUID bytes (canonicalizing to
`aaaaaaaa-bbbb-cccc-dddd-eeeeeeeeeeee`), 8 zero gap bytes, 16 disk-UUID
bytes that pass the scanner's heuristic (canonicalizing to
`11111111-1111-1111-8888-888888888888`), then one zero pad byte, the
scanner returns exactly the two UUID strings in that order at offsets
[32, 56].  After recording a passing candidate the scan advances by 20
bytes (16 for the window plus the unconditional 4-byte step) and then
skips zero bytes in 4-byte steps; a candidate is accepted only when
followed by a zero byte or end-of-data, so a back-to-back nonzero disk
UUID would make the partition candidate itself fail. -/
theorem claim_C2_amended :
    find_part_disk scenarioGap =
      some (.ok (["aaaaaaaa-bbbb-cccc-dddd-eeeeeeeeeeee".data,
                  "11111111-1111-1111-8888-888888888888".data], [32, 56])) := by
  rfl

/-- Claim C3.  The scanner is not total: on a decoded array of 48 zero
bytes the inner zero-skip loop `while hexarr[idx] == 0: idx += 4` walks
from offset 32 to offset 48 and evaluates `hexarr[48]` on a 48-element
array, raising `IndexError` (modelled as `.error .index`), so the scan
does read past the end of the array. -/
theorem claim_C3_failing_input :
    find_part_disk (hexValue (List.replicate 48 0)) = some (.error .index) := by
  rfl

/-- Claim C7.  For the 16-byte window starting at `idx`: a window with
exactly 2 zero bytes is rejected; a window with exactly 1 zero byte and at
most 10 bytes in the printable range 32..122 is accepted given the
required trailing zero byte or end-of-data; a window with 11 or more
printable-range bytes is rejected regardless of its zero count. -/
theorem claim_C7_heuristic_boundary (hexarr : List Nat) (ln idx : Nat) :
    ((counts ((hexarr.drop idx).take 16)).1 = 2 →
      accept_cand hexarr ln idx = false) ∧
    ((counts ((hexarr.drop idx).take 16)).1 = 1 →
      (counts ((hexarr.drop idx).take 16)).2 ≤ 10 →
      (ln = idx + 16 ∨ hexarr.getD (idx + 16) 255 = 0) →
      accept_cand hexarr ln idx = true) ∧
    (11 ≤ (counts ((hexarr.drop idx).take 16)).2 →
      accept_cand hexarr ln idx = false) := by
  unfold accept_cand
  refine ⟨fun h => ?_, fun h1 h2 h3 => ?_, fun h => ?_⟩
  · simp only [h]
    simp
  · rcases h3 with h3 | h3
    · simp [h1, h2, h3]
    · simp [h1, h2]
      right
      simpa [List.getD] using h3
  · have : ¬ ((counts ((hexarr.drop idx).take 16)).2 ≤ 10) := by omega
    simp [this]

/-- Witness for claim C7: all three boundary cases at concrete windows. -/
theorem claim_C7_witness :
    accept_cand ([0, 0] ++ List.replicate 14 170) 16 0 = false ∧
    accept_cand ([0] ++ List.replicate 15 170) 16 0 = true ∧
    accept_cand (List.replicate 16 65) 16 0 = false :=
  ⟨(claim_C7_heuristic_boundary ([0, 0] ++ List.replicate 14 170) 16 0).1 (by decide),
   (claim_C7_heuristic_boundary ([0] ++ List.replicate 15 170) 16 0).2.1
     (by decide) (by decide) (Or.inl rfl),
   (claim_C7_heuristic_boundary (List.replicate 16 65) 16 0).2.2 (by decide)⟩

end FixBCD

namespace FixBCD

theorem isHexDig_ne_comma (c : Char) (h : isHexDig c = true) : c ≠ ',' := by
  intro hc
  subst hc
  exact absurd h (by decide)

theorem hexDigitVal_lt (c : Char) (h : isHexDig c = true) :
    ∃ v, hexDigitVal c = some v ∧ v < 16 := by
  unfold isHexDig at h
  simp only [Bool.or_eq_true, Bool.and_eq_true, decide_eq_true_eq] at h
  unfold hexDigitVal
  split_ifs with h1 h2 h3
  · exact ⟨_, rfl, by omega⟩
  · exact ⟨_, rfl, by omega⟩
  · exact ⟨_, rfl, by omega⟩
  · omega

theorem parseHex_two (c1 c2 : Char) (h1 : isHexDig c1 = true) (h2 : isHexDig c2 = true) :
    ∃ v, parseHex [c1, c2] = some v ∧ v < 256 := by
  obtain ⟨v1, e1, l1⟩ := hexDigitVal_lt c1 h1
  obtain ⟨v2, e2, l2⟩ := hexDigitVal_lt c2 h2
  refine ⟨v1 * 16 + v2, ?_, by omega⟩
  simp [parseHex, List.foldlM, e1, e2]

theorem uuidSlices_length (u : Str) : (uuidSlices u).length = 16 := rfl

theorem uuid_bytes_length (u : Str) (hu : is_uuidfmt u = true) :
    (uuid_bytes u).length = 47 := by
  obtain ⟨-, hs⟩ := is_uuidfmt_parts u hu
  have h := intercalate_length_two (uuidSlices u) (by simp [uuidSlices])
    (fun p hp => (hs p hp).1)
  rw [uuid_bytes, h, uuidSlices_length]

theorem mapM_parseHex_of_some (ps : List Str) (h : ∀ p ∈ ps, ∃ v, parseHex p = some v) :
    ps.mapM parseHex = some (ps.map (fun p => (parseHex p).getD 0)) := by
  induction ps with
  | nil => rfl
  | cons p ps ih =>
    obtain ⟨v, hv⟩ := h p (by simp)
    rw [List.mapM_cons, hv, ih (fun q hq => h q (by simp [hq]))]
    simp [hv]

theorem take_hex_head4 (l : Str) (n : Nat) (h : 4 ≤ n) :
    ("hex:".data ++ l).take n = "hex:".data ++ l.take (n - 4) := by
  rw [List.take_append_eq_append_take]
  congr 1
  exact List.take_of_length_le (by simp; omega)

theorem drop_hex_head4 (l : Str) (n : Nat) (h : 4 ≤ n) :
    ("hex:".data ++ l).drop n = l.drop (n - 4) := by
  rw [List.drop_append_eq_append_drop]
  have h2 : ("hex:".data : Str).drop n = [] := List.drop_eq_nil_of_le (by simp; omega)
  simp [h2]

theorem findIdx_colon_hexValue (l : Str) :
    List.findIdx? (fun c => c = ':') ("hex:".data ++ l) = some 3 := by
  simp [List.findIdx?_cons]

theorem byteHex_pieces (b : List Nat) (h256 : ∀ n ∈ b, n < 256) :
    (∀ p ∈ b.map byteHex, p.length = 2) ∧ (∀ p ∈ b.map byteHex, ',' ∉ p) := by
  constructor <;>
    · intro p hp
      rw [List.mem_map] at hp
      obtain ⟨n, hn, rfl⟩ := hp
      first
        | exact (byteHex_spec n (h256 n hn)).1
        | exact (byteHex_spec n (h256 n hn)).2.1

/-- Splicing new pieces over the window `[3*ps.length, +3*qs.length-1)` of a
comma-joined piece list replaces exactly the `qs` block. -/
theorem intercalate_splice (ps qs rs ns : List Str)
    (hps : ∀ p ∈ ps, p.length = 2)
    (hqs : ∀ p ∈ qs, p.length = 2) (hqne : qs ≠ []) (hnne : ns ≠ []) :
    (List.intercalate [','] (ps ++ qs ++ rs)).take (3 * ps.length) ++
      (List.intercalate [','] ns ++
      (List.intercalate [','] (ps ++ qs ++ rs)).drop
        (3 * ps.length + (3 * qs.length - 1))) =
    List.intercalate [','] (ps ++ ns ++ rs) := by
  induction ps with
  | nil =>
    simp only [List.nil_append, List.length_nil, Nat.mul_zero, List.take_zero,
      Nat.zero_add]
    have hlq : (List.intercalate [','] qs).length = 3 * qs.length - 1 :=
      intercalate_length_two qs hqne hqs
    cases rs with
    | nil =>
      rw [List.append_nil, List.append_nil, List.drop_eq_nil_of_le (by omega)]
      simp
    | cons r rs2 =>
      rw [intercalate_append_ne qs (r :: rs2) hqne (by simp)]
      rw [List.drop_append_eq_append_drop, hlq,
        List.drop_eq_nil_of_le (by omega), Nat.sub_self, List.nil_append,
        List.drop_zero]
      rw [intercalate_append_ne ns (r :: rs2) hnne (by simp)]
  | cons p ps2 ih =>
    have htail : ps2 ++ qs ++ rs ≠ [] := by
      intro hh
      rcases List.append_eq_nil.mp hh with ⟨h1, -⟩
      rcases List.append_eq_nil.mp h1 with ⟨-, h2⟩
      exact hqne h2
    have htail2 : ps2 ++ ns ++ rs ≠ [] := by
      intro hh
      rcases List.append_eq_nil.mp hh with ⟨h1, -⟩
      rcases List.append_eq_nil.mp h1 with ⟨-, h2⟩
      exact hnne h2
    have hp2 : p.length = 2 := hps p (by simp)
    simp only [List.cons_append]
    rw [intercalate_cons_ne_nil p _ htail, intercalate_cons_ne_nil p _ htail2,
      List.length_cons]
    have h3 : 3 * (ps2.length + 1) = 3 * ps2.length + 3 := by ring
    rw [h3]
    rw [List.take_append_eq_append_take, List.drop_append_eq_append_drop, hp2]
    rw [List.take_of_length_le (show p.length ≤ 3 * ps2.length + 3 by omega)]
    rw [List.drop_eq_nil_of_le
      (show p.length ≤ 3 * ps2.length + 3 + (3 * qs.length - 1) by omega)]
    rw [List.nil_append]
    have h4 : 3 * ps2.length + 3 - 2 = 3 * ps2.length + 1 := by omega
    have h5 : 3 * ps2.length + 3 + (3 * qs.length - 1) - 2 =
        (3 * ps2.length + (3 * qs.length - 1)) + 1 := by omega
    rw [h4, h5, List.take_succ_cons, List.drop_succ_cons]
    rw [List.append_assoc, List.cons_append]
    rw [ih (fun q hq => hps q (by simp [hq]))]

end FixBCD

namespace FixBCD

theorem arr_from_hexstr_pieces (ps : List Str) (hne : ps ≠ []) (hnc : ∀ p ∈ ps, ',' ∉ p)
    (hsome : ∀ p ∈ ps, ∃ v, parseHex p = some v) :
    arr_from_hexstr ("hex:".data ++ List.intercalate [','] ps) =
      some (ps.map (fun p => (parseHex p).getD 0)) := by
  unfold arr_from_hexstr
  have h7 : ("hex:".data ++ List.intercalate [','] ps).take 7 =
      "hex:".data ++ (List.intercalate [','] ps).take 3 := take_hex_head4 _ 7 (by omega)
  have hne7 : ¬ (("hex:".data ++ List.intercalate [','] ps).take 7 = "hex(7):".data) := by
    rw [h7]
    intro h
    simp at h
  have h4 : ("hex:".data ++ List.intercalate [','] ps).take 4 = "hex:".data := by
    rw [take_hex_head4 _ 4 (by omega)]
    simp
  rw [if_neg hne7, if_pos h4]
  have hd : ("hex:".data ++ List.intercalate [','] ps).drop 4 = List.intercalate [','] ps := by
    rw [drop_hex_head4 _ 4 (by omega)]
    simp
  rw [hd]
  show (splitOnChar ',' (List.intercalate [','] ps)).mapM parseHex = _
  rw [splitOnChar_intercalate ps hne hnc, mapM_parseHex_of_some ps hsome]

theorem arr_from_hexstr_hexValue (b : List Nat) (hb : b ≠ []) (h256 : ∀ n ∈ b, n < 256) :
    arr_from_hexstr (hexValue b) = some b := by
  rw [hexValue, encodeBytes]
  rw [arr_from_hexstr_pieces (b.map byteHex) (by simp [hb]) (byteHex_pieces b h256).2
    (fun p hp => by
      rw [List.mem_map] at hp
      obtain ⟨n, hn, rfl⟩ := hp
      exact ⟨n, (byteHex_spec n (h256 n hn)).2.2⟩)]
  congr 1
  rw [List.map_map]
  conv_rhs => rw [show b = b.map id from (List.map_id b).symm]
  apply List.map_congr_left
  intro n hn
  simp [Function.comp, (byteHex_spec n (h256 n hn)).2.2]

end FixBCD

namespace FixBCD

theorem uuidSlices_pieces (u : Str) (hu : is_uuidfmt u = true) :
    (∀ p ∈ uuidSlices u, p.length = 2) ∧ (∀ p ∈ uuidSlices u, ',' ∉ p) ∧
      (∀ p ∈ uuidSlices u, ∃ v, parseHex p = some v) := by
  obtain ⟨-, hs⟩ := is_uuidfmt_parts u hu
  refine ⟨fun p hp => (hs p hp).1, fun p hp hc => ?_, fun p hp => ?_⟩
  · exact isHexDig_ne_comma ',' ((hs p hp).2 ',' hc) rfl
  · obtain ⟨hlen, hdig⟩ := hs p hp
    match p, hlen with
    | [c1, c2], _ =>
      obtain ⟨v, hv, -⟩ := parseHex_two c1 c2 (hdig c1 (by simp)) (hdig c2 (by simp))
      exact ⟨v, hv⟩

/-- `correct_uuid` on a canonically encoded value with the window in range
replaces exactly the sixteen byte pieces of the window by the UUID slices. -/
theorem correct_uuid_hexValue (u : Str) (o : Nat) (b : List Nat)
    (h256 : ∀ n ∈ b, n < 256) (ho : o + 16 ≤ b.length) :
    correct_uuid u o (hexValue b) =
      some ("hex:".data ++ List.intercalate [',']
        ((b.take o).map byteHex ++ uuidSlices u ++ (b.drop (o + 16)).map byteHex)) := by
  have hsplit : b = b.take o ++ (b.drop o).take 16 ++ b.drop (o + 16) := by
    rw [List.append_assoc]
    rw [show b.drop (o + 16) = (b.drop o).drop 16 by rw [List.drop_drop]]
    rw [List.take_append_drop, List.take_append_drop]
  have hlen1 : (b.take o).length = o := by simp; omega
  have hlenW : ((b.drop o).take 16).length = 16 := by simp; omega
  have hmem1 : ∀ n ∈ b.take o, n < 256 := fun n hn => h256 n (List.mem_of_mem_take hn)
  have hmemW : ∀ n ∈ (b.drop o).take 16, n < 256 :=
    fun n hn => h256 n (List.mem_of_mem_drop (List.mem_of_mem_take hn))
  rw [correct_uuid, hexValue, findIdx_colon_hexValue]
  show some (List.take (3 + 3 * o + 1) ("hex:".data ++ encodeBytes b) ++ uuid_bytes u ++
      List.drop (3 + 3 * o + 1 + 47) ("hex:".data ++ encodeBytes b)) = _
  have harith : 3 + 3 * o + 1 = 3 * o + 4 := by omega
  rw [harith]
  rw [take_hex_head4 (encodeBytes b) (3 * o + 4) (by omega),
    drop_hex_head4 (encodeBytes b) (3 * o + 4 + 47) (by omega)]
  have e1 : 3 * o + 4 - 4 = 3 * o := by omega
  have e2 : 3 * o + 4 + 47 - 4 = 3 * o + 47 := by omega
  rw [e1, e2]
  have hbody : encodeBytes b = List.intercalate [',']
      ((b.take o).map byteHex ++ ((b.drop o).take 16).map byteHex ++
        (b.drop (o + 16)).map byteHex) := by
    rw [encodeBytes]
    conv_lhs => rw [hsplit]
    rw [List.map_append, List.map_append]
  rw [hbody]
  have hsp := intercalate_splice ((b.take o).map byteHex) (((b.drop o).take 16).map byteHex)
    ((b.drop (o + 16)).map byteHex) (uuidSlices u)
    (byteHex_pieces _ hmem1).1 (byteHex_pieces _ hmemW).1
    (by simp only [ne_eq, List.map_eq_nil_iff]; intro hh; rw [hh] at hlenW; simp at hlenW)
    (by simp [uuidSlices])
  rw [List.length_map, hlen1, List.length_map, hlenW] at hsp
  have e3 : 3 * 16 - 1 = 47 := by omega
  rw [e3] at hsp
  rw [uuid_bytes]
  simp only [List.append_assoc] at hsp ⊢
  rw [hsp]

end FixBCD

namespace FixBCD

theorem map_parse_byteHex (l : List Nat) (h : ∀ n ∈ l, n < 256) :
    (l.map byteHex).map (fun p => (parseHex p).getD 0) = l := by
  rw [List.map_map]
  conv_rhs => rw [show l = l.map id from (List.map_id l).symm]
  apply List.map_congr_left
  intro n hn
  simp [Function.comp, (byteHex_spec n (h n hn)).2.2]

theorem arr_from_hexstr_spliced (u : Str) (o : Nat) (b : List Nat)
    (hu : is_uuidfmt u = true) (h256 : ∀ n ∈ b, n < 256) :
    arr_from_hexstr ("hex:".data ++ List.intercalate [',']
        ((b.take o).map byteHex ++ uuidSlices u ++ (b.drop (o + 16)).map byteHex)) =
      some (b.take o ++ ubytesOf u ++ b.drop (o + 16)) := by
  obtain ⟨hsl, hsc, hss⟩ := uuidSlices_pieces u hu
  have hmem1 : ∀ n ∈ b.take o, n < 256 := fun n hn => h256 n (List.mem_of_mem_take hn)
  have hmem2 : ∀ n ∈ b.drop (o + 16), n < 256 := fun n hn => h256 n (List.mem_of_mem_drop hn)
  rw [arr_from_hexstr_pieces _
    (by
      intro hh
      rcases List.append_eq_nil.mp hh with ⟨h1, -⟩
      rcases List.append_eq_nil.mp h1 with ⟨-, h2⟩
      simp [uuidSlices] at h2)
    (by
      intro p hp
      rcases List.mem_append.mp hp with hp1 | hp2
      · rcases List.mem_append.mp hp1 with hp3 | hp4
        · exact (byteHex_pieces _ hmem1).2 p hp3
        · exact hsc p hp4
      · exact (byteHex_pieces _ hmem2).2 p hp2)
    (by
      intro p hp
      rcases List.mem_append.mp hp with hp1 | hp2
      · rcases List.mem_append.mp hp1 with hp3 | hp4
        · rcases List.mem_map.mp hp3 with ⟨n, hn, rfl⟩
          exact ⟨n, (byteHex_spec n (hmem1 n hn)).2.2⟩
        · exact hss p hp4
      · rcases List.mem_map.mp hp2 with ⟨n, hn, rfl⟩
        exact ⟨n, (byteHex_spec n (hmem2 n hn)).2.2⟩)]
  rw [List.map_append, List.map_append]
  rw [map_parse_byteHex _ hmem1, map_parse_byteHex _ hmem2]
  rfl

end FixBCD

namespace FixBCD

/-- Claim C4, amended.  For every element value containing a colon (first
colon at character `ix0`), every well-formed UUID string `u`, and every
offset `o` such that the 47-character window starting at `ix0 + 3*o + 1`
lies inside the value, `correct_uuid` replaces exactly those 47 characters
by `uuid_bytes u` (which has exactly 47 characters), preserves the total
length, leaves every character outside the window unchanged, and for a
canonically encoded `hex:` value the decoded bytes outside `[o, o+16)` are
unchanged while the window bytes become the UUID bytes. -/
theorem claim_C4_amended (u : Str) (o : Nat) (dstr : Str) (ix0 : Nat) (v : Str)
    (hu : is_uuidfmt u = true)
    (hcolon : dstr.findIdx? (· = ':') = some ix0)
    (hfit : ix0 + 3 * o + 1 + 47 ≤ dstr.length)
    (hv : correct_uuid u o dstr = some v) :
    v = dstr.take (ix0 + 3 * o + 1) ++ uuid_bytes u ++ dstr.drop (ix0 + 3 * o + 1 + 47) ∧
    (uuid_bytes u).length = 47 ∧
    v.length = dstr.length ∧
    (∀ j, j < ix0 + 3 * o + 1 → v[j]? = dstr[j]?) ∧
    (∀ j, ix0 + 3 * o + 1 + 47 ≤ j → v[j]? = dstr[j]?) ∧
    (v.drop (ix0 + 3 * o + 1)).take 47 = uuid_bytes u ∧
    (∀ b : List Nat, dstr = hexValue b → (∀ n ∈ b, n < 256) → o + 16 ≤ b.length →
      arr_from_hexstr v = some (b.take o ++ ubytesOf u ++ b.drop (o + 16))) := by
  have hv0 := hv
  rw [correct_uuid, hcolon] at hv
  simp only [Option.some.injEq] at hv
  set ix := ix0 + 3 * o + 1 with hix
  have h47 := uuid_bytes_length u hu
  have hlt : (dstr.take ix).length = ix := by simp; omega
  have hvlen : v.length = dstr.length := by
    rw [← hv]
    simp only [List.length_append, hlt, h47, List.length_drop]
    omega
  refine ⟨hv.symm, h47, hvlen, ?_, ?_, ?_, ?_⟩
  · intro j hj
    rw [← hv]
    rw [List.append_assoc, List.getElem?_append_left (by omega),
      List.getElem?_take, if_pos hj]
  · intro j hj
    rw [← hv]
    rw [List.append_assoc, List.getElem?_append_right (by rw [hlt]; omega),
      List.getElem?_append_right (by rw [h47]; omega),
      List.getElem?_drop]
    congr 1
    rw [hlt, h47]
    omega
  · rw [← hv, List.append_assoc]
    rw [List.drop_append_eq_append_drop, hlt, Nat.sub_self, List.drop_zero,
      List.drop_eq_nil_of_le (le_of_eq hlt), List.nil_append]
    rw [show (47 : Nat) = (uuid_bytes u).length from h47.symm, List.take_left]
  · intro b hb h256 ho
    subst hb
    have heq := correct_uuid_hexValue u o b h256 ho
    rw [hv0] at heq
    simp only [Option.some.injEq] at heq
    rw [heq]
    exact arr_from_hexstr_spliced u o b hu h256

end FixBCD


namespace FixBCD

/-- Claim C4, counterexample.  For an offset whose 47-character window does
not fit inside the value (claim C4 quantifies over every byte offset `o`),
`correct_uuid` does not preserve the string length: patching the 9-character
value `hex:00,11` at offset 5 yields a 56-character string. -/
theorem claim_C4_counterexample :
    (correct_uuid "aaaaaaaa-bbbb-cccc-dddd-eeeeeeeeeeee".data 5 (hexValue [0, 17])).map
        List.length = some 56 ∧
    (hexValue [0, 17]).length = 9 := by
  constructor
  · rfl
  · rfl

/-- Witness for claim C4 at a concrete in-range patch. -/
theorem claim_C4_witness :
    ((hexValue (List.range 20)).take 10 ++
        uuid_bytes "aaaaaaaa-bbbb-cccc-dddd-eeeeeeeeeeee".data ++
        (hexValue (List.range 20)).drop 57).length = (hexValue (List.range 20)).length :=
  (claim_C4_amended "aaaaaaaa-bbbb-cccc-dddd-eeeeeeeeeeee".data 2 (hexValue (List.range 20)) 3
    ((hexValue (List.range 20)).take 10 ++
      uuid_bytes "aaaaaaaa-bbbb-cccc-dddd-eeeeeeeeeeee".data ++
      (hexValue (List.range 20)).drop 57)
    (by decide) (by rfl) (by decide) (by rfl)).2.2.1

end FixBCD

namespace FixBCD

theorem appendCongr {a b c d : Str} (h1 : a = b) (h2 : c = d) : a ++ c = b ++ d := by
  rw [h1, h2]

set_option maxHeartbeats 1000000 in
/-- Decoding `uuid_bytes u` and re-canonicalizing with `uuidstr` recovers
every well-formed lower-case UUID string `u`. -/
theorem uuidstr_ubytesOf (u : Str) (hu : lowerUuid u = true) :
    uuidstr (ubytesOf u) = u := by
  unfold lowerUuid at hu
  rw [Bool.and_eq_true, decide_eq_true_eq, List.all_eq_true] at hu
  obtain ⟨hlen, hall⟩ := hu
  simp only [List.mem_range] at hall
  obtain ⟨c0, u, rfl⟩ := List.exists_cons_of_ne_nil (show u ≠ [] by intro hh; rw [hh] at hlen; simp at hlen)
  simp only [List.length_cons] at hlen
  obtain ⟨c1, u, rfl⟩ := List.exists_cons_of_ne_nil (show u ≠ [] by intro hh; rw [hh] at hlen; simp at hlen)
  simp only [List.length_cons] at hlen
  obtain ⟨c2, u, rfl⟩ := List.exists_cons_of_ne_nil (show u ≠ [] by intro hh; rw [hh] at hlen; simp at hlen)
  simp only [List.length_cons] at hlen
  obtain ⟨c3, u, rfl⟩ := List.exists_cons_of_ne_nil (show u ≠ [] by intro hh; rw [hh] at hlen; simp at hlen)
  simp only [List.length_cons] at hlen
  obtain ⟨c4, u, rfl⟩ := List.exists_cons_of_ne_nil (show u ≠ [] by intro hh; rw [hh] at hlen; simp at hlen)
  simp only [List.length_cons] at hlen
  obtain ⟨c5, u, rfl⟩ := List.exists_cons_of_ne_nil (show u ≠ [] by intro hh; rw [hh] at hlen; simp at hlen)
  simp only [List.length_cons] at hlen
  obtain ⟨c6, u, rfl⟩ := List.exists_cons_of_ne_nil (show u ≠ [] by intro hh; rw [hh] at hlen; simp at hlen)
  simp only [List.length_cons] at hlen
  obtain ⟨c7, u, rfl⟩ := List.exists_cons_of_ne_nil (show u ≠ [] by intro hh; rw [hh] at hlen; simp at hlen)
  simp only [List.length_cons] at hlen
  obtain ⟨c8, u, rfl⟩ := List.exists_cons_of_ne_nil (show u ≠ [] by intro hh; rw [hh] at hlen; simp at hlen)
  simp only [List.length_cons] at hlen
  obtain ⟨c9, u, rfl⟩ := List.exists_cons_of_ne_nil (show u ≠ [] by intro hh; rw [hh] at hlen; simp at hlen)
  simp only [List.length_cons] at hlen
  obtain ⟨c10, u, rfl⟩ := List.exists_cons_of_ne_nil (show u ≠ [] by intro hh; rw [hh] at hlen; simp at hlen)
  simp only [List.length_cons] at hlen
  obtain ⟨c11, u, rfl⟩ := List.exists_cons_of_ne_nil (show u ≠ [] by intro hh; rw [hh] at hlen; simp at hlen)
  simp only [List.length_cons] at hlen
  obtain ⟨c12, u, rfl⟩ := List.exists_cons_of_ne_nil (show u ≠ [] by intro hh; rw [hh] at hlen; simp at hlen)
  simp only [List.length_cons] at hlen
  obtain ⟨c13, u, rfl⟩ := List.exists_cons_of_ne_nil (show u ≠ [] by intro hh; rw [hh] at hlen; simp at hlen)
  simp only [List.length_cons] at hlen
  obtain ⟨c14, u, rfl⟩ := List.exists_cons_of_ne_nil (show u ≠ [] by intro hh; rw [hh] at hlen; simp at hlen)
  simp only [List.length_cons] at hlen
  obtain ⟨c15, u, rfl⟩ := List.exists_cons_of_ne_nil (show u ≠ [] by intro hh; rw [hh] at hlen; simp at hlen)
  simp only [List.length_cons] at hlen
  obtain ⟨c16, u, rfl⟩ := List.exists_cons_of_ne_nil (show u ≠ [] by intro hh; rw [hh] at hlen; simp at hlen)
  simp only [List.length_cons] at hlen
  obtain ⟨c17, u, rfl⟩ := List.exists_cons_of_ne_nil (show u ≠ [] by intro hh; rw [hh] at hlen; simp at hlen)
  simp only [List.length_cons] at hlen
  obtain ⟨c18, u, rfl⟩ := List.exists_cons_of_ne_nil (show u ≠ [] by intro hh; rw [hh] at hlen; simp at hlen)
  simp only [List.length_cons] at hlen
  obtain ⟨c19, u, rfl⟩ := List.exists_cons_of_ne_nil (show u ≠ [] by intro hh; rw [hh] at hlen; simp at hlen)
  simp only [List.length_cons] at hlen
  obtain ⟨c20, u, rfl⟩ := List.exists_cons_of_ne_nil (show u ≠ [] by intro hh; rw [hh] at hlen; simp at hlen)
  simp only [List.length_cons] at hlen
  obtain ⟨c21, u, rfl⟩ := List.exists_cons_of_ne_nil (show u ≠ [] by intro hh; rw [hh] at hlen; simp at hlen)
  simp only [List.length_cons] at hlen
  obtain ⟨c22, u, rfl⟩ := List.exists_cons_of_ne_nil (show u ≠ [] by intro hh; rw [hh] at hlen; simp at hlen)
  simp only [List.length_cons] at hlen
  obtain ⟨c23, u, rfl⟩ := List.exists_cons_of_ne_nil (show u ≠ [] by intro hh; rw [hh] at hlen; simp at hlen)
  simp only [List.length_cons] at hlen
  obtain ⟨c24, u, rfl⟩ := List.exists_cons_of_ne_nil (show u ≠ [] by intro hh; rw [hh] at hlen; simp at hlen)
  simp only [List.length_cons] at hlen
  obtain ⟨c25, u, rfl⟩ := List.exists_cons_of_ne_nil (show u ≠ [] by intro hh; rw [hh] at hlen; simp at hlen)
  simp only [List.length_cons] at hlen
  obtain ⟨c26, u, rfl⟩ := List.exists_cons_of_ne_nil (show u ≠ [] by intro hh; rw [hh] at hlen; simp at hlen)
  simp only [List.length_cons] at hlen
  obtain ⟨c27, u, rfl⟩ := List.exists_cons_of_ne_nil (show u ≠ [] by intro hh; rw [hh] at hlen; simp at hlen)
  simp only [List.length_cons] at hlen
  obtain ⟨c28, u, rfl⟩ := List.exists_cons_of_ne_nil (show u ≠ [] by intro hh; rw [hh] at hlen; simp at hlen)
  simp only [List.length_cons] at hlen
  obtain ⟨c29, u, rfl⟩ := List.exists_cons_of_ne_nil (show u ≠ [] by intro hh; rw [hh] at hlen; simp at hlen)
  simp only [List.length_cons] at hlen
  obtain ⟨c30, u, rfl⟩ := List.exists_cons_of_ne_nil (show u ≠ [] by intro hh; rw [hh] at hlen; simp at hlen)
  simp only [List.length_cons] at hlen
  obtain ⟨c31, u, rfl⟩ := List.exists_cons_of_ne_nil (show u ≠ [] by intro hh; rw [hh] at hlen; simp at hlen)
  simp only [List.length_cons] at hlen
  obtain ⟨c32, u, rfl⟩ := List.exists_cons_of_ne_nil (show u ≠ [] by intro hh; rw [hh] at hlen; simp at hlen)
  simp only [List.length_cons] at hlen
  obtain ⟨c33, u, rfl⟩ := List.exists_cons_of_ne_nil (show u ≠ [] by intro hh; rw [hh] at hlen; simp at hlen)
  simp only [List.length_cons] at hlen
  obtain ⟨c34, u, rfl⟩ := List.exists_cons_of_ne_nil (show u ≠ [] by intro hh; rw [hh] at hlen; simp at hlen)
  simp only [List.length_cons] at hlen
  obtain ⟨c35, u, rfl⟩ := List.exists_cons_of_ne_nil (show u ≠ [] by intro hh; rw [hh] at hlen; simp at hlen)
  simp only [List.length_cons] at hlen
  have hnil : u = [] := List.eq_nil_of_length_eq_zero (by omega)
  subst hnil
  have hd8 : c8 = '-' := by
    have h := hall 8 (by decide)
    rw [if_pos (by decide)] at h
    rw [show ([c0, c1, c2, c3, c4, c5, c6, c7, c8, c9, c10, c11, c12, c13, c14, c15, c16, c17, c18, c19, c20, c21, c22, c23, c24, c25, c26, c27, c28, c29, c30, c31, c32, c33, c34, c35] : Str).getD 8 ' ' = c8 from rfl] at h
    exact of_decide_eq_true h
  have hd13 : c13 = '-' := by
    have h := hall 13 (by decide)
    rw [if_pos (by decide)] at h
    rw [show ([c0, c1, c2, c3, c4, c5, c6, c7, c8, c9, c10, c11, c12, c13, c14, c15, c16, c17, c18, c19, c20, c21, c22, c23, c24, c25, c26, c27, c28, c29, c30, c31, c32, c33, c34, c35] : Str).getD 13 ' ' = c13 from rfl] at h
    exact of_decide_eq_true h
  have hd18 : c18 = '-' := by
    have h := hall 18 (by decide)
    rw [if_pos (by decide)] at h
    rw [show ([c0, c1, c2, c3, c4, c5, c6, c7, c8, c9, c10, c11, c12, c13, c14, c15, c16, c17, c18, c19, c20, c21, c22, c23, c24, c25, c26, c27, c28, c29, c30, c31, c32, c33, c34, c35] : Str).getD 18 ' ' = c18 from rfl] at h
    exact of_decide_eq_true h
  have hd23 : c23 = '-' := by
    have h := hall 23 (by decide)
    rw [if_pos (by decide)] at h
    rw [show ([c0, c1, c2, c3, c4, c5, c6, c7, c8, c9, c10, c11, c12, c13, c14, c15, c16, c17, c18, c19, c20, c21, c22, c23, c24, c25, c26, c27, c28, c29, c30, c31, c32, c33, c34, c35] : Str).getD 23 ' ' = c23 from rfl] at h
    exact of_decide_eq_true h
  have dg0 : c0 ∈ lowerHexDigits := by
    have h := hall 0 (by decide)
    rw [if_neg (by decide)] at h
    rw [show ([c0, c1, c2, c3, c4, c5, c6, c7, c8, c9, c10, c11, c12, c13, c14, c15, c16, c17, c18, c19, c20, c21, c22, c23, c24, c25, c26, c27, c28, c29, c30, c31, c32, c33, c34, c35] : Str).getD 0 ' ' = c0 from rfl] at h
    exact of_decide_eq_true h
  have dg1 : c1 ∈ lowerHexDigits := by
    have h := hall 1 (by decide)
    rw [if_neg (by decide)] at h
    rw [show ([c0, c1, c2, c3, c4, c5, c6, c7, c8, c9, c10, c11, c12, c13, c14, c15, c16, c17, c18, c19, c20, c21, c22, c23, c24, c25, c26, c27, c28, c29, c30, c31, c32, c33, c34, c35] : Str).getD 1 ' ' = c1 from rfl] at h
    exact of_decide_eq_true h
  have dg2 : c2 ∈ lowerHexDigits := by
    have h := hall 2 (by decide)
    rw [if_neg (by decide)] at h
    rw [show ([c0, c1, c2, c3, c4, c5, c6, c7, c8, c9, c10, c11, c12, c13, c14, c15, c16, c17, c18, c19, c20, c21, c22, c23, c24, c25, c26, c27, c28, c29, c30, c31, c32, c33, c34, c35] : Str).getD 2 ' ' = c2 from rfl] at h
    exact of_decide_eq_true h
  have dg3 : c3 ∈ lowerHexDigits := by
    have h := hall 3 (by decide)
    rw [if_neg (by decide)] at h
    rw [show ([c0, c1, c2, c3, c4, c5, c6, c7, c8, c9, c10, c11, c12, c13, c14, c15, c16, c17, c18, c19, c20, c21, c22, c23, c24, c25, c26, c27, c28, c29, c30, c31, c32, c33, c34, c35] : Str).getD 3 ' ' = c3 from rfl] at h
    exact of_decide_eq_true h
  have dg4 : c4 ∈ lowerHexDigits := by
    have h := hall 4 (by decide)
    rw [if_neg (by decide)] at h
    rw [show ([c0, c1, c2, c3, c4, c5, c6, c7, c8, c9, c10, c11, c12, c13, c14, c15, c16, c17, c18, c19, c20, c21, c22, c23, c24, c25, c26, c27, c28, c29, c30, c31, c32, c33, c34, c35] : Str).getD 4 ' ' = c4 from rfl] at h
    exact of_decide_eq_true h
  have dg5 : c5 ∈ lowerHexDigits := by
    have h := hall 5 (by decide)
    rw [if_neg (by decide)] at h
    rw [show ([c0, c1, c2, c3, c4, c5, c6, c7, c8, c9, c10, c11, c12, c13, c14, c15, c16, c17, c18, c19, c20, c21, c22, c23, c24, c25, c26, c27, c28, c29, c30, c31, c32, c33, c34, c35] : Str).getD 5 ' ' = c5 from rfl] at h
    exact of_decide_eq_true h
  have dg6 : c6 ∈ lowerHexDigits := by
    have h := hall 6 (by decide)
    rw [if_neg (by decide)] at h
    rw [show ([c0, c1, c2, c3, c4, c5, c6, c7, c8, c9, c10, c11, c12, c13, c14, c15, c16, c17, c18, c19, c20, c21, c22, c23, c24, c25, c26, c27, c28, c29, c30, c31, c32, c33, c34, c35] : Str).getD 6 ' ' = c6 from rfl] at h
    exact of_decide_eq_true h
  have dg7 : c7 ∈ lowerHexDigits := by
    have h := hall 7 (by decide)
    rw [if_neg (by decide)] at h
    rw [show ([c0, c1, c2, c3, c4, c5, c6, c7, c8, c9, c10, c11, c12, c13, c14, c15, c16, c17, c18, c19, c20, c21, c22, c23, c24, c25, c26, c27, c28, c29, c30, c31, c32, c33, c34, c35] : Str).getD 7 ' ' = c7 from rfl] at h
    exact of_decide_eq_true h
  have dg9 : c9 ∈ lowerHexDigits := by
    have h := hall 9 (by decide)
    rw [if_neg (by decide)] at h
    rw [show ([c0, c1, c2, c3, c4, c5, c6, c7, c8, c9, c10, c11, c12, c13, c14, c15, c16, c17, c18, c19, c20, c21, c22, c23, c24, c25, c26, c27, c28, c29, c30, c31, c32, c33, c34, c35] : Str).getD 9 ' ' = c9 from rfl] at h
    exact of_decide_eq_true h
  have dg10 : c10 ∈ lowerHexDigits := by
    have h := hall 10 (by decide)
    rw [if_neg (by decide)] at h
    rw [show ([c0, c1, c2, c3, c4, c5, c6, c7, c8, c9, c10, c11, c12, c13, c14, c15, c16, c17, c18, c19, c20, c21, c22, c23, c24, c25, c26, c27, c28, c29, c30, c31, c32, c33, c34, c35] : Str).getD 10 ' ' = c10 from rfl] at h
    exact of_decide_eq_true h
  have dg11 : c11 ∈ lowerHexDigits := by
    have h := hall 11 (by decide)
    rw [if_neg (by decide)] at h
    rw [show ([c0, c1, c2, c3, c4, c5, c6, c7, c8, c9, c10, c11, c12, c13, c14, c15, c16, c17, c18, c19, c20, c21, c22, c23, c24, c25, c26, c27, c28, c29, c30, c31, c32, c33, c34, c35] : Str).getD 11 ' ' = c11 from rfl] at h
    exact of_decide_eq_true h
  have dg12 : c12 ∈ lowerHexDigits := by
    have h := hall 12 (by decide)
    rw [if_neg (by decide)] at h
    rw [show ([c0, c1, c2, c3, c4, c5, c6, c7, c8, c9, c10, c11, c12, c13, c14, c15, c16, c17, c18, c19, c20, c21, c22, c23, c24, c25, c26, c27, c28, c29, c30, c31, c32, c33, c34, c35] : Str).getD 12 ' ' = c12 from rfl] at h
    exact of_decide_eq_true h
  have dg14 : c14 ∈ lowerHexDigits := by
    have h := hall 14 (by decide)
    rw [if_neg (by decide)] at h
    rw [show ([c0, c1, c2, c3, c4, c5, c6, c7, c8, c9, c10, c11, c12, c13, c14, c15, c16, c17, c18, c19, c20, c21, c22, c23, c24, c25, c26, c27, c28, c29, c30, c31, c32, c33, c34, c35] : Str).getD 14 ' ' = c14 from rfl] at h
    exact of_decide_eq_true h
  have dg15 : c15 ∈ lowerHexDigits := by
    have h := hall 15 (by decide)
    rw [if_neg (by decide)] at h
    rw [show ([c0, c1, c2, c3, c4, c5, c6, c7, c8, c9, c10, c11, c12, c13, c14, c15, c16, c17, c18, c19, c20, c21, c22, c23, c24, c25, c26, c27, c28, c29, c30, c31, c32, c33, c34, c35] : Str).getD 15 ' ' = c15 from rfl] at h
    exact of_decide_eq_true h
  have dg16 : c16 ∈ lowerHexDigits := by
    have h := hall 16 (by decide)
    rw [if_neg (by decide)] at h
    rw [show ([c0, c1, c2, c3, c4, c5, c6, c7, c8, c9, c10, c11, c12, c13, c14, c15, c16, c17, c18, c19, c20, c21, c22, c23, c24, c25, c26, c27, c28, c29, c30, c31, c32, c33, c34, c35] : Str).getD 16 ' ' = c16 from rfl] at h
    exact of_decide_eq_true h
  have dg17 : c17 ∈ lowerHexDigits := by
    have h := hall 17 (by decide)
    rw [if_neg (by decide)] at h
    rw [show ([c0, c1, c2, c3, c4, c5, c6, c7, c8, c9, c10, c11, c12, c13, c14, c15, c16, c17, c18, c19, c20, c21, c22, c23, c24, c25, c26, c27, c28, c29, c30, c31, c32, c33, c34, c35] : Str).getD 17 ' ' = c17 from rfl] at h
    exact of_decide_eq_true h
  have dg19 : c19 ∈ lowerHexDigits := by
    have h := hall 19 (by decide)
    rw [if_neg (by decide)] at h
    rw [show ([c0, c1, c2, c3, c4, c5, c6, c7, c8, c9, c10, c11, c12, c13, c14, c15, c16, c17, c18, c19, c20, c21, c22, c23, c24, c25, c26, c27, c28, c29, c30, c31, c32, c33, c34, c35] : Str).getD 19 ' ' = c19 from rfl] at h
    exact of_decide_eq_true h
  have dg20 : c20 ∈ lowerHexDigits := by
    have h := hall 20 (by decide)
    rw [if_neg (by decide)] at h
    rw [show ([c0, c1, c2, c3, c4, c5, c6, c7, c8, c9, c10, c11, c12, c13, c14, c15, c16, c17, c18, c19, c20, c21, c22, c23, c24, c25, c26, c27, c28, c29, c30, c31, c32, c33, c34, c35] : Str).getD 20 ' ' = c20 from rfl] at h
    exact of_decide_eq_true h
  have dg21 : c21 ∈ lowerHexDigits := by
    have h := hall 21 (by decide)
    rw [if_neg (by decide)] at h
    rw [show ([c0, c1, c2, c3, c4, c5, c6, c7, c8, c9, c10, c11, c12, c13, c14, c15, c16, c17, c18, c19, c20, c21, c22, c23, c24, c25, c26, c27, c28, c29, c30, c31, c32, c33, c34, c35] : Str).getD 21 ' ' = c21 from rfl] at h
    exact of_decide_eq_true h
  have dg22 : c22 ∈ lowerHexDigits := by
    have h := hall 22 (by decide)
    rw [if_neg (by decide)] at h
    rw [show ([c0, c1, c2, c3, c4, c5, c6, c7, c8, c9, c10, c11, c12, c13, c14, c15, c16, c17, c18, c19, c20, c21, c22, c23, c24, c25, c26, c27, c28, c29, c30, c31, c32, c33, c34, c35] : Str).getD 22 ' ' = c22 from rfl] at h
    exact of_decide_eq_true h
  have dg24 : c24 ∈ lowerHexDigits := by
    have h := hall 24 (by decide)
    rw [if_neg (by decide)] at h
    rw [show ([c0, c1, c2, c3, c4, c5, c6, c7, c8, c9, c10, c11, c12, c13, c14, c15, c16, c17, c18, c19, c20, c21, c22, c23, c24, c25, c26, c27, c28, c29, c30, c31, c32, c33, c34, c35] : Str).getD 24 ' ' = c24 from rfl] at h
    exact of_decide_eq_true h
  have dg25 : c25 ∈ lowerHexDigits := by
    have h := hall 25 (by decide)
    rw [if_neg (by decide)] at h
    rw [show ([c0, c1, c2, c3, c4, c5, c6, c7, c8, c9, c10, c11, c12, c13, c14, c15, c16, c17, c18, c19, c20, c21, c22, c23, c24, c25, c26, c27, c28, c29, c30, c31, c32, c33, c34, c35] : Str).getD 25 ' ' = c25 from rfl] at h
    exact of_decide_eq_true h
  have dg26 : c26 ∈ lowerHexDigits := by
    have h := hall 26 (by decide)
    rw [if_neg (by decide)] at h
    rw [show ([c0, c1, c2, c3, c4, c5, c6, c7, c8, c9, c10, c11, c12, c13, c14, c15, c16, c17, c18, c19, c20, c21, c22, c23, c24, c25, c26, c27, c28, c29, c30, c31, c32, c33, c34, c35] : Str).getD 26 ' ' = c26 from rfl] at h
    exact of_decide_eq_true h
  have dg27 : c27 ∈ lowerHexDigits := by
    have h := hall 27 (by decide)
    rw [if_neg (by decide)] at h
    rw [show ([c0, c1, c2, c3, c4, c5, c6, c7, c8, c9, c10, c11, c12, c13, c14, c15, c16, c17, c18, c19, c20, c21, c22, c23, c24, c25, c26, c27, c28, c29, c30, c31, c32, c33, c34, c35] : Str).getD 27 ' ' = c27 from rfl] at h
    exact of_decide_eq_true h
  have dg28 : c28 ∈ lowerHexDigits := by
    have h := hall 28 (by decide)
    rw [if_neg (by decide)] at h
    rw [show ([c0, c1, c2, c3, c4, c5, c6, c7, c8, c9, c10, c11, c12, c13, c14, c15, c16, c17, c18, c19, c20, c21, c22, c23, c24, c25, c26, c27, c28, c29, c30, c31, c32, c33, c34, c35] : Str).getD 28 ' ' = c28 from rfl] at h
    exact of_decide_eq_true h
  have dg29 : c29 ∈ lowerHexDigits := by
    have h := hall 29 (by decide)
    rw [if_neg (by decide)] at h
    rw [show ([c0, c1, c2, c3, c4, c5, c6, c7, c8, c9, c10, c11, c12, c13, c14, c15, c16, c17, c18, c19, c20, c21, c22, c23, c24, c25, c26, c27, c28, c29, c30, c31, c32, c33, c34, c35] : Str).getD 29 ' ' = c29 from rfl] at h
    exact of_decide_eq_true h
  have dg30 : c30 ∈ lowerHexDigits := by
    have h := hall 30 (by decide)
    rw [if_neg (by decide)] at h
    rw [show ([c0, c1, c2, c3, c4, c5, c6, c7, c8, c9, c10, c11, c12, c13, c14, c15, c16, c17, c18, c19, c20, c21, c22, c23, c24, c25, c26, c27, c28, c29, c30, c31, c32, c33, c34, c35] : Str).getD 30 ' ' = c30 from rfl] at h
    exact of_decide_eq_true h
  have dg31 : c31 ∈ lowerHexDigits := by
    have h := hall 31 (by decide)
    rw [if_neg (by decide)] at h
    rw [show ([c0, c1, c2, c3, c4, c5, c6, c7, c8, c9, c10, c11, c12, c13, c14, c15, c16, c17, c18, c19, c20, c21, c22, c23, c24, c25, c26, c27, c28, c29, c30, c31, c32, c33, c34, c35] : Str).getD 31 ' ' = c31 from rfl] at h
    exact of_decide_eq_true h
  have dg32 : c32 ∈ lowerHexDigits := by
    have h := hall 32 (by decide)
    rw [if_neg (by decide)] at h
    rw [show ([c0, c1, c2, c3, c4, c5, c6, c7, c8, c9, c10, c11, c12, c13, c14, c15, c16, c17, c18, c19, c20, c21, c22, c23, c24, c25, c26, c27, c28, c29, c30, c31, c32, c33, c34, c35] : Str).getD 32 ' ' = c32 from rfl] at h
    exact of_decide_eq_true h
  have dg33 : c33 ∈ lowerHexDigits := by
    have h := hall 33 (by decide)
    rw [if_neg (by decide)] at h
    rw [show ([c0, c1, c2, c3, c4, c5, c6, c7, c8, c9, c10, c11, c12, c13, c14, c15, c16, c17, c18, c19, c20, c21, c22, c23, c24, c25, c26, c27, c28, c29, c30, c31, c32, c33, c34, c35] : Str).getD 33 ' ' = c33 from rfl] at h
    exact of_decide_eq_true h
  have dg34 : c34 ∈ lowerHexDigits := by
    have h := hall 34 (by decide)
    rw [if_neg (by decide)] at h
    rw [show ([c0, c1, c2, c3, c4, c5, c6, c7, c8, c9, c10, c11, c12, c13, c14, c15, c16, c17, c18, c19, c20, c21, c22, c23, c24, c25, c26, c27, c28, c29, c30, c31, c32, c33, c34, c35] : Str).getD 34 ' ' = c34 from rfl] at h
    exact of_decide_eq_true h
  have dg35 : c35 ∈ lowerHexDigits := by
    have h := hall 35 (by decide)
    rw [if_neg (by decide)] at h
    rw [show ([c0, c1, c2, c3, c4, c5, c6, c7, c8, c9, c10, c11, c12, c13, c14, c15, c16, c17, c18, c19, c20, c21, c22, c23, c24, c25, c26, c27, c28, c29, c30, c31, c32, c33, c34, c35] : Str).getD 35 ' ' = c35 from rfl] at h
    exact of_decide_eq_true h
  rw [show ubytesOf [c0, c1, c2, c3, c4, c5, c6, c7, c8, c9, c10, c11, c12, c13, c14, c15, c16, c17, c18, c19, c20, c21, c22, c23, c24, c25, c26, c27, c28, c29, c30, c31, c32, c33, c34, c35] = [(parseHex [c6, c7]).getD 0, (parseHex [c4, c5]).getD 0, (parseHex [c2, c3]).getD 0, (parseHex [c0, c1]).getD 0, (parseHex [c11, c12]).getD 0, (parseHex [c9, c10]).getD 0, (parseHex [c16, c17]).getD 0, (parseHex [c14, c15]).getD 0, (parseHex [c19, c20]).getD 0, (parseHex [c21, c22]).getD 0, (parseHex [c24, c25]).getD 0, (parseHex [c26, c27]).getD 0, (parseHex [c28, c29]).getD 0, (parseHex [c30, c31]).getD 0, (parseHex [c32, c33]).getD 0, (parseHex [c34, c35]).getD 0] from rfl]
  show byteHex ((parseHex [c0, c1]).getD 0) ++ byteHex ((parseHex [c2, c3]).getD 0) ++ byteHex ((parseHex [c4, c5]).getD 0) ++ byteHex ((parseHex [c6, c7]).getD 0) ++ ['-'] ++ byteHex ((parseHex [c9, c10]).getD 0) ++ byteHex ((parseHex [c11, c12]).getD 0) ++ ['-'] ++ byteHex ((parseHex [c14, c15]).getD 0) ++ byteHex ((parseHex [c16, c17]).getD 0) ++ ['-'] ++ byteHex ((parseHex [c19, c20]).getD 0) ++ byteHex ((parseHex [c21, c22]).getD 0) ++ ['-'] ++ byteHex ((parseHex [c24, c25]).getD 0) ++ byteHex ((parseHex [c26, c27]).getD 0) ++ byteHex ((parseHex [c28, c29]).getD 0) ++ byteHex ((parseHex [c30, c31]).getD 0) ++ byteHex ((parseHex [c32, c33]).getD 0) ++ byteHex ((parseHex [c34, c35]).getD 0) = [c0, c1, c2, c3, c4, c5, c6, c7, c8, c9, c10, c11, c12, c13, c14, c15, c16, c17, c18, c19, c20, c21, c22, c23, c24, c25, c26, c27, c28, c29, c30, c31, c32, c33, c34, c35]
  rw [show ([c0, c1, c2, c3, c4, c5, c6, c7, c8, c9, c10, c11, c12, c13, c14, c15, c16, c17, c18, c19, c20, c21, c22, c23, c24, c25, c26, c27, c28, c29, c30, c31, c32, c33, c34, c35] : Str) = [c0, c1] ++ [c2, c3] ++ [c4, c5] ++ [c6, c7] ++ [c8] ++ [c9, c10] ++ [c11, c12] ++ [c13] ++ [c14, c15] ++ [c16, c17] ++ [c18] ++ [c19, c20] ++ [c21, c22] ++ [c23] ++ [c24, c25] ++ [c26, c27] ++ [c28, c29] ++ [c30, c31] ++ [c32, c33] ++ [c34, c35] from by simp]
  exact (appendCongr (appendCongr (appendCongr (appendCongr (appendCongr (appendCongr (appendCongr (appendCongr (appendCongr (appendCongr (appendCongr (appendCongr (appendCongr (appendCongr (appendCongr (appendCongr (appendCongr (appendCongr (appendCongr (hexPair_roundtrip c0 dg0 c1 dg1) (hexPair_roundtrip c2 dg2 c3 dg3)) (hexPair_roundtrip c4 dg4 c5 dg5)) (hexPair_roundtrip c6 dg6 c7 dg7)) (show (['-'] : Str) = [c8] from by rw [hd8])) (hexPair_roundtrip c9 dg9 c10 dg10)) (hexPair_roundtrip c11 dg11 c12 dg12)) (show (['-'] : Str) = [c13] from by rw [hd13])) (hexPair_roundtrip c14 dg14 c15 dg15)) (hexPair_roundtrip c16 dg16 c17 dg17)) (show (['-'] : Str) = [c18] from by rw [hd18])) (hexPair_roundtrip c19 dg19 c20 dg20)) (hexPair_roundtrip c21 dg21 c22 dg22)) (show (['-'] : Str) = [c23] from by rw [hd23])) (hexPair_roundtrip c24 dg24 c25 dg25)) (hexPair_roundtrip c26 dg26 c27 dg27)) (hexPair_roundtrip c28 dg28 c29 dg29)) (hexPair_roundtrip c30 dg30 c31 dg31)) (hexPair_roundtrip c32 dg32 c33 dg33)) (hexPair_roundtrip c34 dg34 c35 dg35))

end FixBCD

namespace FixBCD

theorem skipZeros_ge (h : List Nat) : ∀ (fuel idx j : Nat),
    skipZeros h fuel idx = .ok j → idx ≤ j := by
  intro fuel
  induction fuel with
  | zero => intro idx j heq; simp [skipZeros] at heq
  | succ fuel ih =>
    intro idx j heq
    rw [skipZeros] at heq
    split at heq
    · simp at heq
    · split at heq
      · have := ih (idx + 4) j heq
        omega
      · simp at heq
        omega

theorem scan_acc (h : List Nat) (ln : Nat) : ∀ (fuel idx : Nat) (ids : List Str) (offs : List Nat),
    scanLoop h ln fuel idx ids offs =
      (scanLoop h ln fuel idx [] []).map (fun r => (ids ++ r.1, offs ++ r.2)) := by
  intro fuel
  induction fuel with
  | zero => intro idx ids offs; simp [scanLoop, Except.map]
  | succ fuel ih =>
    intro idx ids offs
    rw [scanLoop, scanLoop]
    by_cases hg : ln ≥ idx + 16
    · rw [if_pos hg, if_pos hg]
      match hsz : skipZeros h (fuel + 1) idx with
      | .error e => simp [Except.map]
      | .ok idx2 =>
        dsimp only
        by_cases hlt : ln < idx2 + 16
        · rw [if_pos hlt, if_pos hlt]
          simp [Except.map]
        · rw [if_neg hlt, if_neg hlt]
          by_cases hacc : accept_cand h ln idx2 = true
          · rw [if_pos hacc, if_pos hacc]
            rw [ih (idx2 + 16 + 4) (ids ++ [uuidstr ((h.drop idx2).take 16)]) (offs ++ [idx2])]
            simp only [List.nil_append]
            rw [ih (idx2 + 16 + 4) [uuidstr ((h.drop idx2).take 16)] [idx2]]
            match scanLoop h ln fuel (idx2 + 16 + 4) [] [] with
            | .error e => simp [Except.map]
            | .ok r => simp [Except.map]
          · rw [if_neg hacc, if_neg hacc]
            rw [ih (idx2 + 4) ids offs]
    · rw [if_neg hg, if_neg hg]
      simp [Except.map]

end FixBCD

namespace FixBCD

theorem scan_offs_ge (h : List Nat) (ln : Nat) : ∀ (fuel idx : Nat) (is : List Str) (os : List Nat),
    scanLoop h ln fuel idx [] [] = .ok (is, os) → ∀ x ∈ os, idx ≤ x := by
  intro fuel
  induction fuel with
  | zero => intro idx is os heq; simp [scanLoop] at heq
  | succ fuel ih =>
    intro idx is os heq
    rw [scanLoop] at heq
    split at heq
    · -- ln ≥ idx + 16
      split at heq
      · simp at heq
      · rename_i idx2 hsz
        have hge := skipZeros_ge h (fuel + 1) idx idx2 hsz
        split at heq
        · simp at heq
          intro x hx
          rw [heq.2] at hx
          simp at hx
        · split at heq
          · rw [scan_acc] at heq
            match hbase : scanLoop h ln fuel (idx2 + 16 + 4) [] [] with
            | .error e => rw [hbase] at heq; simp [Except.map] at heq
            | .ok r =>
              rw [hbase] at heq
              simp [Except.map] at heq
              intro x hx
              rw [← heq.2] at hx
              simp at hx
              rcases hx with rfl | hx
              · omega
              · have := ih (idx2 + 16 + 4) r.1 r.2 (by rw [hbase]) x hx
                omega
          · intro x hx
            have := ih (idx2 + 4) is os heq x hx
            omega
    · simp at heq
      intro x hx
      rw [heq.2] at hx
      simp at hx

theorem skipZeros_congr (b b2 : List Nat) (k : Nat)
    (hag : ∀ j, k ≤ j → b[j]? = b2[j]?) : ∀ (fuel idx : Nat), k ≤ idx →
    skipZeros b fuel idx = skipZeros b2 fuel idx := by
  intro fuel
  induction fuel with
  | zero => intro idx hk; rfl
  | succ fuel ih =>
    intro idx hk
    rw [skipZeros, skipZeros, ← hag idx hk]
    split
    · rfl
    · split
      · exact ih (idx + 4) (by omega)
      · rfl

theorem scanLoop_congr (b b2 : List Nat) (ln k : Nat)
    (hag : ∀ j, k ≤ j → b[j]? = b2[j]?)
    (hdrop : ∀ i, k ≤ i → b.drop i = b2.drop i) :
    ∀ (fuel idx : Nat) (ids : List Str) (offs : List Nat), k ≤ idx →
    scanLoop b ln fuel idx ids offs = scanLoop b2 ln fuel idx ids offs := by
  intro fuel
  induction fuel with
  | zero => intro idx ids offs hk; rfl
  | succ fuel ih =>
    intro idx ids offs hk
    rw [scanLoop, scanLoop]
    by_cases hg : ln ≥ idx + 16
    · rw [if_pos hg, if_pos hg]
      rw [← skipZeros_congr b b2 k hag (fuel + 1) idx hk]
      match hsz : skipZeros b (fuel + 1) idx with
      | .error e => rfl
      | .ok idx2 =>
        dsimp only
        have hk2 : k ≤ idx2 := le_trans hk (skipZeros_ge b (fuel + 1) idx idx2 hsz)
        have hwin : (b.drop idx2).take 16 = (b2.drop idx2).take 16 := by
          rw [hdrop idx2 hk2]
        have haccept : accept_cand b ln idx2 = accept_cand b2 ln idx2 := by
          unfold accept_cand
          rw [hwin]
          have : b.getD (idx2 + 16) 255 = b2.getD (idx2 + 16) 255 := by
            simp only [List.getD_eq_getElem?_getD]
            rw [hag (idx2 + 16) (by omega)]
          rw [this]
        by_cases hlt : ln < idx2 + 16
        · rw [if_pos hlt, if_pos hlt]
        · rw [if_neg hlt, if_neg hlt, haccept]
          by_cases hacc : accept_cand b2 ln idx2 = true
          · rw [if_pos hacc, if_pos hacc, hwin]
            exact ih (idx2 + 16 + 4) _ _ (by omega)
          · rw [if_neg hacc, if_neg hacc]
            exact ih (idx2 + 4) _ _ (by omega)
    · rw [if_neg hg, if_neg hg]

end FixBCD

namespace FixBCD

theorem scan_first_accept (b : List Nat) (ln fuel idx : Nat) (is : List Str) (os2 : List Nat)
    (heq : scanLoop b ln (fuel + 1) idx [] [] = .ok (is, idx :: os2)) :
    ln ≥ idx + 16 ∧ skipZeros b (fuel + 1) idx = .ok idx ∧ accept_cand b ln idx = true ∧
    ∃ is2, is = uuidstr ((b.drop idx).take 16) :: is2 ∧
      scanLoop b ln fuel (idx + 16 + 4) [] [] = .ok (is2, os2) := by
  rw [scanLoop] at heq
  split at heq
  · rename_i hln
    split at heq
    · simp at heq
    · rename_i idx2 hsz
      have hge := skipZeros_ge b (fuel + 1) idx idx2 hsz
      split at heq
      · simp at heq
      · split at heq
        · rename_i hnlt hacc
          rw [scan_acc] at heq
          match hbase : scanLoop b ln fuel (idx2 + 16 + 4) [] [] with
          | .error e => rw [hbase] at heq; simp [Except.map] at heq
          | .ok r =>
            rw [hbase] at heq
            simp [Except.map] at heq
            obtain ⟨his, hidx, hos2⟩ := heq
            subst hidx
            refine ⟨hln, hsz, hacc, r.1, his.symm, ?_⟩
            rw [← hos2, hbase]
        · have hin : idx ∈ idx :: os2 := by simp
          have := scan_offs_ge b ln fuel (idx2 + 4) is (idx :: os2) heq idx hin
          omega
  · simp at heq

end FixBCD

namespace FixBCD

theorem lowerUuid_isfmt (u : Str) (hu : lowerUuid u = true) : is_uuidfmt u = true := by
  unfold lowerUuid at hu
  unfold is_uuidfmt
  rw [Bool.and_eq_true] at hu ⊢
  obtain ⟨h1, h2⟩ := hu
  refine ⟨h1, ?_⟩
  rw [List.all_eq_true] at h2 ⊢
  intro i hi
  have := h2 i hi
  split at this
  · rw [if_pos (by assumption)]
    exact this
  · rw [if_neg (by assumption)]
    rw [decide_eq_true_eq] at this
    revert this
    generalize u.getD i ' ' = c
    intro hc
    have : ∀ d ∈ lowerHexDigits, isHexDig d = true := by decide
    exact this c hc

theorem scanLoop_patched (b : List Nat) (u : Str) (i0 : Str) (is2 : List Str) (offs : List Nat)
    (h256 : ∀ n ∈ b, n < 256) (hlu : lowerUuid u = true)
    (hhead : (ubytesOf u).getD 0 0 ≠ 0)
    (hcz : (counts (ubytesOf u)).1 < 2) (hca : (counts (ubytesOf u)).2 ≤ 10)
    (hscan : scanLoop b b.length (b.length + 2) 32 [] [] = .ok (i0 :: is2, 32 :: offs)) :
    scanLoop (b.take 32 ++ ubytesOf u ++ b.drop (32 + 16)) b.length (b.length + 2) 32 [] [] =
      .ok (u :: is2, 32 :: offs) := by
  obtain ⟨hln, hsz, hacc, is3, his3, hcont⟩ :=
    scan_first_accept b b.length (b.length + 1) 32 (i0 :: is2) offs hscan
  rw [List.cons.injEq] at his3
  have his2 : is3 = is2 := his3.2.symm
  subst his2
  set b2 := b.take 32 ++ ubytesOf u ++ b.drop (32 + 16) with hb2
  have hub16 : (ubytesOf u).length = 16 := rfl
  have htk32 : (b.take 32).length = 32 := by simp; omega
  have hlb2 : b2.length = b.length := by
    simp only [hb2, List.length_append, htk32, hub16, List.length_drop]
    omega
  have hdrop48 : b2.drop 48 = b.drop (32 + 16) := by
    rw [hb2, List.drop_append_eq_append_drop, List.drop_append_eq_append_drop,
      List.length_append, htk32, hub16]
    rw [List.drop_eq_nil_of_le (by rw [htk32]; omega)]
    rw [List.drop_eq_nil_of_le (by rw [hub16])]
    norm_num
  have hdrop32 : b2.drop 32 = ubytesOf u ++ b.drop (32 + 16) := by
    rw [hb2, List.drop_append_eq_append_drop, List.drop_append_eq_append_drop,
      List.length_append, htk32, hub16]
    rw [List.drop_eq_nil_of_le (by rw [htk32])]
    norm_num
  have hwin : (b2.drop 32).take 16 = ubytesOf u := by
    rw [hdrop32, List.take_append_eq_append_take, List.take_of_length_le (by rw [hub16]),
      hub16, Nat.sub_self, List.take_zero, List.append_nil]
  have hag : ∀ j, 48 ≤ j → b2[j]? = b[j]? := by
    intro j hj
    have e1 : b2[j]? = (b2.drop 48)[j - 48]? := by
      rw [List.getElem?_drop]
      congr 1
      omega
    have e2 : b[j]? = (b.drop (32 + 16))[j - 48]? := by
      rw [List.getElem?_drop]
      congr 1
      omega
    rw [e1, e2, hdrop48]
  have hdropj : ∀ i, 48 ≤ i → b2.drop i = b.drop i := by
    intro i hi
    have e1 : b2.drop i = (b2.drop 48).drop (i - 48) := by
      rw [List.drop_drop]
      congr 1
      omega
    have e2 : b.drop i = (b.drop (32 + 16)).drop (i - 48) := by
      rw [List.drop_drop]
      congr 1
      omega
    rw [e1, e2, hdrop48]
  have h032 : b2[32]? = some ((ubytesOf u).getD 0 0) := by
    have e : b2[32]? = (b2.drop 32)[0]? := by
      rw [List.getElem?_drop]
    rw [e, hdrop32]
    rw [List.getElem?_append_left (by rw [hub16]; omega)]
    rw [List.getElem?_eq_getElem (by rw [hub16]; omega)]
    rw [List.getD_eq_getElem _ 0 (by rw [hub16]; omega)]
  have hacc3 : b.length = 32 + 16 ∨ b.getD (32 + 16) 255 = 0 := by
    unfold accept_cand at hacc
    simp only [Bool.and_eq_true, Bool.or_eq_true, decide_eq_true_eq] at hacc
    exact hacc.2
  have haccept2 : accept_cand b2 b.length 32 = true := by
    unfold accept_cand
    simp only [hwin]
    have hfollow : b2.getD (32 + 16) 255 = b.getD (32 + 16) 255 := by
      simp only [List.getD_eq_getElem?_getD]
      rw [hag (32 + 16) (by omega)]
    simp only [Bool.and_eq_true, Bool.or_eq_true, decide_eq_true_eq, hfollow]
    exact ⟨⟨hcz, hca⟩, hacc3⟩
  rw [scanLoop]
  rw [if_pos (by omega)]
  have hszn : skipZeros b2 (b.length + 1 + 1) 32 = .ok 32 := by
    rw [skipZeros, h032]
    dsimp only
    rw [if_neg hhead]
  rw [show b.length + 2 = b.length + 1 + 1 from rfl, hszn]
  dsimp only
  rw [if_neg (by omega)]
  rw [if_pos haccept2]
  rw [scan_acc]
  rw [scanLoop_congr b2 b b.length 48 hag hdropj (b.length + 1) (32 + 16 + 4) _ _ (by omega)]
  rw [hcont]
  rw [hwin, uuidstr_ubytesOf u hlu]
  simp [Except.map]

end FixBCD

namespace FixBCD

/-- Claim C5, amended.  Part 1: `uuid_bytes` is inverse to the scanner's
canonicalization: decoding `uuid_bytes u` and re-canonicalizing with
`uuidstr` gives back every well-formed lower-case UUID string `u`.
Part 2: for every canonically `hex:`-encoded value on which the scanner
reports its first UUID at offset 32, patching a well-formed lower-case
UUID `u` there with `correct_uuid` makes a re-scan report `u` at offset 32
with all other reported UUIDs and offsets unchanged — provided the byte
pattern of `u` itself passes the scanner's tests (nonzero first byte,
fewer than 2 zero bytes, at most 10 printable-range bytes), without which
the re-scan diverges (see the counterexample). -/
theorem claim_C5_amended :
    (∀ u : Str, lowerUuid u = true → uuidstr (ubytesOf u) = u) ∧
    (∀ (b : List Nat) (u : Str) (ids : List Str) (offs : List Nat),
      (∀ n ∈ b, n < 256) → lowerUuid u = true →
      (ubytesOf u).getD 0 0 ≠ 0 →
      (counts (ubytesOf u)).1 < 2 → (counts (ubytesOf u)).2 ≤ 10 →
      find_part_disk (hexValue b) = some (.ok (ids, 32 :: offs)) →
      (correct_uuid u 32 (hexValue b)).bind find_part_disk =
        some (.ok (u :: ids.tail, 32 :: offs))) := by
  refine ⟨uuidstr_ubytesOf, ?_⟩
  intro b u ids offs h256 hlu hhead hcz hca hscan
  have hbne : b ≠ [] := by
    intro hb
    subst hb
    rw [show find_part_disk (hexValue []) = none from rfl] at hscan
    simp at hscan
  have hdec := arr_from_hexstr_hexValue b hbne h256
  rw [find_part_disk, hdec] at hscan
  dsimp only at hscan
  rw [Option.some.injEq] at hscan
  obtain ⟨hln, -, -, is2, hids, -⟩ :=
    scan_first_accept b b.length (b.length + 1) 32 ids offs hscan
  rw [hids] at hscan
  have hpatched := scanLoop_patched b u _ is2 offs h256 hlu hhead hcz hca hscan
  have ho : 32 + 16 ≤ b.length := by omega
  rw [correct_uuid_hexValue u 32 b h256 ho]
  have hu := lowerUuid_isfmt u hlu
  show find_part_disk _ = _
  rw [find_part_disk, arr_from_hexstr_spliced u 32 b hu h256]
  dsimp only
  have hub16 : (ubytesOf u).length = 16 := rfl
  have hlb2 : (b.take 32 ++ ubytesOf u ++ b.drop (32 + 16)).length = b.length := by
    simp only [List.length_append, List.length_take, List.length_drop, hub16]
    omega
  rw [hlb2, hpatched, hids]
  simp

end FixBCD

namespace FixBCD

/-- Claim C5, counterexample.  The all-zero UUID string is well formed,
and offset 32 is one the scanner reported for this value; yet after
patching it in, the re-scan no longer reports offset 32 at all (the
patched window is zero-skipped), so re-scanning does not reproduce the
intended UUID at the same offset. -/
theorem claim_C5_counterexample :
    find_part_disk scenarioGap =
      some (.ok (["aaaaaaaa-bbbb-cccc-dddd-eeeeeeeeeeee".data,
                  "11111111-1111-1111-8888-888888888888".data], [32, 56])) ∧
    lowerUuid "00000000-0000-0000-0000-000000000000".data = true ∧
    (correct_uuid "00000000-0000-0000-0000-000000000000".data 32 scenarioGap).bind
        find_part_disk =
      some (.ok (["11111111-1111-1111-8888-888888888888".data], [56])) ∧
    (correct_uuid "00000000-0000-0000-0000-000000000000".data 32 scenarioGap).bind
        find_part_disk ≠
      some (.ok (["00000000-0000-0000-0000-000000000000".data,
                  "11111111-1111-1111-8888-888888888888".data], [32, 56])) := by
  refine ⟨rfl, by decide, rfl, ?_⟩
  intro h
  rw [show (correct_uuid "00000000-0000-0000-0000-000000000000".data 32 scenarioGap).bind
        find_part_disk =
      some (.ok (["11111111-1111-1111-8888-888888888888".data], [56])) from rfl] at h
  simp at h

/-- Witness for claim C5 at a concrete patch that satisfies the scanner
heuristic. -/
theorem claim_C5_witness :
    (correct_uuid "22222222-2222-2222-9999-999999999999".data 32 scenarioGap).bind
        find_part_disk =
      some (.ok (["22222222-2222-2222-9999-999999999999".data,
                  "11111111-1111-1111-8888-888888888888".data], [32, 56])) := by
  have h := claim_C5_amended.2
    (List.replicate 32 0 ++ partBytes ++ List.replicate 8 0 ++ diskBytesOk ++ [0])
    "22222222-2222-2222-9999-999999999999".data
    ["aaaaaaaa-bbbb-cccc-dddd-eeeeeeeeeeee".data,
     "11111111-1111-1111-8888-888888888888".data]
    [56] (by decide) (by decide) (by decide) (by decide) (by decide) (by rfl)
  exact h

end FixBCD

namespace FixBCD

/-- Claim C10.  The serializer's wrapping loop does not terminate on a
value longer than the wrap width with no comma at or after the search
position: `val.find(",", wrap-2)` returns -1, `val[:0]` is empty,
`val[idx+1:]` is the whole value again, and the loop state repeats
forever.  In the fuel model the call fails for every fuel. -/
theorem claim_C10_failing_input :
    ∀ fuel, output_elem fuel 66 (List.replicate 80 'x') = none := by
  have key : ∀ fuel, output_elem fuel 76 (List.replicate 80 'x') = none := by
    intro fuel
    induction fuel with
    | zero => rfl
    | succ fuel ih =>
      rw [output_elem]
      rw [if_neg (by decide), if_neg (by decide)]
      rw [show findFrom (List.replicate 80 'x') (76 - 2) = none from by decide]
      rw [ih]
  intro fuel
  cases fuel with
  | zero => rfl
  | succ fuel =>
    rw [output_elem]
    rw [if_neg (by decide), if_neg (by decide)]
    rw [show findFrom (List.replicate 80 'x') (66 - 2) = none from by decide]
    rw [key fuel]

/-- Claim C6, counterexample.  A leaf line before any key line does not
abort the parse: it is captured as the header (first branch of the loop)
and the parse succeeds with an empty tree.  Likewise a continuation line
before any key line is silently consumed. -/
theorem claim_C6_counterexample :
    reg_to_dict (crlf "\"name\"=hex:00\n".data) =
      some ([], some "\"name\"=hex:00".data) ∧
    reg_to_dict (crlf "  cont\n".data) = some ([], some "  cont".data) := by
  constructor
  · rfl
  · rfl

/-- Claim C6, amended.  With no active key, any non-bracket line (leaf
lines and continuation lines included) is silently skipped — at most the
header changes, never the tree, and no error is raised; the parser fails
with an error only on a continuation line while a key is active but no
leaf is (the `assert elem`, which also fires on a falsy empty leaf
name). -/
theorem claim_C6_amended :
    (∀ st ln, st.key = none → ln.head? ≠ some '[' →
      ∃ st', parseLine st ln = some st' ∧ st'.regdict = st.regdict ∧
        st'.key = none ∧ st'.elem = st.elem) ∧
    (∀ st ln, st.key ≠ none → (st.elem = none ∨ st.elem = some []) →
      ln.take 2 = [' ', ' '] → parseLine st ln = none) := by
  constructor
  · intro st ln hk hb
    refine ⟨{ st with header := if pyTruthyS st.header then st.header else some ln },
      ?_, rfl, hk, rfl⟩
    rw [parseLine, if_pos ⟨hb, hk⟩]
  · intro st ln hk he h2
    obtain ⟨c1, ln1, rfl⟩ : ∃ c1 t, ln = c1 :: t := by
      cases ln with
      | nil => simp at h2
      | cons c t => exact ⟨c, t, rfl⟩
    obtain ⟨c2, ln2, rfl⟩ : ∃ c2 t, ln1 = c2 :: t := by
      cases ln1 with
      | nil => simp at h2
      | cons c t => exact ⟨c, t, rfl⟩
    simp only [List.take_succ_cons, List.take_zero, List.cons.injEq] at h2
    obtain ⟨rfl, rfl, -⟩ := h2
    rw [parseLine]
    rw [if_neg (by simp [hk])]
    rw [if_neg (by simp)]
    rw [if_neg (by simp)]
    rw [if_neg (by simp)]
    rw [if_pos (show List.take 2 (' ' :: ' ' :: ln2) = [' ', ' '] from rfl)]
    rcases he with he | he <;> rw [he] <;> rfl

end FixBCD

namespace FixBCD

/-- Witness for claim C6 at concrete states and lines. -/
theorem claim_C6_witness :
    (parseLine initSt "\"x\"=1".data).map PSt.regdict = some [] ∧
    parseLine ⟨some ['h'], [(['A'], .branch [])], some ([['A']], false), none⟩
      "  x".data = none := by
  constructor
  · obtain ⟨st', h1, h2, -, -⟩ := claim_C6_amended.1 initSt "\"x\"=1".data rfl (by decide)
    rw [h1]
    simp [h2, initSt]
  · exact claim_C6_amended.2 _ _ (by simp) (Or.inl rfl) rfl

theorem lookupE_setE (es : List (Str × Node)) (k : Str) (n : Node) :
    lookupE (setE es k n) k = some n := by
  induction es with
  | nil => simp [setE, lookupE]
  | cons p rest ih =>
    rw [setE]
    by_cases h : p.1 = k
    · rw [if_pos h, lookupE, if_pos h]
    · rw [if_neg h, lookupE, if_neg h, ih]

theorem modifyAtPath_spec : ∀ (segs : List Str) (r es2 es3 : List (Str × Node))
    (f : List (Str × Node) → Option (List (Str × Node))),
    getAtPath r segs = some es2 → f es2 = some es3 →
    ∃ r', modifyAtPath r segs f = some r' ∧ getAtPath r' segs = some es3 := by
  intro segs
  induction segs with
  | nil =>
    intro r es2 es3 f hg hf
    rw [getAtPath] at hg
    simp only [Option.some.injEq] at hg
    subst hg
    exact ⟨es3, by rw [modifyAtPath, hf], rfl⟩
  | cons k rest ih =>
    intro r es2 es3 f hg hf
    rw [getAtPath] at hg
    match hl : lookupE r k with
    | none => rw [hl] at hg; simp at hg
    | some (.leaf v) => rw [hl] at hg; simp at hg
    | some (.branch es4) =>
      rw [hl] at hg
      dsimp only at hg
      obtain ⟨r2, hm, hgr⟩ := ih es4 es2 es3 f hg hf
      refine ⟨setE r k (.branch r2), ?_, ?_⟩
      · rw [modifyAtPath, hl]
        dsimp only
        rw [hm]
      · rw [getAtPath, lookupE_setE]
        dsimp only
        rw [hgr]

/-- Claim C8, counterexample.  A leaf line whose value contains a second
`=` aborts the parse (tuple unpack of a three-element split), while the
same line with a plain value parses fine — the split is not at the first
`=` only. -/
theorem claim_C8_counterexample :
    reg_to_dict (crlf "hdr\n\n[\\A]\n\"k\"=a=b\n".data) = none ∧
    reg_to_dict (crlf "hdr\n\n[\\A]\n\"k\"=ab\n".data) =
      some ([(['A'], .branch [(['k'], .leaf ['a', 'b'])])], some "hdr".data) := by
  constructor
  · rfl
  · rfl

/-- Claim C8, amended.  A leaf line reaching the leaf branch with exactly
one `=` stores the value under the key with all quote characters removed
from the key; a trailing backslash on the value is dropped and the leaf
is recorded as current (`elem`), so continuation lines are expected.  A
leaf line whose value contains an additional `=` (three or more split
pieces) makes the parse fail. -/
theorem claim_C8_amended :
    (∀ (st : PSt) (ln : Str) (segs : List Str) (k0 v0 : Str)
      (es2 : List (Str × Node)),
      st.key = some (segs, false) →
      ln.head? = some '"' →
      splitOnChar '=' ln = [k0, v0] →
      v0 ≠ [] →
      getAtPath st.regdict segs = some es2 →
      ∃ st', parseLine st ln = some st' ∧
        st'.header = st.header ∧ st'.key = st.key ∧
        st'.elem = some (k0.filter (· ≠ '"')) ∧
        getAtPath st'.regdict segs =
          some (setE es2 (k0.filter (· ≠ '"'))
            (.leaf (if v0.getLast? = some '\\' then v0.dropLast else v0)))) ∧
    (∀ (st : PSt) (ln : Str) (segs : List Str) (isLf : Bool)
      (p1 p2 p3 : Str) (ps : List Str),
      st.key = some (segs, isLf) →
      ln.head? = some '"' →
      splitOnChar '=' ln = p1 :: p2 :: p3 :: ps →
      parseLine st ln = none) := by
  constructor
  · intro st ln segs k0 v0 es2 hk hq hsp hv0 hget
    obtain ⟨r', hm, hg'⟩ := modifyAtPath_spec segs st.regdict es2
      (setE es2 (k0.filter (· ≠ '"'))
        (.leaf (if v0.getLast? = some '\\' then v0.dropLast else v0)))
      (fun es => some (setE es (k0.filter (· ≠ '"'))
        (.leaf (if v0.getLast? = some '\\' then v0.dropLast else v0)))) hget rfl
    refine ⟨{ st with regdict := r', elem := some (k0.filter (· ≠ '"')) },
      ?_, rfl, rfl, rfl, hg'⟩
    rw [parseLine]
    rw [if_neg (by simp [hq, hk])]
    rw [if_neg (by intro hh; rw [hh] at hq; simp at hq)]
    have hnb : ¬ (ln.head? = some '[') := by rw [hq]; simp
    rw [if_neg hnb, if_pos hq, hk]
    dsimp only
    rw [hsp]
    dsimp only
    rw [if_neg hv0]
    simp only [Bool.false_eq_true, if_false]
    rw [hm]
  · intro st ln segs isLf p1 p2 p3 ps hk hq hsp
    rw [parseLine]
    rw [if_neg (by simp [hq, hk])]
    rw [if_neg (by intro hh; rw [hh] at hq; simp at hq)]
    have hnb : ¬ (ln.head? = some '[') := by rw [hq]; simp
    rw [if_neg hnb, if_pos hq, hk, hsp]

end FixBCD

namespace FixBCD

/-- Witness for claim C8 at a concrete state and leaf lines. -/
theorem claim_C8_witness :
    (parseLine ⟨some ['h'], [(['A'], .branch [])], some ([['A']], false), none⟩
        "\"k\"=ab\\".data).map (fun s => (s.elem, getAtPath s.regdict [['A']])) =
      some (some ['k'], some [(['k'], Node.leaf ['a', 'b'])]) ∧
    parseLine ⟨some ['h'], [(['A'], .branch [])], some ([['A']], false), none⟩
      "\"k\"=a=b".data = none := by
  constructor
  · obtain ⟨st', h1, -, -, h4, h5⟩ := claim_C8_amended.1
      ⟨some ['h'], [(['A'], .branch [])], some ([['A']], false), none⟩
      "\"k\"=ab\\".data [['A']] "\"k\"".data "ab\\".data [] rfl rfl rfl (by decide) rfl
    rw [h1]
    simp only [Option.map_some']
    rw [h4, h5]
    rfl
  · exact claim_C8_amended.2
      ⟨some ['h'], [(['A'], .branch [])], some ([['A']], false), none⟩
      "\"k\"=a=b".data [['A']] false "\"k\"".data "a".data "b".data [] rfl rfl rfl

end FixBCD

namespace FixBCD

/-- The `for arg in args:` loop of `main` ends with the `unfixed`
variable holding the LAST file's count: for any successful prefix run,
appending one more file makes the loop return that file's own result. -/
theorem main_loop_last (nc : Bool) (ovwr : List Str) (PU : List (Str × Str))
    (PD : List (Str × Option Str)) (PDN PDe : List (Str × Str)) (wfuel : Nat) (a : Str) :
    ∀ (as : List Str) (x : Nat) (ins insMid : List Str),
      mainThread nc ovwr PU PD PDN PDe wfuel as ins = some insMid →
      main_loop nc ovwr PU PD PDN PDe wfuel (as ++ [a]) x ins =
        (processFile nc ovwr PU PD PDN PDe wfuel a insMid).map (fun r => r.1)
  | [], x, ins, insMid, h => by
    simp only [mainThread, Option.some.injEq] at h
    subst h
    simp only [List.nil_append, main_loop]
    cases hp : processFile nc ovwr PU PD PDN PDe wfuel a ins with
    | none => simp
    | some r => simp [main_loop]
  | d :: ds, x, ins, insMid, h => by
    simp only [mainThread] at h
    simp only [List.cons_append, main_loop]
    cases hp : processFile nc ovwr PU PD PDN PDe wfuel d ins with
    | none => rw [hp] at h; exact absurd h (by simp)
    | some r =>
      rw [hp] at h
      exact main_loop_last nc ovwr PU PD PDN PDe wfuel a ds r.1 r.2 insMid h

/-- C9: the process exit code is NOT the total count of unfixed entries
over all files.  `main` rebinds `unfixed` in every loop iteration, so the
exit code is the last file's count alone: with a first hive leaving one
entry unfixed and a second hive with nothing to fix, `main` returns 0
although 1 + 0 entries remain unfixed overall. -/
theorem claim_C9_counterexample :
    main_over false [] [] [] [] [] 100 [c9dump1, c9dump2] [] = some 0 ∧
    (processFile false [] [] [] [] [] 100 c9dump1 []).map (fun r => r.1) = some 1 ∧
    (processFile false [] [] [] [] [] 100 c9dump2 []).map (fun r => r.1) = some 0 ∧
    (0 : Nat) ≠ 1 + 0 :=
  ⟨rfl, rfl, rfl, by decide⟩

/-- C9 (amended): for every invocation whose earlier files all process
successfully, the exit code of `main` equals the number of unfixed
entries of the LAST processed file only; counts of earlier files are
overwritten, so a nonzero exit indicates only that the last file has
unfixed entries. -/
theorem claim_C9_amended (nc : Bool) (ovwr : List Str) (PU : List (Str × Str))
    (PD : List (Str × Option Str)) (PDN PDe : List (Str × Str)) (wfuel : Nat)
    (as : List Str) (a : Str) (ins insMid : List Str)
    (h : mainThread nc ovwr PU PD PDN PDe wfuel as ins = some insMid) :
    main_over nc ovwr PU PD PDN PDe wfuel (as ++ [a]) ins =
      (processFile nc ovwr PU PD PDN PDe wfuel a insMid).map (fun r => r.1) := by
  have hl := main_loop_last nc ovwr PU PD PDN PDe wfuel a as 0 ins insMid h
  cases as with
  | nil => simpa [main_over] using hl
  | cons d ds => simpa [main_over] using hl

theorem claim_C9_witness :
    main_over false [] [] [] [] [] 100 [c9dump1, c9dump2] [] =
      (processFile false [] [] [] [] [] 100 c9dump2 []).map (fun r => r.1) :=
  claim_C9_amended false [] [] [] [] [] 100 [c9dump1] c9dump2 [] [] (by rfl)

end FixBCD

namespace FixBCD

/-! #### Generic splitting lemmas -/

theorem intercalate_cons_ne_nil_g (sep : Char) (x : Str) (xs : List Str) (h : xs ≠ []) :
    List.intercalate [sep] (x :: xs) = x ++ sep :: List.intercalate [sep] xs := by
  cases xs with
  | nil => simp at h
  | cons y ys => simp [List.intercalate, List.intersperse]

theorem intercalate_singleton_g (sep : Char) (x : Str) :
    List.intercalate [sep] [x] = x := by
  simp [List.intercalate]

theorem splitOnChar_no_sep_g (sep : Char) (a : Str) (h : sep ∉ a) :
    splitOnChar sep a = [a] := by
  induction a with
  | nil => rfl
  | cons c rest ih =>
    simp only [List.mem_cons, not_or] at h
    rw [splitOnChar]
    simp only [if_neg (show ¬(c = sep) from fun hh => h.1 hh.symm)]
    rw [ih h.2]

theorem splitOnChar_append_g (sep : Char) (a b : Str) (h : sep ∉ a) :
    splitOnChar sep (a ++ sep :: b) = a :: splitOnChar sep b := by
  induction a with
  | nil => simp [splitOnChar]
  | cons c rest ih =>
    simp only [List.mem_cons, not_or] at h
    rw [List.cons_append, splitOnChar]
    simp only [if_neg (show ¬(c = sep) from fun hh => h.1 hh.symm)]
    rw [ih h.2]

theorem splitOnChar_intercalate_g (sep : Char) (ps : List Str) (h : ps ≠ [])
    (hp : ∀ p ∈ ps, sep ∉ p) :
    splitOnChar sep (List.intercalate [sep] ps) = ps := by
  induction ps with
  | nil => simp at h
  | cons p ps ih =>
    cases ps with
    | nil =>
      rw [intercalate_singleton_g]
      exact splitOnChar_no_sep_g sep p (hp p (by simp))
    | cons q qs =>
      rw [intercalate_cons_ne_nil_g sep p (q :: qs) (by simp)]
      rw [splitOnChar_append_g _ _ _ (hp p (by simp))]
      rw [ih (by simp) (fun r hr => hp r (by simp [hr]))]

/-! #### Lines of a newline-joined list -/

theorem dumpLines_cons (l : Str) (ls : List Str) :
    dumpLines (l :: ls) = l ++ '\n' :: dumpLines ls := by
  simp [dumpLines]

theorem dumpLines_append (a b : List Str) :
    dumpLines (a ++ b) = dumpLines a ++ dumpLines b := by
  simp [dumpLines]

theorem splitOnChar_dumpLines (ls : List Str) (h : ∀ l ∈ ls, '\n' ∉ l) :
    splitOnChar '\n' (dumpLines ls) = ls ++ [[]] := by
  induction ls with
  | nil => rfl
  | cons l rest ih =>
    rw [dumpLines_cons, splitOnChar_append_g _ _ _ (h l (by simp))]
    rw [ih (fun x hx => h x (by simp [hx]))]
    simp

theorem toLines_dumpLines (ls : List Str) (h : ∀ l ∈ ls, '\n' ∉ l) :
    toLines (dumpLines ls) = ls := by
  rw [toLines]
  simp only [splitOnChar_dumpLines ls h]
  rw [if_pos (List.getLast?_concat ls)]
  exact List.dropLast_concat

theorem not_mem_dumpLines (c : Char) (ls : List Str) (hc : c ≠ '\n')
    (h : ∀ l ∈ ls, c ∉ l) : c ∉ dumpLines ls := by
  intro hm
  rw [dumpLines, List.mem_flatten] at hm
  obtain ⟨piece, hp, hcp⟩ := hm
  rw [List.mem_map] at hp
  obtain ⟨l, hl, rfl⟩ := hp
  rcases List.mem_append.mp hcp with h1 | h2
  · exact h l hl h1
  · simp at h2; exact hc h2

/-! #### CRLF translation and its inverse -/

theorem crlf_cons_ne (c : Char) (rest : Str) (h : c ≠ '\n') :
    crlf (c :: rest) = c :: crlf rest := by
  conv_lhs => rw [crlf.eq_def]
  split
  · rename_i heq; cases heq
  · rename_i heq
    injection heq with h1 h2
    exact absurd h1 h
  · rename_i heq
    injection heq with h1 h2
    rw [h1, h2]

theorem universal_nl_cons_ne (c : Char) (rest : Str) (h : c ≠ '\r') :
    universal_nl (c :: rest) = c :: universal_nl rest := by
  conv_lhs => rw [universal_nl.eq_def]
  split
  · rename_i heq; cases heq
  · rename_i heq
    injection heq with h1 h2
    exact absurd h1 h
  · rename_i heq
    injection heq with h1 h2
    exact absurd h1 h
  · rename_i heq
    injection heq with h1 h2
    rw [h1, h2]

theorem universal_nl_crlf (txt : Str) (h : '\r' ∉ txt) :
    universal_nl (crlf txt) = txt := by
  induction txt with
  | nil => rfl
  | cons c rest ih =>
    simp only [List.mem_cons, not_or] at h
    by_cases hc : c = '\n'
    · subst hc
      show universal_nl ('\r' :: '\n' :: crlf rest) = '\n' :: rest
      rw [universal_nl, ih h.2]
    · rw [crlf_cons_ne c _ hc,
          universal_nl_cons_ne c _ (fun hh => h.1 hh.symm), ih h.2]

/-! #### Association-list and path algebra -/

theorem setE_fresh (es : List (Str × Node)) (k : Str) (n : Node)
    (h : lookupE es k = none) : setE es k n = es ++ [(k, n)] := by
  induction es with
  | nil => rfl
  | cons p rest ih =>
    rw [lookupE] at h
    rw [setE]
    by_cases hk : p.1 = k
    · rw [if_pos hk] at h; cases h
    · rw [if_neg hk] at h
      rw [if_neg hk, ih h, List.cons_append]

theorem setE_self (es : List (Str × Node)) (k : Str) (n : Node)
    (h : lookupE es k = some n) : setE es k n = es := by
  induction es with
  | nil => cases h
  | cons p rest ih =>
    rw [lookupE] at h
    rw [setE]
    by_cases hk : p.1 = k
    · rw [if_pos hk] at h
      injection h with h
      rw [if_pos hk, ← h]
    · rw [if_neg hk] at h
      rw [if_neg hk, ih h]

theorem setE_setE (es : List (Str × Node)) (k : Str) (n n' : Node) :
    setE (setE es k n) k n' = setE es k n' := by
  induction es with
  | nil => simp [setE]
  | cons p rest ih =>
    rw [setE]
    by_cases hk : p.1 = k
    · rw [if_pos hk, setE, if_pos hk, setE, if_pos hk]
    · rw [if_neg hk, setE, if_neg hk, setE, if_neg hk, ih]

theorem lookupE_append (c d : List (Str × Node)) (j : Str) :
    lookupE (c ++ d) j =
      match lookupE c j with
      | some n => some n
      | none => lookupE d j := by
  induction c with
  | nil => simp [lookupE]
  | cons p rest ih =>
    rw [List.cons_append, lookupE, lookupE]
    by_cases hj : p.1 = j
    · rw [if_pos hj, if_pos hj]
    · rw [if_neg hj, if_neg hj, ih]

theorem setE_append_of_none (c : List (Str × Node)) (k : Str) (n n' : Node)
    (h : lookupE c k = none) : setE (c ++ [(k, n)]) k n' = c ++ [(k, n')] := by
  induction c with
  | nil => simp [setE]
  | cons p rest ih =>
    rw [lookupE] at h
    rw [List.cons_append, setE]
    by_cases hk : p.1 = k
    · rw [if_pos hk] at h; cases h
    · rw [if_neg hk] at h
      rw [if_neg hk, ih h, List.cons_append]

theorem getAtPath_cons (t : List (Str × Node)) (k : Str) (rest : List Str) :
    getAtPath t (k :: rest) =
      match lookupE t k with
      | some (.branch e2) => getAtPath e2 rest
      | _ => none := rfl

theorem setAtPath_cons (t : List (Str × Node)) (k : Str) (rest : List Str)
    (new : List (Str × Node)) :
    setAtPath t (k :: rest) new =
      match lookupE t k with
      | some (.branch e2) => setE t k (.branch (setAtPath e2 rest new))
      | _ => t := rfl

theorem modifyAtPath_cons (t : List (Str × Node)) (k : Str) (rest : List Str)
    (f : List (Str × Node) → Option (List (Str × Node))) :
    modifyAtPath t (k :: rest) f =
      match lookupE t k with
      | some (.branch e2) =>
        match modifyAtPath e2 rest f with
        | none => none
        | some es2 => some (setE t k (.branch es2))
      | _ => none := rfl

theorem addToDictAux_cons (t : List (Str × Node)) (k : Str) (rest : List Str) :
    addToDictAux (k :: rest) t =
      match lookupE t k with
      | some (.leaf v) => if rest = [] then some (t, true) else none
      | some (.branch es2) =>
        match addToDictAux rest es2 with
        | none => none
        | some (es2', b) => some (setE t k (.branch es2'), b)
      | none =>
        match addToDictAux rest [] with
        | none => none
        | some (es2', b) => some (t ++ [(k, .branch es2')], b) := rfl

theorem getAtPath_setAtPath : ∀ (Q : List Str) (t cur new : List (Str × Node)),
    getAtPath t Q = some cur → getAtPath (setAtPath t Q new) Q = some new
  | [], t, cur, new, _ => rfl
  | k :: rest, t, cur, new, h => by
    rw [getAtPath_cons] at h
    match hl : lookupE t k with
    | none => rw [hl] at h; cases h
    | some (.leaf v) => rw [hl] at h; cases h
    | some (.branch e2) =>
      rw [hl] at h
      dsimp only at h
      rw [setAtPath_cons, hl]
      dsimp only
      rw [getAtPath_cons, lookupE_setE]
      dsimp only
      exact getAtPath_setAtPath rest e2 cur new h

theorem setAtPath_self : ∀ (Q : List Str) (t cur : List (Str × Node)),
    getAtPath t Q = some cur → setAtPath t Q cur = t
  | [], t, cur, h => by
    rw [getAtPath] at h
    injection h with h
    rw [setAtPath, h]
  | k :: rest, t, cur, h => by
    rw [getAtPath_cons] at h
    match hl : lookupE t k with
    | none => rw [hl] at h; cases h
    | some (.leaf v) => rw [hl] at h; cases h
    | some (.branch e2) =>
      rw [hl] at h
      dsimp only at h
      rw [setAtPath_cons, hl]
      dsimp only
      rw [setAtPath_self rest e2 cur h]
      exact setE_self t k (.branch e2) hl

theorem setAtPath_setAtPath : ∀ (Q : List Str) (t cur a b : List (Str × Node)),
    getAtPath t Q = some cur → setAtPath (setAtPath t Q a) Q b = setAtPath t Q b
  | [], _, _, _, _, _ => rfl
  | k :: rest, t, cur, a, b, h => by
    rw [getAtPath_cons] at h
    match hl : lookupE t k with
    | none => rw [hl] at h; cases h
    | some (.leaf v) => rw [hl] at h; cases h
    | some (.branch e2) =>
      rw [hl] at h
      dsimp only at h
      have h1 : setAtPath t (k :: rest) a
          = setE t k (.branch (setAtPath e2 rest a)) := by
        rw [setAtPath_cons, hl]
      have h2 : setAtPath t (k :: rest) b
          = setE t k (.branch (setAtPath e2 rest b)) := by
        rw [setAtPath_cons, hl]
      rw [h1, h2, setAtPath_cons, lookupE_setE]
      dsimp only
      rw [setAtPath_setAtPath rest e2 cur a b h, setE_setE]

theorem modifyAtPath_setAtPath : ∀ (Q : List Str) (t cur c' : List (Str × Node))
    (f : List (Str × Node) → Option (List (Str × Node))),
    getAtPath t Q = some cur → f cur = some c' →
    modifyAtPath t Q f = some (setAtPath t Q c')
  | [], t, cur, c', f, hg, hf => by
    rw [getAtPath] at hg
    injection hg with hg
    rw [modifyAtPath, hg, hf, setAtPath]
  | k :: rest, t, cur, c', f, hg, hf => by
    rw [getAtPath_cons] at hg
    match hl : lookupE t k with
    | none => rw [hl] at hg; cases hg
    | some (.leaf v) => rw [hl] at hg; cases hg
    | some (.branch e2) =>
      rw [hl] at hg
      dsimp only at hg
      rw [modifyAtPath_cons, hl]
      dsimp only
      rw [modifyAtPath_setAtPath rest e2 cur c' f hg hf]
      rw [setAtPath_cons, hl]

theorem getAtPath_snoc : ∀ (Q : List Str) (t cur : List (Str × Node)) (k : Str),
    getAtPath t Q = some cur →
    getAtPath t (Q ++ [k]) =
      match lookupE cur k with
      | some (.branch e2) => some e2
      | _ => none
  | [], t, cur, k, h => by
    rw [getAtPath] at h
    injection h with h
    subst h
    rw [List.nil_append, getAtPath_cons]
    match hl : lookupE t k with
    | none => rfl
    | some (.leaf _) => rfl
    | some (.branch e2) => rfl
  | j :: rest, t, cur, k, h => by
    rw [getAtPath_cons] at h
    match hl : lookupE t j with
    | none => rw [hl] at h; cases h
    | some (.leaf v) => rw [hl] at h; cases h
    | some (.branch e2) =>
      rw [hl] at h
      dsimp only at h
      rw [List.cons_append, getAtPath_cons, hl]
      dsimp only
      exact getAtPath_snoc rest e2 cur k h

theorem setAtPath_snoc : ∀ (Q : List Str) (t cur : List (Str × Node)) (k : Str)
    (e2 new : List (Str × Node)),
    getAtPath t Q = some cur → lookupE cur k = some (.branch e2) →
    setAtPath t (Q ++ [k]) new = setAtPath t Q (setE cur k (.branch new))
  | [], t, cur, k, e2, new, hg, hl => by
    rw [getAtPath] at hg
    injection hg with hg
    subst hg
    rw [List.nil_append, setAtPath_cons, hl]
    dsimp only
    rw [setAtPath, setAtPath]
  | j :: rest, t, cur, k, e2, new, hg, hl => by
    rw [getAtPath_cons] at hg
    match hj : lookupE t j with
    | none => rw [hj] at hg; cases hg
    | some (.leaf v) => rw [hj] at hg; cases hg
    | some (.branch ej) =>
      rw [hj] at hg
      dsimp only at hg
      rw [List.cons_append, setAtPath_cons, hj]
      dsimp only
      rw [setAtPath_snoc rest ej cur k e2 new hg hl]
      rw [setAtPath_cons, hj]

theorem addToDict_fresh : ∀ (Q : List Str) (t cur : List (Str × Node)) (k : Str),
    getAtPath t Q = some cur → lookupE cur k = none →
    addToDictAux (Q ++ [k]) t = some (setAtPath t Q (cur ++ [(k, .branch [])]), false)
  | [], t, cur, k, hg, hl => by
    rw [getAtPath] at hg
    injection hg with hg
    subst hg
    rw [List.nil_append, addToDictAux_cons, hl]
    rw [show addToDictAux [] [] = some ([], false) from rfl]
    rw [setAtPath]
  | j :: rest, t, cur, k, hg, hl => by
    rw [getAtPath_cons] at hg
    match hj : lookupE t j with
    | none => rw [hj] at hg; cases hg
    | some (.leaf v) => rw [hj] at hg; cases hg
    | some (.branch ej) =>
      rw [hj] at hg
      dsimp only at hg
      rw [List.cons_append, addToDictAux_cons, hj]
      dsimp only
      rw [addToDict_fresh rest ej cur k hg hl]
      rw [setAtPath_cons, hj]

/-! #### Structure of the value lines emitted by `output_elem` -/

theorem findIdx?_some_spec {α : Type} (p : α → Bool) :
    ∀ (l : List α) (i j : Nat), List.findIdx? p l i = some j →
      i ≤ j ∧ ∃ x, l[j - i]? = some x ∧ p x = true := by
  intro l
  induction l with
  | nil => intro i j h; rw [List.findIdx?_nil] at h; cases h
  | cons x xs ih =>
    intro i j h
    rw [List.findIdx?_cons] at h
    by_cases hp : p x = true
    · rw [if_pos hp] at h
      injection h with h
      subst h
      exact ⟨le_refl i, x, by simp, hp⟩
    · rw [if_neg hp] at h
      obtain ⟨hij, y, hy, hpy⟩ := ih (i + 1) j h
      refine ⟨by omega, y, ?_, hpy⟩
      have : j - i = (j - (i + 1)) + 1 := by omega
      rw [this, List.getElem?_cons_succ]
      exact hy

theorem findFrom_some (val : Str) (s i : Nat) (h : findFrom val s = some i) :
    s ≤ i ∧ i < val.length ∧ val[i]? = some ',' := by
  rw [findFrom] at h
  match hf : (val.drop s).findIdx? (· = ',') with
  | none => rw [hf] at h; cases h
  | some j =>
    rw [hf] at h
    injection h with h
    obtain ⟨-, x, hx, hpx⟩ := findIdx?_some_spec (· = ',') (val.drop s) 0 j hf
    simp only [Nat.sub_zero] at hx
    rw [List.getElem?_drop] at hx
    simp only [decide_eq_true_eq] at hpx
    subst hpx
    have hj : s + j < val.length := by
      by_contra hcc
      rw [List.getElem?_eq_none (by omega)] at hx
      cases hx
    have h2 : i = j + s := h.symm
    subst h2
    exact ⟨by omega, by omega, by rw [Nat.add_comm j s]; exact hx⟩

theorem getLast?_drop_of_lt (l : Str) (n : Nat) (h : n < l.length) :
    (l.drop n).getLast? = l.getLast? := by
  have hd : l.drop n ≠ [] := by
    rw [ne_eq, List.drop_eq_nil_iff]
    omega
  match hx : (l.drop n).getLast? with
  | none => rw [List.getLast?_eq_none_iff] at hx; exact absurd hx hd
  | some x =>
    conv_rhs => rw [← List.take_append_drop n l]
    rw [List.getLast?_append, hx, Option.or_some]

theorem getLast?_take_of_mem (l : Str) (i : Nat) (c : Char) (h : l[i]? = some c) :
    (l.take (i + 1)).getLast? = some c := by
  rw [List.getLast?_take, if_neg (Nat.succ_ne_zero i)]
  simp only [Nat.add_sub_cancel]
  rw [h, Option.or_some]

theorem output_elem_lines : ∀ (fuel wrap : Nat) (val e : Str),
    output_elem fuel wrap val = some e → val ≠ [] →
    val.getLast? ≠ some ',' → val.getLast? ≠ some '\\' →
    ∃ segs : List Str, segs ≠ [] ∧ segs.flatten = val ∧
      (∀ sg ∈ segs, sg.getLast? ≠ some '\\') ∧
      segs.getLast? ≠ some [] ∧
      e = segString segs
  | 0, _, _, _, h, _, _, _ => by cases h
  | fuel + 1, wrap, val, e, h, hne, hc, hbs => by
    rw [output_elem, if_neg hne] at h
    by_cases hlen : val.length ≤ wrap
    · rw [if_pos hlen] at h
      injection h with h
      refine ⟨[val], by simp, by simp, ?_, ?_, ?_⟩
      · intro sg hsg
        simp only [List.mem_singleton] at hsg
        subst hsg
        exact hbs
      · simp only [List.getLast?_singleton, ne_eq, Option.some.injEq]
        exact fun hh => hne hh
      · rw [← h, segString]
    · rw [if_neg hlen] at h
      match hf : findFrom val (wrap - 2) with
      | none =>
        rw [hf] at h
        dsimp only at h
        match ho : output_elem fuel 76 val with
        | none => rw [ho] at h; cases h
        | some s =>
          rw [ho] at h
          injection h with h
          obtain ⟨segs, hsne, hfl, hsbs, hslast, hseq⟩ :=
            output_elem_lines fuel 76 val s ho hne hc hbs
          refine ⟨[] :: segs, by simp, by simp [hfl], ?_, ?_, ?_⟩
          · intro sg hsg
            rcases List.mem_cons.mp hsg with h1 | h2
            · subst h1; simp
            · exact hsbs sg h2
          · match segs, hsne with
            | s0 :: srest, _ => rw [List.getLast?_cons_cons]; exact hslast
          · match segs, hsne with
            | s0 :: srest, _ =>
              show e = segString ([] :: s0 :: srest)
              rw [show segString ([] :: s0 :: srest)
                  = [] ++ '\\' :: '\n' :: ' ' :: ' ' :: segString (s0 :: srest) from rfl]
              rw [List.nil_append, ← hseq]
              exact h.symm
      | some i =>
        rw [hf] at h
        dsimp only at h
        obtain ⟨-, hilt, hcomma⟩ := findFrom_some val (wrap - 2) i hf
        have hsuc : i + 1 < val.length := by
          rcases Nat.lt_or_ge (i + 1) val.length with h1 | h1
          · exact h1
          · exfalso
            have : i + 1 = val.length := by omega
            apply hc
            rw [List.getLast?_eq_getElem?, ← hcomma]
            congr 1
            omega
        match ho : output_elem fuel 76 (val.drop (i + 1)) with
        | none => rw [ho] at h; cases h
        | some s =>
          rw [ho] at h
          injection h with h
          have hdne : val.drop (i + 1) ≠ [] := by
            rw [ne_eq, List.drop_eq_nil_iff]
            omega
          have hdlast : (val.drop (i + 1)).getLast? = val.getLast? :=
            getLast?_drop_of_lt val (i + 1) hsuc
          obtain ⟨segs, hsne, hfl, hsbs, hslast, hseq⟩ :=
            output_elem_lines fuel 76 (val.drop (i + 1)) s ho hdne
              (by rw [hdlast]; exact hc) (by rw [hdlast]; exact hbs)
          refine ⟨val.take (i + 1) :: segs, by simp, ?_, ?_, ?_, ?_⟩
          · simp only [List.flatten_cons, hfl]
            exact List.take_append_drop (i + 1) val
          · intro sg hsg
            rcases List.mem_cons.mp hsg with h1 | h2
            · subst h1
              rw [getLast?_take_of_mem val i ',' hcomma]
              simp
            · exact hsbs sg h2
          · match segs, hsne with
            | s0 :: srest, _ => rw [List.getLast?_cons_cons]; exact hslast
          · match segs, hsne with
            | s0 :: srest, _ =>
              show e = segString (val.take (i + 1) :: s0 :: srest)
              rw [show segString (val.take (i + 1) :: s0 :: srest)
                  = val.take (i + 1) ++ '\\' :: '\n' :: ' ' :: ' ' :: segString (s0 :: srest) from rfl]
              rw [← hseq]
              exact h.symm

/-- `output_elem`'s string output as the newline-join of the leaf line and
its continuation lines. -/
theorem segString_lines (k : Str) : ∀ (segs : List Str), segs ≠ [] →
    '"' :: (k ++ '"' :: '=' :: segString segs) = dumpLines (leafLinesOf k segs)
  | [], h => absurd rfl h
  | [sg], _ => by
    rw [segString, leafLinesOf, dumpLines_cons, dumpLines]
    simp
  | sg :: sg2 :: rest, _ => by
    have hcont : ∀ (ss : List Str), ss ≠ [] →
        ' ' :: ' ' :: segString ss = dumpLines (contLinesOf ss) := by
      intro ss
      induction ss with
      | nil => intro h; exact absurd rfl h
      | cons s0 srest ih =>
        intro _
        cases srest with
        | nil =>
          rw [show contLinesOf [s0] = [' ' :: ' ' :: s0] from rfl,
              dumpLines_cons, dumpLines,
              show segString [s0] = s0 ++ ['\n'] from rfl]
          simp
        | cons s1 srest2 =>
          rw [show segString (s0 :: s1 :: srest2)
              = s0 ++ '\\' :: '\n' :: ' ' :: ' ' :: segString (s1 :: srest2) from rfl,
              show contLinesOf (s0 :: s1 :: srest2)
              = (' ' :: ' ' :: (s0 ++ ['\\'])) :: contLinesOf (s1 :: srest2) from rfl,
              dumpLines_cons, ← ih (by simp)]
          simp
    rw [show segString (sg :: sg2 :: rest)
        = sg ++ '\\' :: '\n' :: ' ' :: ' ' :: segString (sg2 :: rest) from rfl,
        show leafLinesOf k (sg :: sg2 :: rest)
        = ('\"' :: (k ++ '\"' :: '=' :: (sg ++ ['\\']))) :: contLinesOf (sg2 :: rest) from rfl,
        dumpLines_cons, ← hcont (sg2 :: rest) (by simp)]
    simp

/-! #### Well-formedness unpacking -/

theorem wfKey_parts (k : Str) (h : wfKey k = true) :
    k ≠ [] ∧ '\n' ∉ k ∧ '\r' ∉ k ∧ '\\' ∉ k := by
  rw [wfKey, noNl] at h
  simp only [Bool.and_eq_true, Bool.not_eq_true', decide_eq_true_eq] at h
  refine ⟨?_, h.1.2.1, h.1.2.2, h.2⟩
  cases k with
  | nil => simp at h
  | cons c r => simp

theorem wfLeafKV_parts (k v : Str) (h : wfLeafKV k v = true) :
    k ≠ [] ∧ '\n' ∉ k ∧ '\r' ∉ k ∧ '"' ∉ k ∧ '=' ∉ k ∧
    v ≠ [] ∧ '\n' ∉ v ∧ '\r' ∉ v ∧ '=' ∉ v ∧
    v.getLast? ≠ some '\\' ∧ v.getLast? ≠ some ',' := by
  rw [wfLeafKV, noNl, noNl] at h
  simp only [Bool.and_eq_true, Bool.not_eq_true', decide_eq_true_eq] at h
  obtain ⟨⟨⟨⟨⟨⟨⟨⟨hk1, hk2, hk3⟩, hk4⟩, hk5⟩, hv1⟩, hv2, hv3⟩, hv4⟩, hv5⟩, hv6⟩ := h
  refine ⟨?_, hk2, hk3, hk4, hk5, ?_, hv2, hv3, hv4, hv5, hv6⟩
  · cases k with
    | nil => simp at hk1
    | cons c r => simp
  · cases v with
    | nil => simp at hv1
    | cons c r => simp

theorem wfHeader_parts (s : Str) (h : wfHeader s = true) :
    s ≠ [] ∧ '\n' ∉ s ∧ '\r' ∉ s ∧ s.head? ≠ some '[' := by
  rw [wfHeader, noNl] at h
  simp only [Bool.and_eq_true, Bool.not_eq_true', decide_eq_true_eq] at h
  refine ⟨?_, h.1.2.1, h.1.2.2, h.2⟩
  cases s with
  | nil => simp at h
  | cons c r => simp

/-! #### Single-line parser steps on serializer-shaped lines -/

theorem parseLine_blank (st : PSt) (h : pyTruthyS st.header = true) :
    ∃ st2, parseLine st [] = some st2 ∧ st2.header = st.header ∧
      st2.regdict = st.regdict ∧ st2.key = none := by
  rw [parseLine]
  by_cases hk : st.key = none
  · rw [if_pos ⟨by simp, hk⟩]
    exact ⟨_, rfl, by simp [h], rfl, hk⟩
  · rw [if_neg (fun hc => hk hc.2), if_pos rfl]
    exact ⟨_, rfl, rfl, rfl, rfl⟩

theorem flatMap_bs_intercalate (k : Str) : ∀ (Q : List Str),
    (Q.flatMap (fun s => '\\' :: s)) ++ '\\' :: k =
      '\\' :: List.intercalate ['\\'] (Q ++ [k])
  | [] => by
    rw [List.flatMap_nil, List.nil_append, List.nil_append,
        intercalate_singleton_g]
  | q :: qs => by
    rw [List.flatMap_cons]
    rw [show (q :: qs) ++ [k] = q :: (qs ++ [k]) from rfl]
    rw [intercalate_cons_ne_nil_g '\\' q (qs ++ [k]) (by simp)]
    rw [List.append_assoc, flatMap_bs_intercalate k qs]
    simp

theorem dropWhile_bs_intercalate (Q : List Str) (k : Str)
    (hwQ : wfPath Q = true) (hwk : wfKey k = true) :
    (List.intercalate ['\\'] (Q ++ [k])).dropWhile (· = '\\') =
      List.intercalate ['\\'] (Q ++ [k]) := by
  have hfirst : ∃ c rest, List.intercalate ['\\'] (Q ++ [k]) = c :: rest ∧ c ≠ '\\' := by
    cases Q with
    | nil =>
      rw [List.nil_append, intercalate_singleton_g]
      obtain ⟨hkne, -, -, hkbs⟩ := wfKey_parts k hwk
      match k, hkne with
      | c :: krest, _ =>
        simp only [List.mem_cons, not_or] at hkbs
        exact ⟨c, krest, rfl, fun hc => hkbs.1 hc.symm⟩
    | cons q qs =>
      rw [show (q :: qs) ++ [k] = q :: (qs ++ [k]) from rfl]
      rw [intercalate_cons_ne_nil_g '\\' q (qs ++ [k]) (by simp)]
      have hwq : wfKey q = true := by
        rw [wfPath, List.all_eq_true] at hwQ
        exact hwQ q (by simp)
      obtain ⟨hqne, -, -, hqbs⟩ := wfKey_parts q hwq
      match q, hqne with
      | c :: qrest, _ =>
        simp only [List.mem_cons, not_or] at hqbs
        exact ⟨c, _, by rw [List.cons_append], fun hc => hqbs.1 hc.symm⟩
  obtain ⟨c, rest, heq, hc⟩ := hfirst
  rw [heq, List.dropWhile_cons, if_neg (by simp [hc])]

theorem intercalate_path_ne_nil (Q : List Str) (k : Str) (hwk : wfKey k = true) :
    List.intercalate ['\\'] (Q ++ [k]) ≠ [] := by
  obtain ⟨hkne, -, -, -⟩ := wfKey_parts k hwk
  cases Q with
  | nil =>
    rw [List.nil_append, intercalate_singleton_g]
    exact hkne
  | cons q qs =>
    rw [show (q :: qs) ++ [k] = q :: (qs ++ [k]) from rfl]
    rw [intercalate_cons_ne_nil_g '\\' q (qs ++ [k]) (by simp)]
    intro hc
    have := congrArg List.length hc
    simp at this

theorem path_pieces_no_bs (Q : List Str) (k : Str)
    (hwQ : wfPath Q = true) (hwk : wfKey k = true) :
    ∀ p ∈ Q ++ [k], '\\' ∉ p := by
  intro p hp
  rcases List.mem_append.mp hp with h1 | h2
  · rw [wfPath, List.all_eq_true] at hwQ
    exact (wfKey_parts p (hwQ p h1)).2.2.2
  · simp only [List.mem_singleton] at h2
    subst h2
    exact (wfKey_parts p hwk).2.2.2

theorem parseLine_bracket (st : PSt) (Q : List Str) (k : Str)
    (t cur : List (Str × Node))
    (hwQ : wfPath Q = true) (hwk : wfKey k = true)
    (ht : st.regdict = t) (hg : getAtPath t Q = some cur)
    (hl : lookupE cur k = none) :
    parseLine st ('[' :: (preOf Q ++ '\\' :: k ++ [']'])) =
      some { st with regdict := setAtPath t Q (cur ++ [(k, .branch [])]),
                     key := some (Q ++ [k], false) } := by
  obtain ⟨hkne, -, -, -⟩ := wfKey_parts k hwk
  have hcore : preOf Q ++ '\\' :: k = '\\' :: '\\' :: List.intercalate ['\\'] (Q ++ [k]) := by
    rw [preOf, List.cons_append, flatMap_bs_intercalate k Q]
  rw [parseLine]
  rw [if_neg (fun hc => hc.1 rfl)]
  rw [if_neg (by simp)]
  rw [if_pos (show ('[' :: (preOf Q ++ '\\' :: k ++ [']'])).head? = some '[' from rfl)]
  have hlast : ('[' :: (preOf Q ++ '\\' :: k ++ [']'])).getLast? = some ']' := by
    rw [show ('[' :: (preOf Q ++ '\\' :: k ++ [']'])) =
        ('[' :: (preOf Q ++ '\\' :: k)) ++ [']'] from by simp]
    exact List.getLast?_concat _
  rw [if_neg (by rw [hlast]; simp)]
  have hdrop : (('[' :: (preOf Q ++ '\\' :: k ++ [']'])).drop 1).dropLast =
      preOf Q ++ '\\' :: k := by
    rw [List.drop_one, show ('[' :: (preOf Q ++ '\\' :: k ++ [']'])).tail =
        preOf Q ++ '\\' :: k ++ [']'] from rfl]
    rw [show preOf Q ++ '\\' :: k ++ [']'] = (preOf Q ++ '\\' :: k) ++ [']'] from by simp]
    exact List.dropLast_concat
  rw [hdrop]
  rw [if_neg (by
    rw [hcore]
    intro hc
    have := congrArg List.length hc
    simp at this)]
  have hstrip : (preOf Q ++ '\\' :: k).dropWhile (· = '\\') =
      List.intercalate ['\\'] (Q ++ [k]) := by
    rw [hcore]
    rw [List.dropWhile_cons, if_pos (by simp), List.dropWhile_cons, if_pos (by simp)]
    exact dropWhile_bs_intercalate Q k hwQ hwk
  rw [hstrip]
  rw [if_neg (fun hc => intercalate_path_ne_nil Q k hwk hc)]
  rw [splitOnChar_intercalate_g '\\' (Q ++ [k]) (by simp) (path_pieces_no_bs Q k hwQ hwk)]
  rw [show add_to_dict st.regdict (Q ++ [k]) = addToDictAux (Q ++ [k]) st.regdict from rfl]
  rw [ht, addToDict_fresh Q t cur k hg hl]

theorem filter_ne_quote (k : Str) (h : '"' ∉ k) :
    List.filter (fun c => decide (c ≠ '"')) ('"' :: (k ++ ['"'])) = k := by
  rw [List.filter_cons, if_neg (by simp), List.filter_append]
  rw [List.filter_cons, List.filter_nil, if_neg (by simp)]
  rw [List.filter_eq_self.mpr (by
    intro a ha
    simp only [ne_eq, decide_eq_true_eq]
    exact fun hc => h (hc ▸ ha))]
  simp

theorem parseLine_leafline (st : PSt) (Q : List Str) (t cur : List (Str × Node))
    (k v0 val : Str)
    (hk : st.key = some (Q, false)) (ht : st.regdict = t)
    (hg : getAtPath t Q = some cur)
    (hkq : '"' ∉ k) (hke : '=' ∉ k) (hv0 : '=' ∉ v0) (hv0ne : v0 ≠ [])
    (hval : (if v0.getLast? = some '\\' then v0.dropLast else v0) = val) :
    parseLine st ('"' :: (k ++ '"' :: '=' :: v0)) =
      some { st with regdict := setAtPath t Q (setE cur k (.leaf val)),
                     elem := some k } := by
  rw [parseLine]
  rw [if_neg (fun hc => by rw [hk] at hc; cases hc.2)]
  rw [if_neg (by simp)]
  rw [if_neg (show ¬(('"' :: (k ++ '"' :: '=' :: v0)).head? = some '[') from by
    rw [show ('"' :: (k ++ '"' :: '=' :: v0)).head? = some '"' from rfl]
    simp)]
  rw [if_pos (show ('"' :: (k ++ '"' :: '=' :: v0)).head? = some '"' from rfl)]
  rw [hk]
  have hsplit : splitOnChar '=' ('"' :: (k ++ '"' :: '=' :: v0)) =
      [('"' :: (k ++ ['"'])), v0] := by
    rw [show ('"' :: (k ++ '"' :: '=' :: v0)) =
        ('"' :: (k ++ ['"'])) ++ '=' :: v0 from by simp]
    rw [splitOnChar_append_g '=' _ _ (show ('=' : Char) ∉ '"' :: (k ++ ['"']) from by
      intro hc
      rcases List.mem_cons.mp hc with h1 | h2
      · exact absurd h1 (by decide)
      · rcases List.mem_append.mp h2 with h3 | h4
        · exact hke h3
        · simp at h4)]
    rw [splitOnChar_no_sep_g '=' v0 hv0]
  rw [hsplit]
  dsimp only
  rw [if_neg hv0ne]
  rw [hval]
  rw [filter_ne_quote k hkq]
  rw [if_neg (by simp)]
  rw [ht, modifyAtPath_setAtPath Q t cur (setE cur k (.leaf val)) _ hg rfl]

theorem parseLine_contline (st : PSt) (Q : List Str) (t cur : List (Str × Node))
    (e acc ln2 ln3 : Str)
    (hk : st.key = some (Q, false)) (he : st.elem = some e) (hene : e ≠ [])
    (ht : st.regdict = t) (hg : getAtPath t Q = some cur)
    (hl : lookupE cur e = some (.leaf acc))
    (hln2 : ln2 ≠ [])
    (hln3 : (if ln2.getLast? = some '\\' then ln2.dropLast else ln2) = ln3) :
    parseLine st (' ' :: ' ' :: ln2) =
      some { st with regdict := setAtPath t Q (setE cur e (.leaf (acc ++ ln3))) } := by
  rw [parseLine]
  rw [if_neg (fun hc => by rw [hk] at hc; cases hc.2)]
  rw [if_neg (by simp)]
  rw [if_neg (show ¬((' ' :: ' ' :: ln2).head? = some '[') from by
    rw [show (' ' :: ' ' :: ln2).head? = some ' ' from rfl]
    simp)]
  rw [if_neg (show ¬((' ' :: ' ' :: ln2).head? = some '"') from by
    rw [show (' ' :: ' ' :: ln2).head? = some ' ' from rfl]
    simp)]
  rw [if_pos (show (' ' :: ' ' :: ln2).take 2 = [' ', ' '] from rfl)]
  rw [he]
  dsimp only
  rw [if_neg hene]
  rw [show (' ' :: ' ' :: ln2).drop 2 = ln2 from rfl]
  rw [if_neg hln2]
  rw [hln3, hk]
  dsimp only
  rw [if_neg (by simp)]
  have hf : (fun es => match lookupE es e with
      | some (.leaf v) => some (setE es e (.leaf (v ++ ln3)))
      | _ => none) cur = some (setE cur e (.leaf (acc ++ ln3))) := by
    dsimp only
    rw [hl]
  rw [ht, modifyAtPath_setAtPath Q t cur (setE cur e (.leaf (acc ++ ln3))) _ hg hf]

/-! #### Parsing whole line groups -/

theorem parseLines_nil (st : PSt) : parseLines st [] = some st := rfl

theorem parseLines_cons (st : PSt) (l : Str) (ls : List Str) :
    parseLines st (l :: ls) =
      match parseLine st l with
      | none => none
      | some st2 => parseLines st2 ls := by
  cases h : parseLine st l <;>
    simp [parseLines, List.foldlM_cons, h]

theorem parseLines_append (st : PSt) (a b : List Str) :
    parseLines st (a ++ b) =
      match parseLines st a with
      | none => none
      | some st2 => parseLines st2 b := by
  induction a generalizing st with
  | nil => rw [List.nil_append, parseLines_nil]
  | cons l ls ih =>
    rw [List.cons_append, parseLines_cons, parseLines_cons]
    cases hp : parseLine st l with
    | none => rfl
    | some st2 =>
      dsimp only
      exact ih st2

theorem mem_contLinesOf_chars : ∀ (segs : List Str) (l : Str) (c : Char),
    l ∈ contLinesOf segs → c ∈ l →
    c = ' ' ∨ c = '\\' ∨ ∃ sg ∈ segs, c ∈ sg
  | [], l, c, hl, _ => by cases hl
  | [sg], l, c, hl, hc => by
    rw [contLinesOf, List.mem_singleton] at hl
    subst hl
    rcases hc with _ | ⟨_, hc2⟩
    · exact Or.inl rfl
    · rcases hc2 with _ | ⟨_, hc3⟩
      · exact Or.inl rfl
      · exact Or.inr (Or.inr ⟨sg, by simp, hc3⟩)
  | sg :: sg2 :: rest, l, c, hl, hc => by
    rw [show contLinesOf (sg :: sg2 :: rest)
        = (' ' :: ' ' :: (sg ++ ['\\'])) :: contLinesOf (sg2 :: rest) from rfl] at hl
    rcases List.mem_cons.mp hl with h1 | h2
    · subst h1
      rcases hc with _ | ⟨_, hc2⟩
      · exact Or.inl rfl
      · rcases hc2 with _ | ⟨_, hc3⟩
        · exact Or.inl rfl
        · rcases List.mem_append.mp hc3 with h3 | h4
          · exact Or.inr (Or.inr ⟨sg, by simp, h3⟩)
          · simp only [List.mem_singleton] at h4
            exact Or.inr (Or.inl h4)
    · rcases mem_contLinesOf_chars (sg2 :: rest) l c h2 hc with h | h | ⟨sg', hsg', hcs⟩
      · exact Or.inl h
      · exact Or.inr (Or.inl h)
      · exact Or.inr (Or.inr ⟨sg', by simp [List.mem_cons] at hsg' ⊢; tauto, hcs⟩)

theorem mem_leafLinesOf_chars : ∀ (segs : List Str) (k l : Str) (c : Char),
    l ∈ leafLinesOf k segs → c ∈ l →
    c = '"' ∨ c = '=' ∨ c = '\\' ∨ c = ' ' ∨ c ∈ k ∨ ∃ sg ∈ segs, c ∈ sg := by
  intro segs k l c hl hc
  match segs, hl with
  | [sg], hl =>
    rw [leafLinesOf, List.mem_singleton] at hl
    subst hl
    rcases hc with _ | ⟨_, hc2⟩
    · exact Or.inl rfl
    · rcases List.mem_append.mp hc2 with h1 | h2
      · exact Or.inr (Or.inr (Or.inr (Or.inr (Or.inl h1))))
      · rcases h2 with _ | ⟨_, h3⟩
        · exact Or.inl rfl
        · rcases h3 with _ | ⟨_, h4⟩
          · exact Or.inr (Or.inl rfl)
          · exact Or.inr (Or.inr (Or.inr (Or.inr (Or.inr ⟨sg, by simp, h4⟩))))
  | sg :: sg2 :: rest, hl =>
    rw [show leafLinesOf k (sg :: sg2 :: rest)
        = ('"' :: (k ++ '"' :: '=' :: (sg ++ ['\\']))) :: contLinesOf (sg2 :: rest)
        from rfl] at hl
    rcases List.mem_cons.mp hl with h1 | h2
    · subst h1
      rcases hc with _ | ⟨_, hc2⟩
      · exact Or.inl rfl
      · rcases List.mem_append.mp hc2 with h1 | h2
        · exact Or.inr (Or.inr (Or.inr (Or.inr (Or.inl h1))))
        · rcases h2 with _ | ⟨_, h3⟩
          · exact Or.inl rfl
          · rcases h3 with _ | ⟨_, h4⟩
            · exact Or.inr (Or.inl rfl)
            · rcases List.mem_append.mp h4 with h5 | h6
              · exact Or.inr (Or.inr (Or.inr (Or.inr (Or.inr ⟨sg, by simp, h5⟩))))
              · simp only [List.mem_singleton] at h6
                exact Or.inr (Or.inr (Or.inl h6))
    · rcases mem_contLinesOf_chars (sg2 :: rest) l c h2 hc with h | h | ⟨sg', hsg', hcs⟩
      · exact Or.inr (Or.inr (Or.inr (Or.inl h)))
      · exact Or.inr (Or.inr (Or.inl h))
      · refine Or.inr (Or.inr (Or.inr (Or.inr (Or.inr ⟨sg', ?_, hcs⟩))))
        simp only [List.mem_cons] at hsg' ⊢
        tauto

/-! #### Parsing the lines of one serialized leaf -/

theorem contLines_parse : ∀ (segs : List Str) (st : PSt) (Q : List Str)
    (t c : List (Str × Node)) (k acc : Str),
    (∀ sg ∈ segs, sg.getLast? ≠ some '\\') → segs.getLast? ≠ some [] →
    k ≠ [] →
    st.key = some (Q, false) → st.elem = some k → st.regdict = t →
    getAtPath t Q = some c → lookupE c k = some (.leaf acc) →
    ∃ stL, parseLines st (contLinesOf segs) = some stL ∧
      stL = { st with regdict := setAtPath t Q (setE c k (.leaf (acc ++ segs.flatten))) }
  | [], st, Q, t, c, k, acc, _, _, _, hk, _, ht, hg, hl => by
    refine ⟨st, by rw [contLinesOf, parseLines_nil], ?_⟩
    have : setE c k (.leaf (acc ++ [])) = c := by
      rw [List.append_nil]
      exact setE_self c k (.leaf acc) hl
    rw [show List.flatten ([] : List Str) = [] from rfl, this,
        setAtPath_self Q t c hg, ← ht]
  | [sg], st, Q, t, c, k, acc, hbs, hlast, hk, hkey, helem, ht, hg, hl => by
    have hsgne : sg ≠ [] := by
      intro hc
      subst hc
      exact hlast rfl
    rw [contLinesOf, parseLines_cons]
    rw [parseLine_contline st Q t c k acc sg sg hkey helem hk ht hg hl hsgne
      (by rw [if_neg (hbs sg (by simp))])]
    dsimp only
    rw [parseLines_nil]
    refine ⟨_, rfl, ?_⟩
    rw [show List.flatten [sg] = sg ++ [] from rfl, List.append_nil]
  | sg :: sg2 :: rest, st, Q, t, c, k, acc, hbs, hlast, hk, hkey, helem, ht, hg, hl => by
    rw [show contLinesOf (sg :: sg2 :: rest)
        = (' ' :: ' ' :: (sg ++ ['\\'])) :: contLinesOf (sg2 :: rest) from rfl]
    rw [parseLines_cons]
    rw [parseLine_contline st Q t c k acc (sg ++ ['\\']) sg hkey helem hk ht hg hl
      (by simp)
      (by rw [if_pos (List.getLast?_concat sg)]; exact List.dropLast_concat)]
    dsimp only
    obtain ⟨stL, hpl, hst⟩ := contLines_parse (sg2 :: rest)
      { st with regdict := setAtPath t Q (setE c k (.leaf (acc ++ sg))) }
      Q (setAtPath t Q (setE c k (.leaf (acc ++ sg)))) (setE c k (.leaf (acc ++ sg))) k
      (acc ++ sg)
      (fun s hs => hbs s (by simp [List.mem_cons] at hs ⊢; tauto))
      (by rw [List.getLast?_cons_cons] at hlast; exact hlast)
      hk hkey helem rfl
      (getAtPath_setAtPath Q t c _ hg)
      (lookupE_setE c k _)
    rw [hpl]
    refine ⟨stL, rfl, ?_⟩
    rw [hst]
    simp only [PSt.mk.injEq]
    rw [setAtPath_setAtPath Q t c _ _ hg, setE_setE]
    rw [show List.flatten (sg :: sg2 :: rest) = sg ++ List.flatten (sg2 :: rest)
        from rfl]
    rw [List.append_assoc]
    simp

theorem leafLines_parse : ∀ (segs : List Str) (st : PSt) (Q : List Str)
    (t cur : List (Str × Node)) (k : Str),
    segs ≠ [] →
    (∀ sg ∈ segs, sg.getLast? ≠ some '\\') → segs.getLast? ≠ some [] →
    '=' ∉ segs.flatten →
    k ≠ [] → '"' ∉ k → '=' ∉ k →
    st.key = some (Q, false) → st.regdict = t →
    getAtPath t Q = some cur → lookupE cur k = none →
    ∃ stL, parseLines st (leafLinesOf k segs) = some stL ∧
      stL = { st with regdict := setAtPath t Q (cur ++ [(k, .leaf segs.flatten)]),
                      elem := some k }
  | [], _, _, _, _, _, hne, _, _, _, _, _, _, _, _, _, _ => absurd rfl hne
  | [sg], st, Q, t, cur, k, _, hbs, hlast, hfe, hk, hkq, hke, hkey, ht, hg, hl => by
    have hsgne : sg ≠ [] := by
      intro hc
      subst hc
      exact hlast rfl
    rw [leafLinesOf, parseLines_cons]
    rw [parseLine_leafline st Q t cur k sg sg hkey ht hg hkq hke
      (by rw [show List.flatten [sg] = sg ++ [] from rfl, List.append_nil] at hfe
          exact hfe)
      hsgne
      (by rw [if_neg (hbs sg (by simp))])]
    dsimp only
    rw [parseLines_nil]
    refine ⟨_, rfl, ?_⟩
    rw [setE_fresh cur k _ hl]
    rw [show List.flatten [sg] = sg ++ [] from rfl, List.append_nil]
  | sg :: sg2 :: rest, st, Q, t, cur, k, _, hbs, hlast, hfe, hk, hkq, hke, hkey, ht,
      hg, hl => by
    rw [show leafLinesOf k (sg :: sg2 :: rest)
        = ('"' :: (k ++ '"' :: '=' :: (sg ++ ['\\']))) :: contLinesOf (sg2 :: rest)
        from rfl]
    rw [parseLines_cons]
    rw [parseLine_leafline st Q t cur k (sg ++ ['\\']) sg hkey ht hg hkq hke
      (by
        intro hc
        rcases List.mem_append.mp hc with h1 | h2
        · exact hfe (by
            rw [show List.flatten (sg :: sg2 :: rest)
                = sg ++ List.flatten (sg2 :: rest) from rfl]
            exact List.mem_append.mpr (Or.inl h1))
        · simp at h2)
      (by simp)
      (by rw [if_pos (List.getLast?_concat sg)]; exact List.dropLast_concat)]
    dsimp only
    obtain ⟨stL, hpl, hst⟩ := contLines_parse (sg2 :: rest)
      { st with regdict := setAtPath t Q (setE cur k (.leaf sg)), elem := some k }
      Q (setAtPath t Q (setE cur k (.leaf sg))) (setE cur k (.leaf sg)) k sg
      (fun s hs => hbs s (by simp [List.mem_cons] at hs ⊢; tauto))
      (by rw [List.getLast?_cons_cons] at hlast; exact hlast)
      hk hkey rfl rfl
      (getAtPath_setAtPath Q t cur _ hg)
      (lookupE_setE cur k _)
    rw [hpl]
    refine ⟨stL, rfl, ?_⟩
    rw [hst]
    simp only [PSt.mk.injEq]
    rw [setAtPath_setAtPath Q t cur _ _ hg, setE_setE]
    rw [setE_fresh cur k _ hl]
    rw [show List.flatten (sg :: sg2 :: rest) = sg ++ List.flatten (sg2 :: rest)
        from rfl]
    simp

/-! #### The block round-trip induction -/

theorem preOf_snoc (Q : List Str) (k : Str) :
    preOf (Q ++ [k]) = preOf Q ++ '\\' :: k := by
  simp [preOf, List.flatMap_append]

theorem wfPath_snoc (Q : List Str) (k : Str) (hwQ : wfPath Q = true)
    (hwk : wfKey k = true) : wfPath (Q ++ [k]) = true := by
  rw [wfPath] at hwQ ⊢
  rw [List.all_append, hwQ]
  simp [hwk]

theorem mem_preOf (Q : List Str) (c : Char) (h : c ∈ preOf Q) :
    c = '\\' ∨ ∃ p ∈ Q, c ∈ p := by
  rw [preOf] at h
  rcases List.mem_cons.mp h with h1 | h2
  · exact Or.inl h1
  · rw [List.mem_flatMap] at h2
    obtain ⟨p, hp, hcp⟩ := h2
    rcases List.mem_cons.mp hcp with h3 | h4
    · exact Or.inl h3
    · exact Or.inr ⟨p, hp, h4⟩

theorem entries_parse : ∀ (es : List (Str × Node)) (dfuel efuel : Nat) (Q : List Str)
    (t cur : List (Str × Node)) (body : Str),
    output_regsub dfuel efuel (preOf Q) es = some body →
    WfEntries es → wfPath Q = true →
    getAtPath t Q = some cur →
    (∀ e ∈ es, lookupE cur e.1 = none) →
    ∃ bls : List Str,
      body = dumpLines bls ∧
      (∀ l ∈ bls, '\n' ∉ l ∧ '\r' ∉ l) ∧
      ∀ st : PSt, st.regdict = t → pyTruthyS st.header = true →
        (∀ k v rest, es = (k, Node.leaf v) :: rest → st.key = some (Q, false)) →
        ∃ st2, parseLines st bls = some st2 ∧
          st2.header = st.header ∧
          st2.regdict = setAtPath t Q (cur ++ es)
  | [], dfuel, efuel, Q, t, cur, body, h, _, _, hg, _ => by
    rw [output_regsub] at h
    injection h with h
    refine ⟨[], by rw [← h]; rfl, by simp, ?_⟩
    intro st hst _ _
    refine ⟨st, parseLines_nil st, rfl, ?_⟩
    rw [List.append_nil, setAtPath_self Q t cur hg]
    exact hst
  | (k, .leaf v) :: rest, dfuel, efuel, Q, t, cur, body, h, hwf, hwQ, hg, hfresh => by
    match dfuel with
    | 0 => rw [output_regsub] at h; cases h
    | d + 1 =>
    rw [output_regsub] at h
    match ho : output_elem efuel 66 v with
    | none => rw [ho] at h; cases h
    | some e =>
      rw [ho] at h
      dsimp only at h
      match hr : output_regsub d efuel (preOf Q) rest with
      | none => rw [hr] at h; cases h
      | some r =>
        rw [hr] at h
        dsimp only at h
        injection h with h
        cases hwf with
        | leaf hkv hfr hwr =>
        obtain ⟨hk_ne, hk_nl, hk_cr, hk_q, hk_eq, hv_ne, hv_nl, hv_cr, hv_eq,
          hv_bs, hv_cm⟩ := wfLeafKV_parts k v hkv
        obtain ⟨segs, hsne, hflat, hsbs, hslast, hseq⟩ :=
          output_elem_lines efuel 66 v e ho hv_ne hv_cm hv_bs
        have hlk : lookupE cur k = none := hfresh (k, .leaf v) (by simp)
        have hfresh2 : ∀ e2 ∈ rest, lookupE (cur ++ [(k, Node.leaf v)]) e2.1 = none := by
          intro e2 he2
          rw [lookupE_append, hfresh e2 (List.mem_cons_of_mem _ he2)]
          dsimp only
          rw [show lookupE [(k, Node.leaf v)] e2.1
              = if k = e2.1 then some (Node.leaf v) else none from rfl]
          rw [if_neg (fun hc => (hfr e2 he2) hc.symm)]
        obtain ⟨rls, hreq, hrnl, hrparse⟩ :=
          entries_parse rest d efuel Q (setAtPath t Q (cur ++ [(k, Node.leaf v)]))
            (cur ++ [(k, Node.leaf v)]) r hr hwr hwQ
            (getAtPath_setAtPath Q t cur _ hg) hfresh2
        refine ⟨leafLinesOf k segs ++ rls, ?_, ?_, ?_⟩
        · rw [← h, hseq, hreq, dumpLines_append, ← segString_lines k segs hsne]
          simp
        · intro l hl
          rcases List.mem_append.mp hl with h1 | h2
          · constructor
            · intro hc
              rcases mem_leafLinesOf_chars segs k l '\n' h1 hc with
                hx | hx | hx | hx | hx | ⟨sg, hsg, hcs⟩
              · cases hx
              · cases hx
              · cases hx
              · cases hx
              · exact hk_nl hx
              · exact hv_nl (by rw [← hflat]; exact List.mem_flatten.mpr ⟨sg, hsg, hcs⟩)
            · intro hc
              rcases mem_leafLinesOf_chars segs k l '\r' h1 hc with
                hx | hx | hx | hx | hx | ⟨sg, hsg, hcs⟩
              · cases hx
              · cases hx
              · cases hx
              · cases hx
              · exact hk_cr hx
              · exact hv_cr (by rw [← hflat]; exact List.mem_flatten.mpr ⟨sg, hsg, hcs⟩)
          · exact hrnl l h2
        · intro st hst hhd hkeyhyp
          have hkey : st.key = some (Q, false) := hkeyhyp k v rest rfl
          rw [parseLines_append]
          obtain ⟨stL, hpl, hstL⟩ := leafLines_parse segs st Q t cur k hsne hsbs hslast
            (by rw [hflat]; exact hv_eq) hk_ne hk_q hk_eq hkey hst hg hlk
          rw [hpl]
          dsimp only
          obtain ⟨st2, hp2, hh2, ht2⟩ := hrparse stL
            (by rw [hstL, hflat])
            (by rw [hstL]; exact hhd)
            (fun k2 v2 r2 _ => by rw [hstL]; exact hkey)
          refine ⟨st2, hp2, by rw [hh2, hstL], ?_⟩
          rw [ht2, setAtPath_setAtPath Q t cur _ _ hg]
          simp
  | (k, .branch es2) :: rest, dfuel, efuel, Q, t, cur, body, h, hwf, hwQ, hg, hfresh => by
    match dfuel with
    | 0 => rw [output_regsub] at h; cases h
    | d + 1 =>
    rw [output_regsub] at h
    match hs : output_regsub d efuel (preOf Q ++ '\\' :: k) es2 with
    | none => rw [hs] at h; cases h
    | some sub =>
      rw [hs] at h
      dsimp only at h
      match hr : output_regsub d efuel (preOf Q) rest with
      | none => rw [hr] at h; cases h
      | some r =>
        rw [hr] at h
        dsimp only at h
        injection h with h
        cases hwf with
        | branch hwk hrest hwf2 hwfr =>
        obtain ⟨hk_ne, hk_nl, hk_cr, hk_bs⟩ := wfKey_parts k hwk
        have hlk : lookupE cur k = none := hfresh (k, .branch es2) (by simp)
        have hgt2 : getAtPath (setAtPath t Q (cur ++ [(k, Node.branch [])])) Q
            = some (cur ++ [(k, Node.branch [])]) :=
          getAtPath_setAtPath Q t cur _ hg
        have hlk2 : lookupE (cur ++ [(k, Node.branch [])]) k = some (Node.branch []) := by
          rw [lookupE_append, hlk]
          dsimp only
          rw [show lookupE [(k, Node.branch [])] k
              = if k = k then some (Node.branch []) else none from rfl]
          rw [if_pos rfl]
        have hg2 : getAtPath (setAtPath t Q (cur ++ [(k, Node.branch [])])) (Q ++ [k])
            = some [] := by
          rw [getAtPath_snoc Q _ _ k hgt2, hlk2]
        obtain ⟨sls, hseq, hsnl, hsparse⟩ :=
          entries_parse es2 d efuel (Q ++ [k])
            (setAtPath t Q (cur ++ [(k, Node.branch [])]))
            [] sub (by rw [preOf_snoc]; exact hs) hwf2 (wfPath_snoc Q k hwQ hwk) hg2
            (fun _ _ => rfl)
        have hsetE : setE (cur ++ [(k, Node.branch [])]) k (Node.branch es2)
            = cur ++ [(k, Node.branch es2)] :=
          setE_append_of_none cur k _ _ hlk
        have ht3 : setAtPath (setAtPath t Q (cur ++ [(k, Node.branch [])])) (Q ++ [k]) es2
            = setAtPath t Q (cur ++ [(k, Node.branch es2)]) := by
          rw [setAtPath_snoc Q _ _ k [] es2 hgt2 hlk2, hsetE]
          exact setAtPath_setAtPath Q t cur _ _ hg
        have hfresh3 : ∀ e2 ∈ rest, lookupE (cur ++ [(k, Node.branch es2)]) e2.1 = none := by
          intro e2 he2
          rw [lookupE_append, hfresh e2 (List.mem_cons_of_mem _ he2)]
          dsimp only
          rw [show lookupE [(k, Node.branch es2)] e2.1
              = if k = e2.1 then some (Node.branch es2) else none from rfl]
          rw [if_neg (fun hc => (hrest e2 he2).2 hc.symm)]
        obtain ⟨rls, hreq, hrnl, hrparse⟩ :=
          entries_parse rest d efuel Q (setAtPath t Q (cur ++ [(k, Node.branch es2)]))
            (cur ++ [(k, Node.branch es2)]) r hr hwfr hwQ
            (getAtPath_setAtPath Q t cur _ hg) hfresh3
        refine ⟨[] :: ('[' :: (preOf Q ++ '\\' :: k ++ [']'])) :: (sls ++ rls), ?_, ?_, ?_⟩
        · rw [← h, hseq, hreq, dumpLines_cons, dumpLines_cons, dumpLines_append]
          simp
        · intro l hl
          rcases List.mem_cons.mp hl with h1 | h2
          · subst h1; simp
          · rcases List.mem_cons.mp h2 with h3 | h4
            · subst h3
              have hbr : ∀ c : Char, c ∈ '[' :: (preOf Q ++ '\\' :: k ++ [']']) →
                  c = '[' ∨ c = ']' ∨ c = '\\' ∨ c ∈ k ∨ ∃ p ∈ Q, c ∈ p := by
                intro c hc
                rcases List.mem_cons.mp hc with hx | hx
                · exact Or.inl hx
                · rcases List.mem_append.mp hx with hy | hy
                  · rcases List.mem_append.mp hy with hz | hz
                    · rcases mem_preOf Q c hz with hw | hw
                      · exact Or.inr (Or.inr (Or.inl hw))
                      · exact Or.inr (Or.inr (Or.inr (Or.inr hw)))
                    · rcases List.mem_cons.mp hz with hw | hw
                      · exact Or.inr (Or.inr (Or.inl hw))
                      · exact Or.inr (Or.inr (Or.inr (Or.inl hw)))
                  · simp only [List.mem_singleton] at hy
                    exact Or.inr (Or.inl hy)
              constructor
              · intro hc
                rcases hbr '\n' hc with hx | hx | hx | hx | ⟨p, hp, hcp⟩
                · cases hx
                · cases hx
                · cases hx
                · exact hk_nl hx
                · rw [wfPath, List.all_eq_true] at hwQ
                  exact (wfKey_parts p (hwQ p hp)).2.1 hcp
              · intro hc
                rcases hbr '\r' hc with hx | hx | hx | hx | ⟨p, hp, hcp⟩
                · cases hx
                · cases hx
                · cases hx
                · exact hk_cr hx
                · rw [wfPath, List.all_eq_true] at hwQ
                  exact (wfKey_parts p (hwQ p hp)).2.2.1 hcp
            · rcases List.mem_append.mp h4 with h5 | h6
              · exact hsnl l h5
              · exact hrnl l h6
        · intro st hst hhd _
          obtain ⟨st1, hp1, hh1, hrd1, hk1⟩ := parseLine_blank st hhd
          rw [parseLines_cons, hp1]
          dsimp only
          rw [parseLines_cons]
          rw [parseLine_bracket st1 Q k t cur hwQ hwk (by rw [hrd1, hst]) hg hlk]
          dsimp only
          rw [parseLines_append]
          obtain ⟨st3, hp3, hh3, ht3'⟩ := hsparse
            { st1 with regdict := setAtPath t Q (cur ++ [(k, Node.branch [])]),
                       key := some (Q ++ [k], false) }
            rfl (by dsimp only; rw [hh1]; exact hhd) (fun _ _ _ _ => rfl)
          rw [hp3]
          dsimp only
          rw [List.nil_append] at ht3'
          obtain ⟨st4, hp4, hh4, ht4⟩ := hrparse st3
            (by rw [ht3', ht3])
            (by rw [hh3]; dsimp only; rw [hh1]; exact hhd)
            (fun k2 v2 r2 hr2 => by
              exfalso
              have := (hrest (k2, Node.leaf v2) (by rw [hr2]; simp)).1
              simp [isLeafE] at this)
          refine ⟨st4, hp4, ?_, ?_⟩
          · rw [hh4, hh3]
            dsimp only
            exact hh1
          · rw [ht4, setAtPath_setAtPath Q t cur _ _ hg]
            simp
termination_by es _ _ => sizeOf es
decreasing_by
  all_goals simp_wf
  all_goals omega

/-! #### Claim C1: round-trip of the parser/serializer pair -/

/-- Claim C1, amended.  The round-trip that actually holds runs the other
way around: for every tree with well-formed entries and no top-level
leaves and every truthy well-formed header, a successful serialization
`output_reg` parses back (`reg_to_dict`) to exactly the same tree and
header — hence serializing the parse result reproduces those bytes.
Dumps that respect the grammar but use non-canonical wrap points are not
reproduced (see the counterexample). -/
theorem claim_C1_amended (regd : List (Str × Node)) (hs : Str) (fuel : Nat) (d : Str)
    (hroot : WfRoot regd) (hhd : wfHeader hs = true)
    (hout : output_reg regd (some hs) fuel = some d) :
    reg_to_dict d = some (regd, some hs) ∧
    output_reg regd (some hs) fuel = some d := by
  obtain ⟨hleaf, hwf⟩ := hroot
  obtain ⟨hs_ne, hs_nl, hs_cr, hs_hd⟩ := wfHeader_parts hs hhd
  refine ⟨?_, hout⟩
  rw [output_reg] at hout
  match hsub : output_regsub fuel fuel ['\\'] regd with
  | none => rw [hsub] at hout; cases hout
  | some body =>
    rw [hsub] at hout
    dsimp only at hout
    injection hout with hout
    have htruthy : pyTruthyS (some hs) = true := by
      rw [pyTruthyS]
      cases hs with
      | nil => exact absurd rfl hs_ne
      | cons c r => simp
    rw [if_pos htruthy] at hout
    obtain ⟨bls, hbeq, hbnl, hbparse⟩ :=
      entries_parse regd fuel fuel [] [] [] body
        (by rw [show preOf [] = ['\\'] from rfl]; exact hsub)
        hwf rfl rfl (fun _ _ => rfl)
    have hlines_nl : ∀ l ∈ (hs :: [] :: ['[', '\\', ']'] :: (bls ++ [[]])), '\n' ∉ l := by
      intro l hl
      rcases List.mem_cons.mp hl with h1 | h2
      · subst h1; exact hs_nl
      · rcases List.mem_cons.mp h2 with h3 | h4
        · subst h3; simp
        · rcases List.mem_cons.mp h4 with h5 | h6
          · subst h5; decide
          · rcases List.mem_append.mp h6 with h7 | h8
            · exact (hbnl l h7).1
            · simp only [List.mem_singleton] at h8; subst h8; simp
    have htxt : (some hs).getD [] ++ ['\n', '\n'] ++
        ('[' :: '\\' :: ']' :: '\n' :: (body ++ ['\n'])) =
        dumpLines (hs :: [] :: ['[', '\\', ']'] :: (bls ++ [[]])) := by
      rw [dumpLines_cons, dumpLines_cons, dumpLines_cons, dumpLines_append,
          ← hbeq, dumpLines_cons]
      simp [dumpLines]
    rw [htxt] at hout
    have hcr : ∀ l ∈ (hs :: [] :: ['[', '\\', ']'] :: (bls ++ [[]])), '\r' ∉ l := by
      intro l hl
      rcases List.mem_cons.mp hl with h1 | h2
      · subst h1; exact hs_cr
      · rcases List.mem_cons.mp h2 with h3 | h4
        · subst h3; simp
        · rcases List.mem_cons.mp h4 with h5 | h6
          · subst h5; decide
          · rcases List.mem_append.mp h6 with h7 | h8
            · exact (hbnl l h7).2
            · simp only [List.mem_singleton] at h8; subst h8; simp
    have hnotxtcr : '\r' ∉ dumpLines (hs :: [] :: ['[', '\\', ']'] :: (bls ++ [[]])) :=
      not_mem_dumpLines '\r' _ (by decide) hcr
    rw [reg_to_dict, ← hout, universal_nl_crlf _ hnotxtcr,
        toLines_dumpLines _ hlines_nl]
    have hstep1 : parseLine initSt hs = some (PSt.mk (some hs) [] none none) := by
      rw [parseLine,
          if_pos (show hs.head? ≠ some '[' ∧ initSt.key = none from ⟨hs_hd, rfl⟩)]
      rw [show pyTruthyS initSt.header = false from rfl]
      rfl
    have hstep2 : parseLine (PSt.mk (some hs) [] none none) [] =
        some (PSt.mk (some hs) [] none none) := by
      rw [parseLine]
      rw [if_pos (show ([] : Str).head? ≠ some '[' ∧
          (PSt.mk (some hs) [] none none).key = none from ⟨by simp, rfl⟩)]
      have : pyTruthyS (some hs) = true := htruthy
      rw [show (PSt.mk (some hs) [] none none).header = some hs from rfl]
      rw [this]
      rfl
    have hstep3 : parseLine (PSt.mk (some hs) [] none none) ['[', '\\', ']'] =
        some (PSt.mk (some hs) [] none none) := rfl
    show (match List.foldlM parseLine initSt
        (hs :: [] :: ['[', '\\', ']'] :: (bls ++ [[]])) with
      | none => none
      | some st => some (st.regdict, st.header)) = some (regd, some hs)
    rw [show List.foldlM parseLine initSt
        (hs :: [] :: ['[', '\\', ']'] :: (bls ++ [[]]))
        = parseLines initSt (hs :: [] :: ['[', '\\', ']'] :: (bls ++ [[]])) from rfl]
    rw [parseLines_cons, hstep1]
    dsimp only
    rw [parseLines_cons, hstep2]
    dsimp only
    rw [parseLines_cons, hstep3]
    dsimp only
    rw [parseLines_append]
    obtain ⟨st4, hp4, hh4, ht4⟩ := hbparse (PSt.mk (some hs) [] none none)
      rfl htruthy
      (fun k v rest hr => by
        exfalso
        have := hleaf (k, Node.leaf v) (by rw [hr]; simp)
        simp [isLeafE] at this)
    rw [hp4]
    dsimp only
    obtain ⟨st5, hp5, hh5, hrd5, -⟩ := parseLine_blank st4 (by rw [hh4]; exact htruthy)
    rw [parseLines_cons, hp5]
    dsimp only
    rw [parseLines_nil]
    dsimp only
    rw [hh5, hh4, hrd5, ht4]
    rw [show setAtPath [] [] ([] ++ regd) = regd from by rw [List.nil_append]; rfl]

/-- Claim C1, counterexample.  A dump that respects the grammar of the
specification (header, blank line, root marker, one block with a wrapped
leaf value split after the comma, continuation line, CRLF endings)
parses to a tree and header, but re-serializing with no modification in
between yields different bytes: the serializer re-joins the short value
onto a single line (its wrap policy only breaks lines longer than 66
characters) and writes the bracket path with a doubled leading backslash,
so the original wrap point and line bytes are not reproduced. -/
theorem claim_C1_counterexample :
    specGrammar c1noncanon = true ∧
    reg_to_dict c1noncanon = some (c1tree, some c1hdr) ∧
    output_reg c1tree (some c1hdr) 10 = some c1canon ∧
    c1canon ≠ c1noncanon :=
  ⟨rfl, rfl, rfl, by decide⟩

theorem claim_C1_witness :
    reg_to_dict c1canon = some (c1tree, some c1hdr) ∧
    output_reg c1tree (some c1hdr) 10 = some c1canon :=
  claim_C1_amended c1tree c1hdr 10 c1canon
    ⟨by decide,
     WfEntries.branch (by decide) (by simp)
       (WfEntries.leaf (by decide) (by simp) WfEntries.nil)
       WfEntries.nil⟩
    (by decide) rfl

end FixBCD
